import Mathlib

/-!
# Verification of the `ortho_gen` geometry/mesh core

Shallow embedding of the repository's geometry engine:

* `src/geometry/circle_fit.py` — `fit_circle_3d`
* `src/geometry/torus_generator.py` — `get_angle`, `generate_torus_segment`
* `src/operations/boolean_ops.py` — `subtract_meshes`, `check_mesh_validity`

Numeric (numpy float64) code is embedded over the exact reals `ℝ`;
integer index/mesh-topology code is embedded over `ℕ` with executable
definitions.  External collaborators (pyvista, manifold3d, the trimesh
boolean engines) are injected as function parameters, mirroring the
spec's description of them as external backends with a yes/no success
contract.
-/

namespace OrthoGen

/-- A 3D point / vector with real coordinates (numpy `float64` array of
shape `(3,)`, idealized over `ℝ`). -/
structure Vec3 where
  x : ℝ
  y : ℝ
  z : ℝ

namespace Vec3

noncomputable def add (a b : Vec3) : Vec3 := ⟨a.x + b.x, a.y + b.y, a.z + b.z⟩

noncomputable def sub (a b : Vec3) : Vec3 := ⟨a.x - b.x, a.y - b.y, a.z - b.z⟩

/-- Scalar multiplication. -/
noncomputable def smul (r : ℝ) (a : Vec3) : Vec3 := ⟨r * a.x, r * a.y, r * a.z⟩

/-- Componentwise division by a scalar (numpy `v / r`). -/
noncomputable def sdiv (a : Vec3) (r : ℝ) : Vec3 := ⟨a.x / r, a.y / r, a.z / r⟩

/-- Source: `np.dot` on 3-vectors. -/
noncomputable def dot (a b : Vec3) : ℝ := a.x * b.x + a.y * b.y + a.z * b.z

/-- Source: `np.cross` on 3-vectors. -/
noncomputable def cross (a b : Vec3) : Vec3 :=
  ⟨a.y * b.z - a.z * b.y, a.z * b.x - a.x * b.z, a.x * b.y - a.y * b.x⟩

/-- Source: `np.linalg.norm` on 3-vectors. -/
noncomputable def norm (a : Vec3) : ℝ := Real.sqrt (dot a a)

def zero : Vec3 := ⟨0, 0, 0⟩

end Vec3

open Vec3

/-- The result record of `fit_circle_3d`
(`center, radius, normal, basis_u, basis_w`). -/
structure Circle3D where
  center : Vec3
  radius : ℝ
  normal : Vec3
  basis_u : Vec3
  basis_w : Vec3

/-! ## Embedding of `fit_circle_3d` (src/geometry/circle_fit.py)

The intermediate quantities of the Python function are given their own
definitions, mirroring the source line by line. -/

/-- Source: `normal = np.cross(v1, v2)` with `v1 = p2 - p1`, `v2 = p3 - p1`. -/
noncomputable def fitCross (p1 p2 p3 : Vec3) : Vec3 :=
  cross (sub p2 p1) (sub p3 p1)

/-- Source: `norm_mag = np.linalg.norm(normal)`. -/
noncomputable def fitCrossMag (p1 p2 p3 : Vec3) : ℝ :=
  norm (fitCross p1 p2 p3)

/-- Source: `normal = normal / norm_mag` (the unit plane normal). -/
noncomputable def fitNormal (p1 p2 p3 : Vec3) : Vec3 :=
  sdiv (fitCross p1 p2 p3) (fitCrossMag p1 p2 p3)

/-- Source: `u = v1 / np.linalg.norm(v1)`. -/
noncomputable def fitU (p1 p2 : Vec3) : Vec3 :=
  sdiv (sub p2 p1) (norm (sub p2 p1))

/-- Source: `w = np.cross(normal, u)`. -/
noncomputable def fitW (p1 p2 p3 : Vec3) : Vec3 :=
  cross (fitNormal p1 p2 p3) (fitU p1 p2)

/-- First coordinate of `p2_2d = [np.dot(p2 - p1, u), np.dot(p2 - p1, w)]`. -/
noncomputable def fitX2 (p1 p2 : Vec3) : ℝ := dot (sub p2 p1) (fitU p1 p2)

/-- Second coordinate of `p2_2d`. -/
noncomputable def fitY2 (p1 p2 p3 : Vec3) : ℝ := dot (sub p2 p1) (fitW p1 p2 p3)

/-- First coordinate of `p3_2d`. -/
noncomputable def fitX3 (p1 p2 p3 : Vec3) : ℝ := dot (sub p3 p1) (fitU p1 p2)

/-- Second coordinate of `p3_2d`. -/
noncomputable def fitY3 (p1 p2 p3 : Vec3) : ℝ := dot (sub p3 p1) (fitW p1 p2 p3)

/-- Determinant of the 2×2 system
`A = [[2*x2, 2*y2], [2*x3, 2*y3]]` solved by `np.linalg.solve`.
`np.linalg.solve` raises `LinAlgError` exactly on a singular matrix,
i.e. (in the exact-real model) when this determinant is zero. -/
noncomputable def fitDet (p1 p2 p3 : Vec3) : ℝ :=
  (2 * fitX2 p1 p2) * (2 * fitY3 p1 p2 p3) -
    (2 * fitY2 p1 p2 p3) * (2 * fitX3 p1 p2 p3)

/-- Source: `center_2d[0]` by Cramer's rule
(`b = [x2^2 + y2^2, x3^2 + y3^2]`). -/
noncomputable def fitCx (p1 p2 p3 : Vec3) : ℝ :=
  ((fitX2 p1 p2 ^ 2 + fitY2 p1 p2 p3 ^ 2) * (2 * fitY3 p1 p2 p3) -
    (fitX3 p1 p2 p3 ^ 2 + fitY3 p1 p2 p3 ^ 2) * (2 * fitY2 p1 p2 p3)) /
      fitDet p1 p2 p3

/-- Source: `center_2d[1]` by Cramer's rule. -/
noncomputable def fitCy (p1 p2 p3 : Vec3) : ℝ :=
  ((2 * fitX2 p1 p2) * (fitX3 p1 p2 p3 ^ 2 + fitY3 p1 p2 p3 ^ 2) -
    (2 * fitX3 p1 p2 p3) * (fitX2 p1 p2 ^ 2 + fitY2 p1 p2 p3 ^ 2)) /
      fitDet p1 p2 p3

/-- Source: `center = p1 + center_2d[0] * u + center_2d[1] * w`. -/
noncomputable def fitCenter (p1 p2 p3 : Vec3) : Vec3 :=
  add p1 (add (smul (fitCx p1 p2 p3) (fitU p1 p2))
    (smul (fitCy p1 p2 p3) (fitW p1 p2 p3)))

/-- Source: `radius = np.linalg.norm(center_2d)`. -/
noncomputable def fitRadius (p1 p2 p3 : Vec3) : ℝ :=
  Real.sqrt (fitCx p1 p2 p3 ^ 2 + fitCy p1 p2 p3 ^ 2)

/-- Source: `basis_u = (p1 - center) / np.linalg.norm(p1 - center)`. -/
noncomputable def fitBasisU (p1 p2 p3 : Vec3) : Vec3 :=
  sdiv (sub p1 (fitCenter p1 p2 p3)) (norm (sub p1 (fitCenter p1 p2 p3)))

/-- Source: `basis_w = np.cross(normal, basis_u)`. -/
noncomputable def fitBasisW (p1 p2 p3 : Vec3) : Vec3 :=
  cross (fitNormal p1 p2 p3) (fitBasisU p1 p2 p3)

/-- Source: `fit_circle_3d(p1, p2, p3)` from `src/geometry/circle_fit.py`.
Returns `none` when `norm_mag < 1e-10` (collinear guard) or when
`np.linalg.solve` raises on the singular 2×2 system. -/
noncomputable def fit_circle_3d (p1 p2 p3 : Vec3) : Option Circle3D :=
  if fitCrossMag p1 p2 p3 < 1e-10 then none
  else if fitDet p1 p2 p3 = 0 then none
  else some
    { center := fitCenter p1 p2 p3
      radius := fitRadius p1 p2 p3
      normal := fitNormal p1 p2 p3
      basis_u := fitBasisU p1 p2 p3
      basis_w := fitBasisW p1 p2 p3 }

/-- Collinearity (including coincident points) of a triple, in the
standard exact sense: the cross product of the two difference vectors
vanishes. -/
noncomputable def collinear3 (p1 p2 p3 : Vec3) : Prop :=
  fitCross p1 p2 p3 = Vec3.zero

/-! ### Coordinate algebra on `Vec3` -/

lemma Vec3.ext' {a b : Vec3} (hx : a.x = b.x) (hy : a.y = b.y)
    (hz : a.z = b.z) : a = b := by
  cases a; cases b; simp_all

lemma dot_nonneg (a : Vec3) : 0 ≤ dot a a := by
  simp only [dot]
  nlinarith [mul_self_nonneg a.x, mul_self_nonneg a.y, mul_self_nonneg a.z]

lemma dot_self_eq_zero {a : Vec3} (h : dot a a = 0) : a = Vec3.zero := by
  simp only [dot] at h
  refine Vec3.ext' ?_ ?_ ?_ <;> simp only [Vec3.zero] <;> nlinarith

lemma cross_dot_left (a b : Vec3) : dot (cross a b) a = 0 := by
  simp only [dot, cross]; ring

lemma cross_dot_right (a b : Vec3) : dot (cross a b) b = 0 := by
  simp only [dot, cross]; ring

lemma cross_normSq (a b : Vec3) :
    dot (cross a b) (cross a b) = dot a a * dot b b - dot a b ^ 2 := by
  simp only [dot, cross]; ring

/-- The Gram-determinant (Cauchy–Binet) identity for the scalar triple
product `v · (n × u)`. -/
lemma gram_det (v n u : Vec3) :
    dot v (cross n u) ^ 2 =
      dot v v * (dot n n * dot u u - dot n u ^ 2) - dot v n ^ 2 * dot u u -
        dot v u ^ 2 * dot n n + 2 * dot v n * dot v u * dot n u := by
  simp only [dot, cross]; ring

lemma cross_zero_left (b : Vec3) : cross Vec3.zero b = Vec3.zero := by
  simp only [cross, Vec3.zero]
  exact Vec3.ext' (by ring) (by ring) (by ring)

lemma dot_sdiv_left (a b : Vec3) (r : ℝ) : dot (sdiv a r) b = dot a b / r := by
  simp only [dot, sdiv]; ring

lemma dot_sdiv_both (a b : Vec3) (r s : ℝ) :
    dot (sdiv a r) (sdiv b s) = dot a b / (r * s) := by
  simp only [dot, sdiv]; ring

lemma dot_comm (a b : Vec3) : dot a b = dot b a := by
  simp only [dot]; ring

/-- Expansion of `|a - (s·u + t·w)|²` in terms of dot products. -/
lemma expand_combo (a u w : Vec3) (s t : ℝ) :
    dot (sub a (add (smul s u) (smul t w))) (sub a (add (smul s u) (smul t w))) =
      dot a a - 2 * s * dot a u - 2 * t * dot a w + s ^ 2 * dot u u +
        2 * s * t * dot u w + t ^ 2 * dot w w := by
  simp only [dot, sub, add, smul]; ring

lemma sub_add_left (p q : Vec3) (X : Vec3) :
    sub q (add p X) = sub (sub q p) X := by
  simp only [sub, add]
  exact Vec3.ext' (by ring) (by ring) (by ring)

lemma dot_combo (u w : Vec3) (s t : ℝ) :
    dot (add (smul s u) (smul t w)) (add (smul s u) (smul t w)) =
      s ^ 2 * dot u u + 2 * s * t * dot u w + t ^ 2 * dot w w := by
  simp only [dot, add, smul]; ring

lemma dot_sub_self_add (p : Vec3) (X : Vec3) :
    dot (sub p (add p X)) (sub p (add p X)) = dot X X := by
  simp only [dot, sub, add]; ring

/-! ### Consequences of the collinearity guard -/

/-- If the `norm_mag < 1e-10` guard does not fire, the cross product has
positive squared norm. -/
lemma crossSq_pos {p1 p2 p3 : Vec3} (hm : ¬ fitCrossMag p1 p2 p3 < 1e-10) :
    0 < dot (fitCross p1 p2 p3) (fitCross p1 p2 p3) := by
  by_contra h
  have h0 : dot (fitCross p1 p2 p3) (fitCross p1 p2 p3) = 0 :=
    le_antisymm (not_lt.mp h) (dot_nonneg _)
  apply hm
  simp only [fitCrossMag, Vec3.norm, h0, Real.sqrt_zero]
  norm_num

/-- With the guard passed, `v1 = p2 - p1` has positive squared norm
(`C10`: the division `v1 / |v1|` is by a positive number). -/
lemma v1Sq_pos {p1 p2 p3 : Vec3} (hm : ¬ fitCrossMag p1 p2 p3 < 1e-10) :
    0 < dot (sub p2 p1) (sub p2 p1) := by
  rcases lt_or_eq_of_le (dot_nonneg (sub p2 p1)) with h | h
  · exact h
  · exfalso
    have hz : sub p2 p1 = Vec3.zero := dot_self_eq_zero h.symm
    have : fitCross p1 p2 p3 = Vec3.zero := by
      simp only [fitCross, hz, cross_zero_left]
    have h0 := crossSq_pos hm
    rw [this] at h0
    simp only [dot, Vec3.zero] at h0
    norm_num at h0

lemma norm_pos_of_dot_pos {a : Vec3} (h : 0 < dot a a) : 0 < norm a :=
  Real.sqrt_pos.mpr h

lemma norm_sq (a : Vec3) : norm a * norm a = dot a a ↔ 0 ≤ dot a a := by
  constructor
  · intro _; exact dot_nonneg a
  · intro h; exact Real.mul_self_sqrt h

/-! ### The orthonormal frame `(u, w, n)` built by `fit_circle_3d` -/

lemma u_unit {p1 p2 p3 : Vec3} (hm : ¬ fitCrossMag p1 p2 p3 < 1e-10) :
    dot (fitU p1 p2) (fitU p1 p2) = 1 := by
  have hv := v1Sq_pos hm
  have hnorm : norm (sub p2 p1) * norm (sub p2 p1) = dot (sub p2 p1) (sub p2 p1) :=
    Real.mul_self_sqrt (dot_nonneg _)
  simp only [fitU, dot_sdiv_both, hnorm]
  field_simp

lemma n_unit {p1 p2 p3 : Vec3} (hm : ¬ fitCrossMag p1 p2 p3 < 1e-10) :
    dot (fitNormal p1 p2 p3) (fitNormal p1 p2 p3) = 1 := by
  have hc := crossSq_pos hm
  have hnorm : fitCrossMag p1 p2 p3 * fitCrossMag p1 p2 p3 =
      dot (fitCross p1 p2 p3) (fitCross p1 p2 p3) := by
    simp only [fitCrossMag, Vec3.norm]
    exact Real.mul_self_sqrt (dot_nonneg _)
  simp only [fitNormal, dot_sdiv_both, hnorm]
  field_simp

lemma nu_orth (p1 p2 p3 : Vec3) :
    dot (fitNormal p1 p2 p3) (fitU p1 p2) = 0 := by
  have h : dot (fitCross p1 p2 p3) (sub p2 p1) = 0 := cross_dot_left _ _
  simp only [fitNormal, fitU, dot_sdiv_both, h, zero_div]

lemma v1n_orth (p1 p2 p3 : Vec3) :
    dot (sub p2 p1) (fitNormal p1 p2 p3) = 0 := by
  rw [dot_comm]
  have h : dot (fitCross p1 p2 p3) (sub p2 p1) = 0 := cross_dot_left _ _
  simp only [fitNormal, dot_sdiv_left, h, zero_div]

lemma v2n_orth (p1 p2 p3 : Vec3) :
    dot (sub p3 p1) (fitNormal p1 p2 p3) = 0 := by
  rw [dot_comm]
  have h : dot (fitCross p1 p2 p3) (sub p3 p1) = 0 := cross_dot_right _ _
  simp only [fitNormal, dot_sdiv_left, h, zero_div]

lemma w_unit {p1 p2 p3 : Vec3} (hm : ¬ fitCrossMag p1 p2 p3 < 1e-10) :
    dot (fitW p1 p2 p3) (fitW p1 p2 p3) = 1 := by
  simp only [fitW, cross_normSq, n_unit hm, u_unit hm, nu_orth]
  norm_num

lemma uw_orth (p1 p2 p3 : Vec3) :
    dot (fitU p1 p2) (fitW p1 p2 p3) = 0 := by
  rw [dot_comm]
  exact cross_dot_right _ _

lemma nw_orth (p1 p2 p3 : Vec3) :
    dot (fitNormal p1 p2 p3) (fitW p1 p2 p3) = 0 := by
  rw [dot_comm]
  exact cross_dot_left _ _

/-- Projection to the `(u, w)` frame preserves the squared norm of
`v1` (which lies in the plane). -/
lemma v1_pythagoras {p1 p2 p3 : Vec3} (hm : ¬ fitCrossMag p1 p2 p3 < 1e-10) :
    dot (sub p2 p1) (sub p2 p1) = fitX2 p1 p2 ^ 2 + fitY2 p1 p2 p3 ^ 2 := by
  have hg := gram_det (sub p2 p1) (fitNormal p1 p2 p3) (fitU p1 p2)
  rw [n_unit hm, u_unit hm, nu_orth, v1n_orth] at hg
  have hy : fitY2 p1 p2 p3 = dot (sub p2 p1) (cross (fitNormal p1 p2 p3) (fitU p1 p2)) := by
    simp only [fitY2, fitW]
  have hx : fitX2 p1 p2 = dot (sub p2 p1) (fitU p1 p2) := rfl
  rw [← hy, ← hx] at hg
  nlinarith [hg]

lemma v2_pythagoras {p1 p2 p3 : Vec3} (hm : ¬ fitCrossMag p1 p2 p3 < 1e-10) :
    dot (sub p3 p1) (sub p3 p1) = fitX3 p1 p2 p3 ^ 2 + fitY3 p1 p2 p3 ^ 2 := by
  have hg := gram_det (sub p3 p1) (fitNormal p1 p2 p3) (fitU p1 p2)
  rw [n_unit hm, u_unit hm, nu_orth, v2n_orth] at hg
  have hy : fitY3 p1 p2 p3 = dot (sub p3 p1) (cross (fitNormal p1 p2 p3) (fitU p1 p2)) := by
    simp only [fitY3, fitW]
  have hx : fitX3 p1 p2 p3 = dot (sub p3 p1) (fitU p1 p2) := rfl
  rw [← hy, ← hx] at hg
  nlinarith [hg]

/-! ### The circumcenter equations (Cramer's rule) -/

lemma cramer2 {p1 p2 p3 : Vec3} (hd : fitDet p1 p2 p3 ≠ 0) :
    2 * fitX2 p1 p2 * fitCx p1 p2 p3 + 2 * fitY2 p1 p2 p3 * fitCy p1 p2 p3 =
      fitX2 p1 p2 ^ 2 + fitY2 p1 p2 p3 ^ 2 := by
  simp only [fitCx, fitCy]
  field_simp
  simp only [fitDet]
  ring

lemma cramer3 {p1 p2 p3 : Vec3} (hd : fitDet p1 p2 p3 ≠ 0) :
    2 * fitX3 p1 p2 p3 * fitCx p1 p2 p3 + 2 * fitY3 p1 p2 p3 * fitCy p1 p2 p3 =
      fitX3 p1 p2 p3 ^ 2 + fitY3 p1 p2 p3 ^ 2 := by
  simp only [fitCx, fitCy]
  field_simp
  simp only [fitDet]
  ring

/-! ### Squared distances from the fitted center -/

lemma bilin_sub_self_add (a p : Vec3) (X : Vec3) :
    dot a (sub p (add p X)) = -dot a X := by
  simp only [dot, sub, add]; ring

lemma bilin_add_smul (a b c : Vec3) (s t : ℝ) :
    dot a (add (smul s b) (smul t c)) = s * dot a b + t * dot a c := by
  simp only [dot, add, smul]; ring

lemma p1_center_normSq {p1 p2 p3 : Vec3} (hm : ¬ fitCrossMag p1 p2 p3 < 1e-10) :
    dot (sub p1 (fitCenter p1 p2 p3)) (sub p1 (fitCenter p1 p2 p3)) =
      fitCx p1 p2 p3 ^ 2 + fitCy p1 p2 p3 ^ 2 := by
  rw [fitCenter, dot_sub_self_add, dot_combo, u_unit hm, w_unit hm, uw_orth]
  ring

lemma p2_center_normSq {p1 p2 p3 : Vec3} (hm : ¬ fitCrossMag p1 p2 p3 < 1e-10)
    (hd : fitDet p1 p2 p3 ≠ 0) :
    dot (sub p2 (fitCenter p1 p2 p3)) (sub p2 (fitCenter p1 p2 p3)) =
      fitCx p1 p2 p3 ^ 2 + fitCy p1 p2 p3 ^ 2 := by
  rw [fitCenter, sub_add_left, expand_combo, u_unit hm, w_unit hm, uw_orth]
  have hx : dot (sub p2 p1) (fitU p1 p2) = fitX2 p1 p2 := rfl
  have hy : dot (sub p2 p1) (fitW p1 p2 p3) = fitY2 p1 p2 p3 := rfl
  rw [hx, hy, v1_pythagoras hm]
  have h2 := @cramer2 p1 p2 p3 hd
  nlinarith [h2]

lemma p3_center_normSq {p1 p2 p3 : Vec3} (hm : ¬ fitCrossMag p1 p2 p3 < 1e-10)
    (hd : fitDet p1 p2 p3 ≠ 0) :
    dot (sub p3 (fitCenter p1 p2 p3)) (sub p3 (fitCenter p1 p2 p3)) =
      fitCx p1 p2 p3 ^ 2 + fitCy p1 p2 p3 ^ 2 := by
  rw [fitCenter, sub_add_left, expand_combo, u_unit hm, w_unit hm, uw_orth]
  have hx : dot (sub p3 p1) (fitU p1 p2) = fitX3 p1 p2 p3 := rfl
  have hy : dot (sub p3 p1) (fitW p1 p2 p3) = fitY3 p1 p2 p3 := rfl
  rw [hx, hy, v2_pythagoras hm]
  have h3 := @cramer3 p1 p2 p3 hd
  nlinarith [h3]

/-- On the success path the solved circumcenter is distinct from the
projected `p1`, i.e. the squared radius is positive. -/
lemma radiusSq_pos {p1 p2 p3 : Vec3} (hm : ¬ fitCrossMag p1 p2 p3 < 1e-10)
    (hd : fitDet p1 p2 p3 ≠ 0) :
    0 < fitCx p1 p2 p3 ^ 2 + fitCy p1 p2 p3 ^ 2 := by
  rcases lt_or_eq_of_le (by positivity :
      (0:ℝ) ≤ fitCx p1 p2 p3 ^ 2 + fitCy p1 p2 p3 ^ 2) with h | h
  · exact h
  · exfalso
    have hcx : fitCx p1 p2 p3 = 0 := by nlinarith [sq_nonneg (fitCx p1 p2 p3), sq_nonneg (fitCy p1 p2 p3)]
    have hcy : fitCy p1 p2 p3 = 0 := by nlinarith [sq_nonneg (fitCx p1 p2 p3), sq_nonneg (fitCy p1 p2 p3)]
    have h2 := @cramer2 p1 p2 p3 hd
    rw [hcx, hcy] at h2
    have hv := v1Sq_pos hm
    rw [v1_pythagoras hm] at hv
    nlinarith [h2, hv]

lemma dist_p1_eq_radius {p1 p2 p3 : Vec3} (hm : ¬ fitCrossMag p1 p2 p3 < 1e-10) :
    norm (sub p1 (fitCenter p1 p2 p3)) = fitRadius p1 p2 p3 := by
  rw [Vec3.norm, p1_center_normSq hm, fitRadius]

lemma dist_p2_eq_radius {p1 p2 p3 : Vec3} (hm : ¬ fitCrossMag p1 p2 p3 < 1e-10)
    (hd : fitDet p1 p2 p3 ≠ 0) :
    norm (sub p2 (fitCenter p1 p2 p3)) = fitRadius p1 p2 p3 := by
  rw [Vec3.norm, p2_center_normSq hm hd, fitRadius]

lemma dist_p3_eq_radius {p1 p2 p3 : Vec3} (hm : ¬ fitCrossMag p1 p2 p3 < 1e-10)
    (hd : fitDet p1 p2 p3 ≠ 0) :
    norm (sub p3 (fitCenter p1 p2 p3)) = fitRadius p1 p2 p3 := by
  rw [Vec3.norm, p3_center_normSq hm hd, fitRadius]

/-- Destructing a successful fit into its guards and field values. -/
lemma fit_some_elim {p1 p2 p3 : Vec3} {C : Circle3D}
    (h : fit_circle_3d p1 p2 p3 = some C) :
    ¬ fitCrossMag p1 p2 p3 < 1e-10 ∧ fitDet p1 p2 p3 ≠ 0 ∧
      C.center = fitCenter p1 p2 p3 ∧ C.radius = fitRadius p1 p2 p3 ∧
      C.normal = fitNormal p1 p2 p3 ∧ C.basis_u = fitBasisU p1 p2 p3 ∧
      C.basis_w = fitBasisW p1 p2 p3 := by
  rw [fit_circle_3d] at h
  by_cases hm : fitCrossMag p1 p2 p3 < 1e-10
  · rw [if_pos hm] at h
    exact Option.noConfusion h
  · rw [if_neg hm] at h
    by_cases hd : fitDet p1 p2 p3 = 0
    · rw [if_pos hd] at h
      exact Option.noConfusion h
    · rw [if_neg hd] at h
      have he := Option.some.inj h
      subst he
      exact ⟨hm, hd, rfl, rfl, rfl, rfl, rfl⟩

/-- Claim C1 (amended): whenever `fit_circle_3d` returns a circle — in
particular for every non-collinear triple whose cross product passes the
`1e-10` magnitude guard with a nonsingular projected system — the
distance from the returned center to each of `p1, p2, p3` equals the
returned radius exactly, hence a fortiori within `1e-6` relative
tolerance. -/
theorem fit_circle_3d_distances (p1 p2 p3 : Vec3) (C : Circle3D)
    (h : fit_circle_3d p1 p2 p3 = some C) :
    norm (sub p1 C.center) = C.radius ∧ norm (sub p2 C.center) = C.radius ∧
      norm (sub p3 C.center) = C.radius ∧
      |norm (sub p1 C.center) - C.radius| ≤ 1e-6 * C.radius ∧
      |norm (sub p2 C.center) - C.radius| ≤ 1e-6 * C.radius ∧
      |norm (sub p3 C.center) - C.radius| ≤ 1e-6 * C.radius := by
  obtain ⟨hm, hd, hc, hr, -, -, -⟩ := fit_some_elim h
  rw [hc, hr]
  have h1 := @dist_p1_eq_radius p1 p2 p3 hm
  have h2 := dist_p2_eq_radius hm hd
  have h3 := dist_p3_eq_radius hm hd
  have hrad : 0 ≤ fitRadius p1 p2 p3 := Real.sqrt_nonneg _
  refine ⟨h1, h2, h3, ?_, ?_, ?_⟩
  · rw [h1, sub_self, abs_zero]
    exact mul_nonneg (by norm_num) hrad
  · rw [h2, sub_self, abs_zero]
    exact mul_nonneg (by norm_num) hrad
  · rw [h3, sub_self, abs_zero]
    exact mul_nonneg (by norm_num) hrad

/-- Claim C8: `fit_circle_3d` returns the failure value `None` exactly
when the cross product `(p2-p1) × (p3-p1)` has magnitude below the
`1e-10` tolerance or the projected 2×2 circumcenter system is singular
(zero determinant, on which `np.linalg.solve` raises); in every other
case it returns a complete circle.  The `Option` return type embeds
"no partial `Circle3D` is ever returned". -/
theorem fit_circle_3d_none_iff (p1 p2 p3 : Vec3) :
    fit_circle_3d p1 p2 p3 = none ↔
      fitCrossMag p1 p2 p3 < 1e-10 ∨ fitDet p1 p2 p3 = 0 := by
  rw [fit_circle_3d]
  by_cases hm : fitCrossMag p1 p2 p3 < 1e-10
  · simp [hm]
  · by_cases hd : fitDet p1 p2 p3 = 0
    · simp [hm, hd]
    · simp [hm, hd]

lemma dot_sdiv_right (a b : Vec3) (r : ℝ) :
    dot a (sdiv b r) = dot a b / r := by
  simp only [dot, sdiv]; ring

lemma norm_eq_one {a : Vec3} (h : dot a a = 1) : norm a = 1 := by
  rw [Vec3.norm, h, Real.sqrt_one]

/-- The plane normal is orthogonal to the vector from the fitted center
back to `p1`. -/
lemma normal_orth_p1_center (p1 p2 p3 : Vec3) :
    dot (fitNormal p1 p2 p3) (sub p1 (fitCenter p1 p2 p3)) = 0 := by
  rw [fitCenter, bilin_sub_self_add, bilin_add_smul, nu_orth, nw_orth]
  ring

/-- Claim C9: on every successful fit the returned frame satisfies the
`Circle3D` invariants: `normal`, `basis_u`, `basis_w` are unit vectors,
`normal ⟂ basis_u`, `basis_w = normal × basis_u`, and `basis_u` is the
unit vector pointing from the center to `p1` (anchoring angle zero at
`p1`). -/
theorem fit_circle_3d_frame (p1 p2 p3 : Vec3) (C : Circle3D)
    (h : fit_circle_3d p1 p2 p3 = some C) :
    norm C.normal = 1 ∧ norm C.basis_u = 1 ∧ norm C.basis_w = 1 ∧
      dot C.normal C.basis_u = 0 ∧
      C.basis_w = cross C.normal C.basis_u ∧
      C.basis_u = sdiv (sub p1 C.center) (norm (sub p1 C.center)) := by
  obtain ⟨hm, hd, hc, -, hn, hu, hw⟩ := fit_some_elim h
  have hdSq : dot (sub p1 (fitCenter p1 p2 p3)) (sub p1 (fitCenter p1 p2 p3)) =
      fitCx p1 p2 p3 ^ 2 + fitCy p1 p2 p3 ^ 2 := p1_center_normSq hm
  have hdpos : 0 < dot (sub p1 (fitCenter p1 p2 p3)) (sub p1 (fitCenter p1 p2 p3)) := by
    rw [hdSq]; exact radiusSq_pos hm hd
  have hnorm : norm (sub p1 (fitCenter p1 p2 p3)) * norm (sub p1 (fitCenter p1 p2 p3)) =
      dot (sub p1 (fitCenter p1 p2 p3)) (sub p1 (fitCenter p1 p2 p3)) :=
    Real.mul_self_sqrt (dot_nonneg _)
  have hbuSq : dot (fitBasisU p1 p2 p3) (fitBasisU p1 p2 p3) = 1 := by
    rw [fitBasisU, dot_sdiv_both, hnorm]
    field_simp
  have hnbu : dot (fitNormal p1 p2 p3) (fitBasisU p1 p2 p3) = 0 := by
    rw [fitBasisU, dot_sdiv_right, normal_orth_p1_center, zero_div]
  have hbwSq : dot (fitBasisW p1 p2 p3) (fitBasisW p1 p2 p3) = 1 := by
    rw [fitBasisW, cross_normSq, n_unit hm, hbuSq, hnbu]
    norm_num
  rw [hn, hu, hw, hc]
  exact ⟨norm_eq_one (n_unit hm), norm_eq_one hbuSq, norm_eq_one hbwSq, hnbu,
    rfl, rfl⟩

/-- Claim C10: `fit_circle_3d` never divides by zero.  The only
normalizations are `v1 / |v1|`, guarded by the cross-magnitude check
(which forces `|v1| > 0`), and `(p1 - center) / |p1 - center|` on the
success path, where `|p1 - center| > 0` (equivalently, the returned
radius is strictly positive). -/
theorem fit_circle_3d_no_zero_division (p1 p2 p3 : Vec3) :
    (¬ fitCrossMag p1 p2 p3 < 1e-10 → 0 < norm (sub p2 p1)) ∧
      ∀ C, fit_circle_3d p1 p2 p3 = some C →
        0 < norm (sub p1 C.center) ∧ 0 < C.radius := by
  constructor
  · intro hm
    exact norm_pos_of_dot_pos (v1Sq_pos hm)
  · intro C h
    obtain ⟨hm, hd, hc, hr, -, -, -⟩ := fit_some_elim h
    constructor
    · rw [hc]
      apply norm_pos_of_dot_pos
      rw [p1_center_normSq hm]
      exact radiusSq_pos hm hd
    · rw [hr, fitRadius]
      exact Real.sqrt_pos.mpr (radiusSq_pos hm hd)

/-- Claim C1, counterexample to the literal statement: the triple
`(0,0,0), (1e-6,0,0), (0,1e-6,0)` is not collinear (its cross product is
`(0,0,1e-12) ≠ 0`), yet `fit_circle_3d` returns the failure value `None`
(the cross-product magnitude `1e-12` is below the `1e-10` guard), so no
circle is returned at all. -/
theorem fit_circle_3d_noncollinear_failure :
    ¬ collinear3 ⟨0,0,0⟩ ⟨1e-6,0,0⟩ ⟨0,1e-6,0⟩ ∧
      fit_circle_3d ⟨0,0,0⟩ ⟨1e-6,0,0⟩ ⟨0,1e-6,0⟩ = none := by
  have hcross : fitCross ⟨0,0,0⟩ ⟨1e-6,0,0⟩ ⟨0,1e-6,0⟩ = ⟨0, 0, 1e-12⟩ := by
    simp only [fitCross, cross, sub, Vec3.mk.injEq]
    norm_num
  constructor
  · rw [collinear3, hcross]
    simp only [Vec3.zero, Vec3.mk.injEq]
    norm_num
  · rw [fit_circle_3d, if_pos]
    rw [fitCrossMag, hcross, Vec3.norm, dot]
    have : (0:ℝ) * 0 + 0 * 0 + 1e-12 * 1e-12 = (1e-12 : ℝ) * 1e-12 := by norm_num
    rw [this, Real.sqrt_mul_self (by norm_num : (0:ℝ) ≤ 1e-12)]
    norm_num

/-! ### A concrete evaluation of `fit_circle_3d`: the 3-4-5 right triangle -/

noncomputable def q1 : Vec3 := ⟨0, 0, 0⟩

noncomputable def q2 : Vec3 := ⟨3, 0, 0⟩

noncomputable def q3 : Vec3 := ⟨0, 4, 0⟩

/-- The circle through `q1, q2, q3`: center `(3/2, 2, 0)`, radius `5/2`. -/
noncomputable def circ0 : Circle3D :=
  { center := ⟨3/2, 2, 0⟩
    radius := 5/2
    normal := ⟨0, 0, 1⟩
    basis_u := ⟨-(3/5), -(4/5), 0⟩
    basis_w := ⟨4/5, -(3/5), 0⟩ }

lemma sqrt_eval {a b : ℝ} (h1 : 0 ≤ a) (h2 : a * a = b) : Real.sqrt b = a := by
  rw [← h2]
  exact Real.sqrt_mul_self h1

lemma q_cross_eval : fitCross q1 q2 q3 = ⟨0, 0, 12⟩ := by
  simp only [fitCross, cross, sub, q1, q2, q3, Vec3.mk.injEq]
  norm_num

lemma q_crossMag_eval : fitCrossMag q1 q2 q3 = 12 := by
  rw [fitCrossMag, q_cross_eval, Vec3.norm, dot]
  exact sqrt_eval (by norm_num) (by norm_num)

lemma q_normal_eval : fitNormal q1 q2 q3 = ⟨0, 0, 1⟩ := by
  rw [fitNormal, q_cross_eval, q_crossMag_eval]
  simp only [sdiv, Vec3.mk.injEq]
  norm_num

lemma q_v1norm_eval : norm (sub q2 q1) = 3 := by
  simp only [q1, q2, sub, Vec3.norm, dot]
  exact sqrt_eval (by norm_num) (by norm_num)

lemma q_u_eval : fitU q1 q2 = ⟨1, 0, 0⟩ := by
  rw [fitU, q_v1norm_eval]
  simp only [sub, sdiv, q1, q2, Vec3.mk.injEq]
  norm_num

lemma q_w_eval : fitW q1 q2 q3 = ⟨0, 1, 0⟩ := by
  rw [fitW, q_normal_eval, q_u_eval]
  simp only [cross, Vec3.mk.injEq]
  norm_num

lemma q_x2_eval : fitX2 q1 q2 = 3 := by
  rw [fitX2, q_u_eval]
  simp only [sub, dot, q1, q2]
  norm_num

lemma q_y2_eval : fitY2 q1 q2 q3 = 0 := by
  rw [fitY2, q_w_eval]
  simp only [sub, dot, q1, q2]
  norm_num

lemma q_x3_eval : fitX3 q1 q2 q3 = 0 := by
  rw [fitX3, q_u_eval]
  simp only [sub, dot, q1, q3]
  norm_num

lemma q_y3_eval : fitY3 q1 q2 q3 = 4 := by
  rw [fitY3, q_w_eval]
  simp only [sub, dot, q1, q3]
  norm_num

lemma q_det_eval : fitDet q1 q2 q3 = 48 := by
  rw [fitDet, q_x2_eval, q_y2_eval, q_x3_eval, q_y3_eval]
  norm_num

lemma q_cx_eval : fitCx q1 q2 q3 = 3/2 := by
  rw [fitCx, q_det_eval, q_x2_eval, q_y2_eval, q_x3_eval, q_y3_eval]
  norm_num

lemma q_cy_eval : fitCy q1 q2 q3 = 2 := by
  rw [fitCy, q_det_eval, q_x2_eval, q_y2_eval, q_x3_eval, q_y3_eval]
  norm_num

lemma q_center_eval : fitCenter q1 q2 q3 = ⟨3/2, 2, 0⟩ := by
  rw [fitCenter, q_cx_eval, q_cy_eval, q_u_eval, q_w_eval]
  simp only [q1, add, smul, Vec3.mk.injEq]
  norm_num

lemma q_radius_eval : fitRadius q1 q2 q3 = 5/2 := by
  rw [fitRadius, q_cx_eval, q_cy_eval]
  have : (3/2 : ℝ) ^ 2 + (2:ℝ) ^ 2 = (5/2) * (5/2) := by norm_num
  rw [this]
  exact Real.sqrt_mul_self (by norm_num)

lemma q_p1c_norm_eval : norm (sub q1 (fitCenter q1 q2 q3)) = 5/2 := by
  rw [q_center_eval]
  simp only [q1, sub, Vec3.norm, dot]
  exact sqrt_eval (by norm_num) (by norm_num)

lemma q_basisU_eval : fitBasisU q1 q2 q3 = ⟨-(3/5), -(4/5), 0⟩ := by
  rw [fitBasisU, q_p1c_norm_eval, q_center_eval]
  simp only [q1, sub, sdiv, Vec3.mk.injEq]
  norm_num

lemma q_basisW_eval : fitBasisW q1 q2 q3 = ⟨4/5, -(3/5), 0⟩ := by
  rw [fitBasisW, q_normal_eval, q_basisU_eval]
  simp only [cross, Vec3.mk.injEq]
  norm_num

/-- Evaluation of the full fit on the 3-4-5 triangle. -/
lemma q_fit_eval : fit_circle_3d q1 q2 q3 = some circ0 := by
  rw [fit_circle_3d, if_neg, if_neg]
  · rw [circ0, q_center_eval, q_radius_eval, q_normal_eval, q_basisU_eval,
      q_basisW_eval]
  · rw [q_det_eval]
    norm_num
  · rw [q_crossMag_eval]
    norm_num

/-- Witness for C1: the amended theorem applied to the concrete 3-4-5
triangle. -/
theorem fit_circle_3d_distances_witness :
    norm (sub q1 circ0.center) = circ0.radius ∧
      norm (sub q2 circ0.center) = circ0.radius ∧
      norm (sub q3 circ0.center) = circ0.radius ∧
      |norm (sub q1 circ0.center) - circ0.radius| ≤ 1e-6 * circ0.radius ∧
      |norm (sub q2 circ0.center) - circ0.radius| ≤ 1e-6 * circ0.radius ∧
      |norm (sub q3 circ0.center) - circ0.radius| ≤ 1e-6 * circ0.radius :=
  fit_circle_3d_distances q1 q2 q3 circ0 q_fit_eval

/-- Witness for C9 at the concrete 3-4-5 triangle. -/
theorem fit_circle_3d_frame_witness :
    norm circ0.normal = 1 ∧ norm circ0.basis_u = 1 ∧ norm circ0.basis_w = 1 ∧
      dot circ0.normal circ0.basis_u = 0 ∧
      circ0.basis_w = cross circ0.normal circ0.basis_u ∧
      circ0.basis_u = sdiv (sub q1 circ0.center) (norm (sub q1 circ0.center)) :=
  fit_circle_3d_frame q1 q2 q3 circ0 q_fit_eval

/-- Witness for C10 at the concrete 3-4-5 triangle: both divisors are
strictly positive there. -/
theorem fit_circle_3d_no_zero_division_witness :
    0 < norm (sub q2 q1) ∧ 0 < norm (sub q1 circ0.center) ∧ 0 < circ0.radius := by
  have h := fit_circle_3d_no_zero_division q1 q2 q3
  refine ⟨h.1 ?_, h.2 circ0 q_fit_eval⟩
  rw [q_crossMag_eval]
  norm_num

/-! ## Meshes and validity checks (src/operations/boolean_ops.py)

A `trimesh.Trimesh` is embedded as an ordered vertex list plus an
ordered list of triangle index triples.  The topological predicates
`is_watertight` / `is_winding_consistent` / `is_empty` are the trimesh
properties the repository calls, embedded executably on the face list. -/

structure Mesh where
  vertices : List Vec3
  faces : List (ℕ × ℕ × ℕ)

/-- The three directed edges of a triangle `(a, b, c)`. -/
def faceEdges (f : ℕ × ℕ × ℕ) : List (ℕ × ℕ) :=
  [(f.1, f.2.1), (f.2.1, f.2.2), (f.2.2, f.1)]

/-- All directed edges of a face list, three per face, in face order. -/
def meshEdges (faces : List (ℕ × ℕ × ℕ)) : List (ℕ × ℕ) :=
  faces.flatMap faceEdges

/-- Sort an edge's endpoints (trimesh's `edges_sorted`). -/
def sortEdge (e : ℕ × ℕ) : ℕ × ℕ :=
  if e.1 ≤ e.2 then e else (e.2, e.1)

/-- Number of faces bordering the undirected edge `e` in an edge list. -/
def undirCount (e : ℕ × ℕ) (l : List (ℕ × ℕ)) : ℕ :=
  l.countP (fun d => sortEdge d == sortEdge e)

/-- Watertight: every (undirected) edge of the mesh borders exactly two
faces. -/
def watertightB (faces : List (ℕ × ℕ × ℕ)) : Bool :=
  (meshEdges faces).all (fun e => undirCount e (meshEdges faces) == 2)

/-- Winding-consistent: every undirected edge bordered by exactly two
faces is traversed once in each direction (adjacent faces agree on
orientation). -/
def windingB (faces : List (ℕ × ℕ × ℕ)) : Bool :=
  (meshEdges faces).all (fun e =>
    !(undirCount e (meshEdges faces) == 2) ||
      ((meshEdges faces).count e == 1 &&
        (meshEdges faces).count (Prod.swap e) == 1))

/-- Source: trimesh `mesh.is_watertight`. -/
def Mesh.is_watertight (m : Mesh) : Bool := watertightB m.faces

/-- Source: trimesh `mesh.is_winding_consistent`. -/
def Mesh.is_winding_consistent (m : Mesh) : Bool := windingB m.faces

/-- Source: trimesh `mesh.is_empty` — the mesh carries no usable data. -/
def Mesh.is_empty (m : Mesh) : Bool := m.vertices.isEmpty || m.faces.isEmpty

def watertightMsg : String := "Mesh is not watertight (has holes)"

def windingMsg : String := "Mesh has inconsistent face winding"

def emptyMsg : String := "Mesh is empty"

def validMsg : String := "Mesh is valid for boolean operations"

/-- The ordered `issues` list accumulated by `check_mesh_validity`. -/
def meshIssues (m : Mesh) : List String :=
  (if m.is_watertight then [] else [watertightMsg]) ++
    (if m.is_winding_consistent then [] else [windingMsg]) ++
      (if m.is_empty then [emptyMsg] else [])

/-- Source: `check_mesh_validity(mesh)` from `src/operations/boolean_ops.py`:
returns `(True, "Mesh is valid for boolean operations")` when no issues
were collected, and otherwise `(False, "; ".join(issues))`. -/
def check_mesh_validity (m : Mesh) : Bool × String :=
  if (meshIssues m).length = 0 then (true, validMsg)
  else (false, String.intercalate "; " (meshIssues m))

/-- Claim C7 (amended): `check_mesh_validity` returns a pair
`(isValid, message)` where the *message* is a rendering of the ordered
issues list (its `"; "`-join when invalid, a fixed success sentence when
valid), the three checks are all evaluated independently (each message
occurs in the issues list exactly when its check fails, regardless of
the other checks), and `isValid` is true exactly when the issues *list*
is empty.  The second component itself is a single string, not a list. -/
theorem check_mesh_validity_spec (m : Mesh) :
    ((check_mesh_validity m).1 = true ↔ meshIssues m = []) ∧
      (check_mesh_validity m).2 =
        (if meshIssues m = [] then validMsg
          else String.intercalate "; " (meshIssues m)) ∧
      (watertightMsg ∈ meshIssues m ↔ m.is_watertight = false) ∧
      (windingMsg ∈ meshIssues m ↔ m.is_winding_consistent = false) ∧
      (emptyMsg ∈ meshIssues m ↔ m.is_empty = true) := by
  have d1 : watertightMsg ≠ windingMsg := by decide
  have d2 : watertightMsg ≠ emptyMsg := by decide
  have d3 : windingMsg ≠ emptyMsg := by decide
  cases hw : m.is_watertight <;> cases hc : m.is_winding_consistent <;>
    cases he : m.is_empty <;>
      simp_all [check_mesh_validity, meshIssues, d1, d2, d3, d1.symm, d2.symm,
        d3.symm]

/-- A regular tetrahedron's combinatorics: a watertight,
winding-consistent, non-empty mesh. -/
noncomputable def tetMesh : Mesh :=
  { vertices := [⟨0,0,0⟩, ⟨1,0,0⟩, ⟨0,1,0⟩, ⟨0,0,1⟩]
    faces := [(0,1,2), (0,2,3), (0,3,1), (1,3,2)] }

/-- Claim C7, counterexample to the literal statement: on a valid mesh
(a tetrahedron) the function reports `isValid = true`, yet the second
component of the returned pair is the non-empty success *string*
`"Mesh is valid for boolean operations"` — not an empty list of issue
strings, as the claim's reading of the contract would require. -/
theorem check_mesh_validity_returns_message :
    check_mesh_validity tetMesh = (true, validMsg) ∧ validMsg ≠ "" := by
  constructor
  · rfl
  · decide

/-! ## `subtract_meshes` (src/operations/boolean_ops.py)

The three strategy layers call external collaborators (pyvista's
`clip_surface`, the `manifold3d` kernel, and trimesh's named boolean
engines `['manifold', 'blender', 'scad']`).  Each backend is injected as
a function returning `Except Unit Mesh` (or `Except Unit (Option Mesh)`
for the trimesh engines, which may return `None`): `Except.error`
models a raised-and-caught exception (including an unavailable import),
`Except.ok` a returned mesh.  The traced variant also records, in
order, which strategies were attempted — mirroring the `DEBUG:` trace
the function prints to stderr. -/

/-- The subtraction strategies, in the order the source can attempt
them; `engine i` is the `i`-th entry of the trimesh engine fallback
list. -/
inductive Strategy where
  | shellClip : Strategy
  | manifoldDirect : Strategy
  | engine : ℕ → Strategy
  deriving DecidableEq

/-- The trimesh-engine fallback loop: try each engine in order, and
return on the first non-`None`, non-empty result; record every engine
attempted (numbered from `k`). -/
def runEngines (engines : List (Mesh → Mesh → Except Unit (Option Mesh)))
    (target tool : Mesh) (k : ℕ) : Option Mesh × List Strategy :=
  match engines with
  | [] => (none, [])
  | b :: bs =>
    match b target tool with
    | .ok (some r) =>
      if r.is_empty then
        let rest := runEngines bs target tool (k + 1)
        (rest.1, Strategy.engine k :: rest.2)
      else (some r, [Strategy.engine k])
    | .ok none =>
      let rest := runEngines bs target tool (k + 1)
      (rest.1, Strategy.engine k :: rest.2)
    | .error _ =>
      let rest := runEngines bs target tool (k + 1)
      (rest.1, Strategy.engine k :: rest.2)

/-- The first engine (in list order) to produce a non-`None`, non-empty
mesh determines the result of the fallback chain. -/
def firstEngineResult (engines : List (Mesh → Mesh → Except Unit (Option Mesh)))
    (target tool : Mesh) : Option Mesh :=
  match engines with
  | [] => none
  | b :: bs =>
    match b target tool with
    | .ok (some r) =>
      if r.is_empty then firstEngineResult bs target tool else some r
    | .ok none => firstEngineResult bs target tool
    | .error _ => firstEngineResult bs target tool

lemma runEngines_fst (engines : List (Mesh → Mesh → Except Unit (Option Mesh)))
    (target tool : Mesh) (k : ℕ) :
    (runEngines engines target tool k).1 = firstEngineResult engines target tool := by
  induction engines generalizing k with
  | nil => rfl
  | cons b bs ih =>
    rw [runEngines, firstEngineResult]
    rcases hb : b target tool with e | r
    · exact ih (k + 1)
    · rcases r with _ | r
      · exact ih (k + 1)
      · by_cases he : r.is_empty
        · simp only [he, if_true]
          exact ih (k + 1)
        · simp only [he]
          simp

lemma runEngines_trace_engines (engines : List (Mesh → Mesh → Except Unit (Option Mesh)))
    (target tool : Mesh) (k : ℕ) :
    ∀ s ∈ (runEngines engines target tool k).2, ∃ j, s = Strategy.engine j := by
  induction engines generalizing k with
  | nil => intro s hs; simp [runEngines] at hs
  | cons b bs ih =>
    intro s hs
    rw [runEngines] at hs
    rcases hb : b target tool with e | r
    · rw [hb] at hs
      rw [List.mem_cons] at hs
      rcases hs with h | h
      · exact ⟨k, h⟩
      · exact ih (k + 1) s h
    · rw [hb] at hs
      rcases r with _ | r
      · rw [List.mem_cons] at hs
        rcases hs with h | h
        · exact ⟨k, h⟩
        · exact ih (k + 1) s h
      · by_cases he : r.is_empty
        · simp only [he, if_true, List.mem_cons] at hs
          rcases hs with h | h
          · exact ⟨k, h⟩
          · exact ih (k + 1) s h
        · simp only [he] at hs
          simp at hs
          exact ⟨k, hs⟩

/-- Outcome of the shell-clip attempt: `some r` if the pyvista clip
produced a non-empty mesh, `none` if it raised or produced an empty
mesh.  Only called when the target is not watertight. -/
def clipOutcome (clip : Mesh → Mesh → Except Unit Mesh)
    (target tool : Mesh) : Option Mesh :=
  match clip target tool with
  | .ok r => if r.is_empty then none else some r
  | .error _ => none

/-- Stage 3 of `subtract_meshes`: the trimesh engine fallback loop,
guarded by `target_mesh.is_watertight and tool_mesh.is_watertight`
(line 88 of the source); `trace1` is the trace accumulated so far. -/
def subtractEngines (engines : List (Mesh → Mesh → Except Unit (Option Mesh)))
    (target tool : Mesh) (trace1 : List Strategy) :
    Option Mesh × List Strategy :=
  if target.is_watertight && tool.is_watertight then
    ((runEngines engines target tool 0).1,
      trace1 ++ Strategy.manifoldDirect :: (runEngines engines target tool 0).2)
  else (none, trace1 ++ [Strategy.manifoldDirect])

/-- Stage 2 of `subtract_meshes`: the direct `manifold3d` attempt
(always made once the shell clip did not return), falling through to
the engine loop when it raises or produces an empty mesh. -/
def subtractVolumetric (manifold : Mesh → Mesh → Except Unit Mesh)
    (engines : List (Mesh → Mesh → Except Unit (Option Mesh)))
    (target tool : Mesh) (trace1 : List Strategy) :
    Option Mesh × List Strategy :=
  match manifold target tool with
  | .ok r =>
    if r.is_empty then subtractEngines engines target tool trace1
    else (some r, trace1 ++ [Strategy.manifoldDirect])
  | .error _ => subtractEngines engines target tool trace1

/-- Source: `subtract_meshes(target_mesh, tool_mesh)`, with the attempted
strategies recorded in order (mirroring the `DEBUG:` stderr trace).
Structure of the source:
1. if the target is not watertight, try the pyvista `clip_surface`
   shell-clip and return its result if non-empty;
2. try the direct `manifold3d` boolean difference (always attempted
   next, whatever the watertightness) and return its result if
   non-empty;
3. if both target and tool are watertight, run the trimesh engine
   fallback chain `['manifold', 'blender', 'scad']`;
4. otherwise return `None`. -/
def subtract_meshes_traced (clip manifold : Mesh → Mesh → Except Unit Mesh)
    (engines : List (Mesh → Mesh → Except Unit (Option Mesh)))
    (target tool : Mesh) : Option Mesh × List Strategy :=
  if target.is_watertight then
    subtractVolumetric manifold engines target tool []
  else
    match clipOutcome clip target tool with
    | some r => (some r, [Strategy.shellClip])
    | none =>
      subtractVolumetric manifold engines target tool [Strategy.shellClip]

/-- Source: `subtract_meshes` proper — the returned mesh, or `None` when
every strategy failed. -/
def subtract_meshes (clip manifold : Mesh → Mesh → Except Unit Mesh)
    (engines : List (Mesh → Mesh → Except Unit (Option Mesh)))
    (target tool : Mesh) : Option Mesh :=
  (subtract_meshes_traced clip manifold engines target tool).1

lemma subtractVolumetric_ok {manifold : Mesh → Mesh → Except Unit Mesh}
    {target tool : Mesh} {r : Mesh}
    (engines : List (Mesh → Mesh → Except Unit (Option Mesh)))
    (trace1 : List Strategy) (h : manifold target tool = Except.ok r) :
    subtractVolumetric manifold engines target tool trace1 =
      if r.is_empty then subtractEngines engines target tool trace1
      else (some r, trace1 ++ [Strategy.manifoldDirect]) := by
  rw [subtractVolumetric, h]

lemma subtractVolumetric_error {manifold : Mesh → Mesh → Except Unit Mesh}
    {target tool : Mesh} {e : Unit}
    (engines : List (Mesh → Mesh → Except Unit (Option Mesh)))
    (trace1 : List Strategy) (h : manifold target tool = Except.error e) :
    subtractVolumetric manifold engines target tool trace1 =
      subtractEngines engines target tool trace1 := by
  rw [subtractVolumetric, h]

/-- The two volumetric stages produce a trace consisting only of the
manifold-direct marker and engine markers, appended to `trace1`. -/
lemma subtractVolumetric_trace (manifold : Mesh → Mesh → Except Unit Mesh)
    (engines : List (Mesh → Mesh → Except Unit (Option Mesh)))
    (target tool : Mesh) (trace1 : List Strategy) :
    ∃ rest, (subtractVolumetric manifold engines target tool trace1).2 =
      trace1 ++ Strategy.manifoldDirect :: rest ∧
      ∀ s ∈ rest, ∃ j, s = Strategy.engine j := by
  have hEng : ∃ rest, (subtractEngines engines target tool trace1).2 =
      trace1 ++ Strategy.manifoldDirect :: rest ∧
      ∀ s ∈ rest, ∃ j, s = Strategy.engine j := by
    rw [subtractEngines]
    by_cases hb : (target.is_watertight && tool.is_watertight) = true
    · rw [if_pos hb]
      exact ⟨_, rfl, runEngines_trace_engines engines target tool 0⟩
    · rw [if_neg hb]
      exact ⟨[], rfl, by intro s hs; exact absurd hs (List.not_mem_nil s)⟩
  rcases hmf : manifold target tool with e | r
  · rw [subtractVolumetric_error engines trace1 hmf]
    exact hEng
  · rw [subtractVolumetric_ok engines trace1 hmf]
    by_cases he : r.is_empty
    · rw [if_pos he]
      exact hEng
    · rw [if_neg he]
      exact ⟨[], rfl, by intro s hs; exact absurd hs (List.not_mem_nil s)⟩

/-- Every branch of `subtract_meshes_traced` produces the shell-clip
marker first (exactly when the target is not watertight), followed only
by volumetric strategy markers. -/
lemma subtract_trace_cases (clip manifold : Mesh → Mesh → Except Unit Mesh)
    (engines : List (Mesh → Mesh → Except Unit (Option Mesh)))
    (target tool : Mesh) :
    ∃ rest, (subtract_meshes_traced clip manifold engines target tool).2 =
      (if target.is_watertight then [] else [Strategy.shellClip]) ++ rest ∧
      Strategy.shellClip ∉ rest := by
  have volNoClip : ∀ rest : List Strategy,
      (∀ s ∈ rest, ∃ j, s = Strategy.engine j) →
      Strategy.shellClip ∉ Strategy.manifoldDirect :: rest := by
    intro rest hrest h
    rw [List.mem_cons] at h
    rcases h with h | h
    · exact Strategy.noConfusion h
    · obtain ⟨j, hj⟩ := hrest _ h
      exact Strategy.noConfusion hj
  rw [subtract_meshes_traced]
  by_cases hw : target.is_watertight
  · rw [if_pos hw, if_pos hw]
    obtain ⟨rest, htr, hrest⟩ :=
      subtractVolumetric_trace manifold engines target tool []
    rw [htr]
    exact ⟨_, rfl, volNoClip rest hrest⟩
  · rw [if_neg hw, if_neg hw]
    rcases hco : clipOutcome clip target tool with _ | r
    · obtain ⟨rest, htr, hrest⟩ :=
        subtractVolumetric_trace manifold engines target tool
          [Strategy.shellClip]
      rw [htr]
      exact ⟨_, rfl, volNoClip rest hrest⟩
    · exact ⟨[], by simp, by simp⟩

/-- Claim C5: the shell-clip strategy is attempted iff the target is not
watertight, and when attempted it is the very first strategy in the
trace (before any volumetric attempt); on a watertight target it is
never attempted. -/
theorem subtract_meshes_shell_clip_policy
    (clip manifold : Mesh → Mesh → Except Unit Mesh)
    (engines : List (Mesh → Mesh → Except Unit (Option Mesh)))
    (target tool : Mesh) :
    (Strategy.shellClip ∈
        (subtract_meshes_traced clip manifold engines target tool).2 ↔
      target.is_watertight = false) ∧
    ((subtract_meshes_traced clip manifold engines target tool).2.head? =
        some Strategy.shellClip ↔
      target.is_watertight = false) := by
  obtain ⟨rest, htr, hmem⟩ :=
    subtract_trace_cases clip manifold engines target tool
  rw [htr]
  cases hw : target.is_watertight
  · simp [hw]
  · simp only [hw, if_true, List.nil_append]
    constructor
    · simp only [iff_false_intro (Bool.noConfusion : ¬ (true = false))]
      exact iff_of_false hmem (by simp)
    · refine iff_of_false ?_ (by simp)
      intro h
      rcases rest with _ | ⟨a, l⟩
      · exact Option.noConfusion h
      · rw [List.head?_cons] at h
        have ha := Option.some.inj h
        rw [← ha] at hmem
        exact hmem (List.mem_cons_self _ _)

/-- Claim C4: on a watertight target and tool, the direct `manifold3d`
volumetric difference is attempted, and if it raises, is unavailable, or
returns an empty mesh, the result is that of the engine fallback chain,
in which the first engine to return a non-`None`, non-empty mesh
determines the answer. -/
theorem subtract_meshes_volumetric_cascade
    (clip manifold : Mesh → Mesh → Except Unit Mesh)
    (engines : List (Mesh → Mesh → Except Unit (Option Mesh)))
    (target tool : Mesh)
    (hT : target.is_watertight = true) (hL : tool.is_watertight = true) :
    Strategy.manifoldDirect ∈
        (subtract_meshes_traced clip manifold engines target tool).2 ∧
      subtract_meshes clip manifold engines target tool =
        (match manifold target tool with
          | .ok r => if r.is_empty then firstEngineResult engines target tool
              else some r
          | .error _ => firstEngineResult engines target tool) := by
  have hb : (target.is_watertight && tool.is_watertight) = true := by
    rw [hT, hL]; rfl
  rw [subtract_meshes, subtract_meshes_traced, if_pos hT]
  rcases hmf : manifold target tool with e | r
  · rw [subtractVolumetric_error engines [] hmf, subtractEngines, if_pos hb]
    constructor
    · simp
    · exact runEngines_fst engines target tool 0
  · rw [subtractVolumetric_ok engines [] hmf]
    by_cases he : r.is_empty
    · rw [if_pos he, subtractEngines, if_pos hb]
      constructor
      · simp
      · simp only [he, if_true]
        exact runEngines_fst engines target tool 0
    · rw [if_neg he]
      constructor
      · simp
      · simp only [he]
        simp

lemma firstEngineResult_none
    (engines : List (Mesh → Mesh → Except Unit (Option Mesh)))
    (target tool : Mesh)
    (h : ∀ b ∈ engines, ∀ r, b target tool = Except.ok (some r) →
      r.is_empty = true) :
    firstEngineResult engines target tool = none := by
  induction engines with
  | nil => rfl
  | cons b bs ih =>
    rw [firstEngineResult]
    rcases hb : b target tool with e | r
    · exact ih (fun b hbmem => h b (List.mem_cons_of_mem _ hbmem))
    · rcases r with _ | r
      · exact ih (fun b hbmem => h b (List.mem_cons_of_mem _ hbmem))
      · have he : r.is_empty = true := h b (List.mem_cons_self _ _) r hb
        simp only [he, if_true]
        exact ih (fun b hbmem => h b (List.mem_cons_of_mem _ hbmem))

lemma subtractVolumetric_all_fail
    {manifold : Mesh → Mesh → Except Unit Mesh}
    {engines : List (Mesh → Mesh → Except Unit (Option Mesh))}
    {target tool : Mesh} (trace1 : List Strategy)
    (h2 : ∀ r, manifold target tool = Except.ok r → r.is_empty = true)
    (h3 : ∀ b ∈ engines, ∀ r, b target tool = Except.ok (some r) →
      r.is_empty = true) :
    (subtractVolumetric manifold engines target tool trace1).1 = none := by
  have hEng : (subtractEngines engines target tool trace1).1 = none := by
    rw [subtractEngines]
    by_cases hb : (target.is_watertight && tool.is_watertight) = true
    · rw [if_pos hb]
      rw [runEngines_fst]
      exact firstEngineResult_none engines target tool h3
    · rw [if_neg hb]
  rcases hmf : manifold target tool with e | r
  · rw [subtractVolumetric_error engines trace1 hmf]
    exact hEng
  · rw [subtractVolumetric_ok engines trace1 hmf, if_pos (h2 r hmf)]
    exact hEng

/-- Claim C3: if the shell-clip backend, the direct `manifold3d`
backend, and every engine in the fallback list each raise or return an
empty (or `None`) mesh, then `subtract_meshes` returns the explicit
failure value `none`.  (In this pure embedding the inputs are immutable
values, matching the source, which never writes to `target_mesh` or
`tool_mesh`; exceptions raised inside any strategy are caught and
modelled by `Except.error`.) -/
theorem subtract_meshes_all_fail
    (clip manifold : Mesh → Mesh → Except Unit Mesh)
    (engines : List (Mesh → Mesh → Except Unit (Option Mesh)))
    (target tool : Mesh)
    (h1 : ∀ r, clip target tool = Except.ok r → r.is_empty = true)
    (h2 : ∀ r, manifold target tool = Except.ok r → r.is_empty = true)
    (h3 : ∀ b ∈ engines, ∀ r, b target tool = Except.ok (some r) →
      r.is_empty = true) :
    subtract_meshes clip manifold engines target tool = none := by
  have hclip : clipOutcome clip target tool = none := by
    rw [clipOutcome]
    rcases hc : clip target tool with e | r
    · rfl
    · simp [h1 r hc]
  rw [subtract_meshes, subtract_meshes_traced]
  by_cases hw : target.is_watertight
  · rw [if_pos hw]
    exact subtractVolumetric_all_fail [] h2 h3
  · rw [if_neg hw, hclip]
    exact subtractVolumetric_all_fail [Strategy.shellClip] h2 h3

/-- A mesh with no data, used to instantiate the failure witness. -/
def emptyMesh : Mesh := { vertices := [], faces := [] }

/-- Witness for C3: with both injected backends raising and an empty
engine list, `subtract_meshes` returns `none`. -/
theorem subtract_meshes_all_fail_witness :
    subtract_meshes (fun _ _ => Except.error ()) (fun _ _ => Except.error ())
      [] emptyMesh emptyMesh = none :=
  subtract_meshes_all_fail _ _ _ _ _
    (fun _ h => Except.noConfusion h)
    (fun _ h => Except.noConfusion h)
    (fun b hb => absurd hb (List.not_mem_nil b))

/-- Witness for C4: `tetMesh` is watertight, so the cascade theorem
applies with concrete raising backends and an empty engine list. -/
theorem subtract_meshes_volumetric_cascade_witness :
    Strategy.manifoldDirect ∈
        (subtract_meshes_traced (fun _ _ => Except.error ())
          (fun _ _ => Except.error ()) [] tetMesh tetMesh).2 ∧
      subtract_meshes (fun _ _ => Except.error ())
          (fun _ _ => Except.error ()) [] tetMesh tetMesh =
        (match (fun (_ _ : Mesh) => (Except.error () : Except Unit Mesh))
            tetMesh tetMesh with
          | .ok r => if r.is_empty then firstEngineResult [] tetMesh tetMesh
              else some r
          | .error _ => firstEngineResult [] tetMesh tetMesh) :=
  subtract_meshes_volumetric_cascade _ _ _ tetMesh tetMesh (by decide) (by decide)

/-! ## Embedding of the torus generator (src/geometry/torus_generator.py)

Angle bookkeeping: `get_angle`, the sweep-resolution rule, and the
`total_sweep` value used to sample the partial torus. -/

/-- Source: `np.arctan2(y, x)`: four-quadrant arctangent with range
`(-π, π]` and `atan2(0, 0) = 0`. -/
noncomputable def atan2 (y x : ℝ) : ℝ :=
  if 0 < x then Real.arctan (y / x)
  else if x < 0 then
    (if 0 ≤ y then Real.arctan (y / x) + Real.pi
      else Real.arctan (y / x) - Real.pi)
  else
    (if 0 < y then Real.pi / 2 else if y < 0 then -(Real.pi / 2) else 0)

/-- Source: Python float `%`: `a % m = a - m * floor(a / m)` (for
`m > 0` the result lies in `[0, m)`). -/
noncomputable def pymod (a m : ℝ) : ℝ := a - m * ⌊a / m⌋

/-- Source: `get_angle(p, center, basis_u, basis_w)` — the angle of `p`
around `center` in the `(u, w)` frame, in `[0, 2π)`. -/
noncomputable def get_angle (p center basis_u basis_w : Vec3) : ℝ :=
  pymod (atan2 (dot (sub p center) basis_w) (dot (sub p center) basis_u))
    (2 * Real.pi)

/-- Source: `u = (p1 - center) / np.linalg.norm(p1 - center)` in
`generate_torus_segment` (recomputed from `center`, independent of the
fit's basis). -/
noncomputable def torusU (center p1 : Vec3) : Vec3 :=
  sdiv (sub p1 center) (norm (sub p1 center))

/-- Source: `w = np.cross(normal, u)` in `generate_torus_segment`. -/
noncomputable def torusW (center normal p1 : Vec3) : Vec3 :=
  cross normal (torusU center p1)

/-- Source: `theta2 = get_angle(p2, center, u, w)`. -/
noncomputable def torusTheta2 (center normal p1 p2 : Vec3) : ℝ :=
  get_angle p2 center (torusU center p1) (torusW center normal p1)

/-- Source: `theta3 = get_angle(p3, center, u, w)`. -/
noncomputable def torusTheta3 (center normal p1 p3 : Vec3) : ℝ :=
  get_angle p3 center (torusU center p1) (torusW center normal p1)

/-- Source: the sweep-resolution rule — `if theta2 > theta3:
theta3 += 2 * np.pi`, then `total_sweep = theta3`. -/
noncomputable def totalSweep (center normal p1 p2 p3 : Vec3) : ℝ :=
  if torusTheta3 center normal p1 p3 < torusTheta2 center normal p1 p2 then
    torusTheta3 center normal p1 p3 + 2 * Real.pi
  else torusTheta3 center normal p1 p3

/-! ### Properties of `pymod` and `atan2` -/

lemma pymod_eq_fract (a m : ℝ) (hm : m ≠ 0) :
    pymod a m = m * Int.fract (a / m) := by
  rw [pymod, Int.fract]
  field_simp

lemma pymod_nonneg (a : ℝ) {m : ℝ} (hm : 0 < m) : 0 ≤ pymod a m := by
  rw [pymod_eq_fract a m (ne_of_gt hm)]
  exact mul_nonneg (le_of_lt hm) (Int.fract_nonneg _)

lemma pymod_lt (a : ℝ) {m : ℝ} (hm : 0 < m) : pymod a m < m := by
  rw [pymod_eq_fract a m (ne_of_gt hm)]
  nlinarith [Int.fract_lt_one (a / m)]

lemma pymod_zero_left {m : ℝ} : pymod 0 m = 0 := by
  rw [pymod]
  simp

/-- Any value of `atan2` lies in `(-π, π]`. -/
lemma atan2_mem (y x : ℝ) : -Real.pi < atan2 y x ∧ atan2 y x ≤ Real.pi := by
  have hpi := Real.pi_pos
  have h1 := Real.arctan_lt_pi_div_two (y / x)
  have h2 := Real.neg_pi_div_two_lt_arctan (y / x)
  have hmono : ∀ t : ℝ, t ≤ 0 → Real.arctan t ≤ 0 := by
    intro t ht
    have := Real.arctan_strictMono.monotone ht
    rwa [Real.arctan_zero] at this
  have hmono' : ∀ t : ℝ, 0 < t → 0 < Real.arctan t := by
    intro t ht
    have := Real.arctan_strictMono ht
    rwa [Real.arctan_zero] at this
  rw [atan2]
  by_cases hx : 0 < x
  · rw [if_pos hx]
    constructor <;> nlinarith
  · rw [if_neg hx]
    by_cases hx' : x < 0
    · rw [if_pos hx']
      by_cases hy : 0 ≤ y
      · rw [if_pos hy]
        have hle : Real.arctan (y / x) ≤ 0 :=
          hmono _ (div_nonpos_of_nonneg_of_nonpos hy (le_of_lt hx'))
        constructor <;> nlinarith
      · rw [if_neg hy]
        have hgt : 0 < Real.arctan (y / x) :=
          hmono' _ (div_pos_of_neg_of_neg (lt_of_not_le hy) hx')
        constructor <;> nlinarith
    · rw [if_neg hx']
      by_cases hy : 0 < y
      · rw [if_pos hy]
        constructor <;> nlinarith
      · rw [if_neg hy]
        by_cases hy' : y < 0
        · rw [if_pos hy']
          constructor <;> nlinarith
        · rw [if_neg hy']
          constructor <;> nlinarith

/-- The only zero of `atan2` is on the positive `x` half-axis (or at the
origin). -/
lemma atan2_eq_zero {y x : ℝ} (h : atan2 y x = 0) :
    (y = 0 ∧ 0 < x) ∨ (x = 0 ∧ y = 0) := by
  have hpi := Real.pi_pos
  have h1 := Real.arctan_lt_pi_div_two (y / x)
  have h2 := Real.neg_pi_div_two_lt_arctan (y / x)
  rw [atan2] at h
  by_cases hx : 0 < x
  · rw [if_pos hx] at h
    left
    refine ⟨?_, hx⟩
    have hyx : y / x = 0 := Real.arctan_eq_zero_iff.mp h
    rcases div_eq_zero_iff.mp hyx with h0 | h0
    · exact h0
    · exact absurd h0 (ne_of_gt hx)
  · rw [if_neg hx] at h
    by_cases hx' : x < 0
    · rw [if_pos hx'] at h
      by_cases hy : 0 ≤ y
      · rw [if_pos hy] at h
        exfalso; nlinarith
      · rw [if_neg hy] at h
        exfalso; nlinarith
    · rw [if_neg hx'] at h
      by_cases hy : 0 < y
      · rw [if_pos hy] at h
        exfalso; nlinarith
      · rw [if_neg hy] at h
        by_cases hy' : y < 0
        · rw [if_pos hy'] at h
          exfalso; nlinarith
        · right
          constructor
          · linarith [not_lt.mp hx, not_lt.mp hx']
          · linarith [not_lt.mp hy, not_lt.mp hy']

/-- If `pymod t (2π) = 0` and `t ∈ (-π, π]`, then `t = 0`. -/
lemma pymod_two_pi_eq_zero {t : ℝ} (hmem : -Real.pi < t ∧ t ≤ Real.pi)
    (h : pymod t (2 * Real.pi) = 0) : t = 0 := by
  have hpi := Real.pi_pos
  rw [pymod] at h
  have ht : t = 2 * Real.pi * ⌊t / (2 * Real.pi)⌋ := by linarith
  have hlow : (-1 : ℝ) < (⌊t / (2 * Real.pi)⌋ : ℝ) := by nlinarith [hmem.1]
  have hhigh : ((⌊t / (2 * Real.pi)⌋ : ℝ)) < 1 := by nlinarith [hmem.2]
  have hlow' : (-1 : ℤ) < ⌊t / (2 * Real.pi)⌋ := by exact_mod_cast hlow
  have hhigh' : ⌊t / (2 * Real.pi)⌋ < 1 := by exact_mod_cast hhigh
  have hzero : ⌊t / (2 * Real.pi)⌋ = 0 := by omega
  rw [hzero] at ht
  simpa using ht

/-! ### The sweep-resolution rule (claim C6) -/

lemma sub_eq_zero_vec {a b : Vec3} (h : sub a b = Vec3.zero) : a = b := by
  simp only [sub, Vec3.zero, Vec3.mk.injEq] at h
  refine Vec3.ext' ?_ ?_ ?_ <;> [linarith [h.1]; linarith [h.2.1]; linarith [h.2.2]]

lemma dot_pos_of_ne_zero {a : Vec3} (h : a ≠ Vec3.zero) : 0 < dot a a := by
  rcases lt_or_eq_of_le (dot_nonneg a) with h' | h'
  · exact h'
  · exact absurd (dot_self_eq_zero h'.symm) h

/-- A nonzero vector divided by its norm is a unit vector. -/
lemma sdiv_norm_unit {a : Vec3} (h : 0 < dot a a) :
    dot (sdiv a (norm a)) (sdiv a (norm a)) = 1 := by
  rw [dot_sdiv_both, Vec3.norm, Real.mul_self_sqrt (dot_nonneg a)]
  field_simp

lemma dot_cross_self_sdiv (a n : Vec3) (r : ℝ) :
    dot a (cross n (sdiv a r)) = 0 := by
  simp only [dot, cross, sdiv]
  ring

lemma dot_sub_smul (a u : Vec3) (s : ℝ) :
    dot (sub a (smul s u)) (sub a (smul s u)) =
      dot a a - 2 * s * dot a u + s ^ 2 * dot u u := by
  simp only [dot, sub, smul]
  ring

lemma smul_sdiv_cancel (a : Vec3) {r : ℝ} (h : r ≠ 0) :
    smul r (sdiv a r) = a := by
  simp only [smul, sdiv]
  refine Vec3.ext' ?_ ?_ ?_ <;> field_simp

lemma sub_left_cancel {a b c : Vec3} (h : sub a c = sub b c) : a = b := by
  simp only [sub, Vec3.mk.injEq] at h
  refine Vec3.ext' ?_ ?_ ?_ <;> [linarith [h.1]; linarith [h.2.1]; linarith [h.2.2]]

/-- Source invariant: `angle(p1) = 0` by construction of the torus
basis. -/
lemma get_angle_p1_zero (center normal p1 : Vec3) (h : p1 ≠ center) :
    get_angle p1 center (torusU center p1) (torusW center normal p1) = 0 := by
  have hd : sub p1 center ≠ Vec3.zero := by
    intro h0
    exact h (sub_eq_zero_vec h0)
  have hpos : 0 < dot (sub p1 center) (sub p1 center) := dot_pos_of_ne_zero hd
  have hx : dot (sub p1 center) (torusU center p1) =
      dot (sub p1 center) (sub p1 center) / norm (sub p1 center) := by
    rw [torusU, dot_sdiv_right]
  have hxpos : 0 < dot (sub p1 center) (torusU center p1) := by
    rw [hx]
    exact div_pos hpos (norm_pos_of_dot_pos hpos)
  have hy : dot (sub p1 center) (torusW center normal p1) = 0 := by
    rw [torusW, torusU, dot_cross_self_sdiv]
  rw [get_angle, hy, atan2, if_pos hxpos, zero_div, Real.arctan_zero,
    pymod_zero_left]

set_option maxHeartbeats 1000000 in
/-- Claim C6 (amended): with the torus basis `u = normalize(p1 - center)`,
`w = normal × u`, every angle lies in `[0, 2π)` and `angle(p1) = 0`; the
sweep is `θ3` when `θ2 ≤ θ3` and `θ3 + 2π` when `θ2 > θ3`; and provided
`p1` and `p3` are distinct points of the circle (radius `R > 0`, plane
through `center` orthogonal to the unit `normal`), the total sweep is
strictly between `0` and `4π`.  (Without the distinctness hypothesis the
sweep can be exactly `0`, so the claim's range `(0, 4π)` is corrected to
require it; in general the sweep lies in `[0, 4π)`.) -/
theorem torus_sweep_rule (center normal p1 p2 p3 : Vec3) (R : ℝ)
    (hnormal : norm normal = 1)
    (hp1 : norm (sub p1 center) = R) (hp3 : norm (sub p3 center) = R)
    (h1n : dot (sub p1 center) normal = 0)
    (h3n : dot (sub p3 center) normal = 0)
    (hR : 0 < R) (hne : p3 ≠ p1) :
    (∀ p, 0 ≤ get_angle p center (torusU center p1) (torusW center normal p1) ∧
      get_angle p center (torusU center p1) (torusW center normal p1) <
        2 * Real.pi) ∧
    get_angle p1 center (torusU center p1) (torusW center normal p1) = 0 ∧
    (torusTheta2 center normal p1 p2 ≤ torusTheta3 center normal p1 p3 →
      totalSweep center normal p1 p2 p3 = torusTheta3 center normal p1 p3) ∧
    (torusTheta3 center normal p1 p3 < torusTheta2 center normal p1 p2 →
      totalSweep center normal p1 p2 p3 =
        torusTheta3 center normal p1 p3 + 2 * Real.pi) ∧
    0 < totalSweep center normal p1 p2 p3 ∧
    totalSweep center normal p1 p2 p3 < 4 * Real.pi := by
  have hpi := Real.pi_pos
  have h2pi : (0:ℝ) < 2 * Real.pi := by nlinarith
  -- `p1 ≠ center`, so the basis is well defined
  have hne1 : p1 ≠ center := by
    intro h0
    rw [h0] at hp1
    have : sub center center = Vec3.zero := by
      simp only [sub, Vec3.zero, Vec3.mk.injEq]
      norm_num
    rw [this] at hp1
    have : norm Vec3.zero = 0 := by
      simp only [Vec3.norm, Vec3.zero, dot]
      norm_num [Real.sqrt_eq_zero']
    nlinarith [hp1, this]
  have hd1 : sub p1 center ≠ Vec3.zero := fun h0 => hne1 (sub_eq_zero_vec h0)
  have hd1pos : 0 < dot (sub p1 center) (sub p1 center) := dot_pos_of_ne_zero hd1
  -- frame facts
  have hnn : dot normal normal = 1 := by
    have := Real.mul_self_sqrt (dot_nonneg normal)
    rw [Vec3.norm] at hnormal
    nlinarith [this, hnormal]
  have huu : dot (torusU center p1) (torusU center p1) = 1 := by
    rw [torusU]
    exact sdiv_norm_unit hd1pos
  have hnu : dot normal (torusU center p1) = 0 := by
    rw [torusU, dot_sdiv_right, dot_comm, h1n, zero_div]
  -- norms on the circle
  have hd1R : dot (sub p1 center) (sub p1 center) = R ^ 2 := by
    have := Real.mul_self_sqrt (dot_nonneg (sub p1 center))
    rw [Vec3.norm] at hp1
    nlinarith [this, hp1]
  have hd3R : dot (sub p3 center) (sub p3 center) = R ^ 2 := by
    have := Real.mul_self_sqrt (dot_nonneg (sub p3 center))
    rw [Vec3.norm] at hp3
    nlinarith [this, hp3]
  -- θ3 is strictly positive
  have htheta3_nonneg : 0 ≤ torusTheta3 center normal p1 p3 :=
    pymod_nonneg _ h2pi
  have htheta3_lt : torusTheta3 center normal p1 p3 < 2 * Real.pi :=
    pymod_lt _ h2pi
  have htheta3_pos : 0 < torusTheta3 center normal p1 p3 := by
    rcases lt_or_eq_of_le htheta3_nonneg with h | h
    · exact h
    · exfalso
      -- θ3 = 0 forces p3 = p1
      have hz : pymod (atan2 (dot (sub p3 center) (torusW center normal p1))
          (dot (sub p3 center) (torusU center p1))) (2 * Real.pi) = 0 := by
        rw [torusTheta3, get_angle] at h
        exact h.symm
      have ht0 : atan2 (dot (sub p3 center) (torusW center normal p1))
          (dot (sub p3 center) (torusU center p1)) = 0 :=
        pymod_two_pi_eq_zero (atan2_mem _ _) hz
      have hcases := atan2_eq_zero ht0
      -- Pythagoras in the (u, w, normal) frame
      have hg := gram_det (sub p3 center) normal (torusU center p1)
      rw [hnn, huu, hnu, dot_comm (sub p3 center) normal] at hg
      have h3n' : dot normal (sub p3 center) = 0 := by
        rw [dot_comm]; exact h3n
      rw [h3n'] at hg
      have hwdef : torusW center normal p1 = cross normal (torusU center p1) := rfl
      set x3 := dot (sub p3 center) (torusU center p1) with hx3
      have hgram : dot (sub p3 center) (torusW center normal p1) ^ 2 =
          R ^ 2 - x3 ^ 2 := by
        rw [hwdef]
        nlinarith [hg, hd3R]
      rcases hcases with ⟨hy0, hx0⟩ | ⟨hx0, hy0⟩
      · -- y3 = 0 and x3 > 0: then x3 = R and p3 = p1
        rw [hy0] at hgram
        have hx3R : x3 = R := by nlinarith [hgram]
        have hzero : dot (sub (sub p3 center) (smul x3 (torusU center p1)))
            (sub (sub p3 center) (smul x3 (torusU center p1))) = 0 := by
          rw [dot_sub_smul, huu, hd3R, ← hx3, hx3R]
          ring
        have hvec : sub p3 center = smul x3 (torusU center p1) :=
          sub_eq_zero_vec (dot_self_eq_zero hzero)
        have hRu : smul R (torusU center p1) = sub p1 center := by
          rw [torusU, hp1]
          exact smul_sdiv_cancel _ (ne_of_gt hR)
        rw [hx3R, hRu] at hvec
        exact hne (sub_left_cancel hvec)
      · -- x3 = y3 = 0: the point would be the center, impossible
        rw [hx0, hy0] at hgram
        nlinarith [hgram]
  refine ⟨?_, get_angle_p1_zero center normal p1 hne1, ?_, ?_, ?_, ?_⟩
  · intro p
    exact ⟨pymod_nonneg _ h2pi, pymod_lt _ h2pi⟩
  · intro hle
    rw [totalSweep, if_neg (not_lt.mpr hle)]
  · intro hlt
    rw [totalSweep, if_pos hlt]
  · rw [totalSweep]
    by_cases hlt : torusTheta3 center normal p1 p3 <
        torusTheta2 center normal p1 p2
    · rw [if_pos hlt]
      linarith only [htheta3_nonneg, h2pi]
    · rw [if_neg hlt]
      exact htheta3_pos
  · rw [totalSweep]
    by_cases hlt : torusTheta3 center normal p1 p3 <
        torusTheta2 center normal p1 p2
    · rw [if_pos hlt]
      linarith only [htheta3_lt]
    · rw [if_neg hlt]
      linarith only [htheta3_lt, hpi]

/-- Claim C6, counterexample to the range assertion: with all three
sweep points equal (`p1 = p2 = p3` on the circle), both angles are `0`
and the computed `total_sweep` is exactly `0`, which does not lie in the
open interval `(0, 4π)`. -/
theorem totalSweep_zero_degenerate :
    totalSweep ⟨0,0,0⟩ ⟨0,0,1⟩ ⟨1,0,0⟩ ⟨1,0,0⟩ ⟨1,0,0⟩ = 0 ∧
      ¬ (0 < totalSweep ⟨0,0,0⟩ ⟨0,0,1⟩ ⟨1,0,0⟩ ⟨1,0,0⟩ ⟨1,0,0⟩ ∧
        totalSweep ⟨0,0,0⟩ ⟨0,0,1⟩ ⟨1,0,0⟩ ⟨1,0,0⟩ ⟨1,0,0⟩ < 4 * Real.pi) := by
  have hne : (⟨1,0,0⟩ : Vec3) ≠ ⟨0,0,0⟩ := by
    intro h
    rw [Vec3.mk.injEq] at h
    norm_num at h
  have hz := get_angle_p1_zero ⟨0,0,0⟩ ⟨0,0,1⟩ ⟨1,0,0⟩ hne
  have h2 : torusTheta2 ⟨0,0,0⟩ ⟨0,0,1⟩ ⟨1,0,0⟩ ⟨1,0,0⟩ = 0 := hz
  have h3 : torusTheta3 ⟨0,0,0⟩ ⟨0,0,1⟩ ⟨1,0,0⟩ ⟨1,0,0⟩ = 0 := hz
  have htotal : totalSweep ⟨0,0,0⟩ ⟨0,0,1⟩ ⟨1,0,0⟩ ⟨1,0,0⟩ ⟨1,0,0⟩ = 0 := by
    rw [totalSweep, h2, h3, if_neg (lt_irrefl 0)]
  refine ⟨htotal, ?_⟩
  rw [htotal]
  intro hcon
  exact lt_irrefl 0 hcon.1

/-- Witness for C6 on a concrete unit circle: `p1 = (1,0,0)` and
`p3 = (0,1,0)` are distinct points of the circle of radius `1` around
the origin in the `z = 0` plane. -/
theorem torus_sweep_rule_witness :
    (∀ p, 0 ≤ get_angle p ⟨0,0,0⟩ (torusU ⟨0,0,0⟩ ⟨1,0,0⟩)
        (torusW ⟨0,0,0⟩ ⟨0,0,1⟩ ⟨1,0,0⟩) ∧
      get_angle p ⟨0,0,0⟩ (torusU ⟨0,0,0⟩ ⟨1,0,0⟩)
        (torusW ⟨0,0,0⟩ ⟨0,0,1⟩ ⟨1,0,0⟩) < 2 * Real.pi) ∧
    get_angle ⟨1,0,0⟩ ⟨0,0,0⟩ (torusU ⟨0,0,0⟩ ⟨1,0,0⟩)
      (torusW ⟨0,0,0⟩ ⟨0,0,1⟩ ⟨1,0,0⟩) = 0 ∧
    (torusTheta2 ⟨0,0,0⟩ ⟨0,0,1⟩ ⟨1,0,0⟩ ⟨-1,0,0⟩ ≤
        torusTheta3 ⟨0,0,0⟩ ⟨0,0,1⟩ ⟨1,0,0⟩ ⟨0,1,0⟩ →
      totalSweep ⟨0,0,0⟩ ⟨0,0,1⟩ ⟨1,0,0⟩ ⟨-1,0,0⟩ ⟨0,1,0⟩ =
        torusTheta3 ⟨0,0,0⟩ ⟨0,0,1⟩ ⟨1,0,0⟩ ⟨0,1,0⟩) ∧
    (torusTheta3 ⟨0,0,0⟩ ⟨0,0,1⟩ ⟨1,0,0⟩ ⟨0,1,0⟩ <
        torusTheta2 ⟨0,0,0⟩ ⟨0,0,1⟩ ⟨1,0,0⟩ ⟨-1,0,0⟩ →
      totalSweep ⟨0,0,0⟩ ⟨0,0,1⟩ ⟨1,0,0⟩ ⟨-1,0,0⟩ ⟨0,1,0⟩ =
        torusTheta3 ⟨0,0,0⟩ ⟨0,0,1⟩ ⟨1,0,0⟩ ⟨0,1,0⟩ + 2 * Real.pi) ∧
    0 < totalSweep ⟨0,0,0⟩ ⟨0,0,1⟩ ⟨1,0,0⟩ ⟨-1,0,0⟩ ⟨0,1,0⟩ ∧
    totalSweep ⟨0,0,0⟩ ⟨0,0,1⟩ ⟨1,0,0⟩ ⟨-1,0,0⟩ ⟨0,1,0⟩ < 4 * Real.pi := by
  refine torus_sweep_rule ⟨0,0,0⟩ ⟨0,0,1⟩ ⟨1,0,0⟩ ⟨-1,0,0⟩ ⟨0,1,0⟩ 1
    ?_ ?_ ?_ ?_ ?_ (by norm_num) ?_
  · simp only [Vec3.norm, dot]
    rw [show (0:ℝ) * 0 + 0 * 0 + 1 * 1 = 1 by norm_num, Real.sqrt_one]
  · simp only [Vec3.norm, sub, dot]
    rw [show ((1:ℝ) - 0) * (1 - 0) + (0 - 0) * (0 - 0) + (0 - 0) * (0 - 0)
      = 1 by norm_num, Real.sqrt_one]
  · simp only [Vec3.norm, sub, dot]
    rw [show ((0:ℝ) - 0) * (0 - 0) + (1 - 0) * (1 - 0) + (0 - 0) * (0 - 0)
      = 1 by norm_num, Real.sqrt_one]
  · simp only [sub, dot]
    norm_num
  · simp only [sub, dot]
    norm_num
  · intro h
    rw [Vec3.mk.injEq] at h
    norm_num at h

/-! ## Mesh synthesis: `generate_torus_segment`
(src/geometry/torus_generator.py)

The vertex grid is `n_minor` rows (tube angle φ, periodic) by `n_major`
columns (sweep angle θ, open), raveled row-major as `i * n_major + j`,
followed by the two cap-center vertices.  The face list is the grid
quads (two triangles each), then the start-cap fan, then the end-cap
fan, exactly as in the source loops. -/

/-- Source: `n_minor = max(resolution // 2, 16)`. -/
def nMinor (resolution : ℕ) : ℕ := max (resolution / 2) 16

/-- Source: `n_major = max(int(resolution * (total_sweep / (2*np.pi))), 8) + 1`
(the sweep is nonnegative, so `int` truncation is the floor). -/
noncomputable def nMajor (center normal p1 p2 p3 : Vec3) (resolution : ℕ) : ℕ :=
  max (Int.toNat ⌊(resolution : ℝ) *
    (totalSweep center normal p1 p2 p3 / (2 * Real.pi))⌋) 8 + 1

/-- Vertex index `i * n_major + j` (row `i` = tube index, column `j` =
sweep index), as raveled by `np.meshgrid` + `ravel`. -/
def vtx (N i j : ℕ) : ℕ := i * N + j

/-- Source: the two triangles `[idx00, idx01, idx11]` and
`[idx00, idx11, idx10]` of grid quad `(i, j)`. -/
def quadFaces (M N i j : ℕ) : List (ℕ × ℕ × ℕ) :=
  [(vtx N i j, vtx N i (j+1), vtx N ((i+1) % M) (j+1)),
   (vtx N i j, vtx N ((i+1) % M) (j+1), vtx N ((i+1) % M) j)]

/-- Source: the tube faces, looped over `i < n_minor`, `j < n_major-1`. -/
def tubeFaces (M N : ℕ) : List (ℕ × ℕ × ℕ) :=
  (List.range M).flatMap (fun i =>
    (List.range (N - 1)).flatMap (fun j => quadFaces M N i j))

/-- Source: start-cap fan triangles `[start_center_idx, idx1, idx0]`
(the start center is vertex `n_minor * n_major`). -/
def startCapFaces (M N : ℕ) : List (ℕ × ℕ × ℕ) :=
  (List.range M).map (fun i => (M * N, vtx N ((i+1) % M) 0, vtx N i 0))

/-- Source: end-cap fan triangles `[end_center_idx, idx0, idx1]`
(the end center is vertex `n_minor * n_major + 1`). -/
def endCapFaces (M N : ℕ) : List (ℕ × ℕ × ℕ) :=
  (List.range M).map (fun i =>
    (M * N + 1, vtx N i (N-1), vtx N ((i+1) % M) (N-1)))

/-- Source: `all_faces = np.vstack([faces, start_cap_faces, end_cap_faces])`. -/
def torusFaces (M N : ℕ) : List (ℕ × ℕ × ℕ) :=
  tubeFaces M N ++ startCapFaces M N ++ endCapFaces M N

/-- Flip a triangle's orientation (reverses its directed edges). -/
def flipFace (f : ℕ × ℕ × ℕ) : ℕ × ℕ × ℕ := (f.1, f.2.2, f.2.1)

/-- The torus faces with both cap fans flipped: an explicitly
consistent orientation of the segment, used to show the generated mesh
is orientable. -/
def orientedTorusFaces (M N : ℕ) : List (ℕ × ℕ × ℕ) :=
  tubeFaces M N ++ (startCapFaces M N).map flipFace ++
    (endCapFaces M N).map flipFace

/-- Apply a per-face flip mask (faces beyond the mask are kept as is). -/
def applyFlips : List (ℕ × ℕ × ℕ) → List Bool → List (ℕ × ℕ × ℕ)
  | [], _ => []
  | fs, [] => fs
  | f :: fs, b :: bs => (if b then flipFace f else f) :: applyFlips fs bs

/-- All Boolean masks of length `n`. -/
def boolLists : ℕ → List (List Bool)
  | 0 => [[]]
  | n + 1 => (boolLists n).flatMap (fun l => [false :: l, true :: l])

/-- Modelled from the library contract of trimesh `mesh.fix_normals()`
(an external collaborator, called on line 137 of the source): it flips a
subset of the faces so that the winding becomes consistent whenever some
orientation assignment achieves this, and otherwise leaves the faces
unchanged; vertices are untouched.  The model deterministically picks
the first consistent mask. -/
def fix_normals (m : Mesh) : Mesh :=
  match (boolLists m.faces.length).find?
      (fun fl => windingB (applyFlips m.faces fl)) with
  | some fl => { m with faces := applyFlips m.faces fl }
  | none => m

open Classical in
/-- Index of the first occurrence of the value `v` in the vertex list
`V` (`V.length` when absent), used to express the vertex remapping of
the `trimesh.Trimesh` constructor's duplicate merge. -/
noncomputable def firstIdx : List Vec3 → Vec3 → ℕ
  | [], _ => 0
  | w :: W, v => if w = v then 0 else firstIdx W v + 1

open Classical in
/-- Duplicate removal keeping first occurrences (`seen` accumulates the
values already kept). -/
noncomputable def dedupF : List Vec3 → List Vec3 → List Vec3
  | _, [] => []
  | seen, v :: V =>
    if v ∈ seen then dedupF seen V else v :: dedupF (v :: seen) V

/-- Modelled from the library contract of the `trimesh.Trimesh`
constructor (line 136 of the source, default `process=True`): coincident
vertices are merged into their first occurrence and the face indices are
remapped accordingly; exact coincidence stands in for the `tol.merge`
rounding of the library.  Faces are kept as they are (the constructor
removes degenerate faces only under `validate=True`). -/
noncomputable def merge_vertices (m : Mesh) : Mesh :=
  { vertices := dedupF [] m.vertices,
    faces := m.faces.map (fun f =>
      (firstIdx (dedupF [] m.vertices) (m.vertices.getD f.1 ⟨0, 0, 0⟩),
       firstIdx (dedupF [] m.vertices) (m.vertices.getD f.2.1 ⟨0, 0, 0⟩),
       firstIdx (dedupF [] m.vertices) (m.vertices.getD f.2.2 ⟨0, 0, 0⟩))) }

/-- Source: the grid vertex of `generate_torus_segment` at tube index
`i`, sweep index `j` (`θ_j = j·sweep/(n_major-1)`, `φ_i = i·2π/n_minor`):
`center + (R + r·cos φ)(cos θ·u + sin θ·w) + r·sin φ·normal`. -/
noncomputable def torusVertex (center normal p1 p2 p3 : Vec3)
    (majR minR : ℝ) (resolution i j : ℕ) : Vec3 :=
  let M := nMinor resolution
  let N := nMajor center normal p1 p2 p3 resolution
  let u := torusU center p1
  let w := torusW center normal p1
  let θ := (j : ℝ) * (totalSweep center normal p1 p2 p3 / (N - 1 : ℕ))
  let φ := (i : ℝ) * (2 * Real.pi / (M : ℝ))
  let rc := majR + minR * Real.cos φ
  add center (add (add (smul (rc * Real.cos θ) u) (smul (rc * Real.sin θ) w))
    (smul (minR * Real.sin φ) normal))

/-- Source: `start_center = center + major_radius * u`. -/
noncomputable def startCapCenter (center p1 : Vec3) (majR : ℝ) : Vec3 :=
  add center (smul majR (torusU center p1))

/-- Source: `end_center = center + major_radius * (cos(total_sweep)·u +
sin(total_sweep)·w)`. -/
noncomputable def endCapCenter (center normal p1 p2 p3 : Vec3)
    (majR : ℝ) : Vec3 :=
  add center (smul majR
    (add (smul (Real.cos (totalSweep center normal p1 p2 p3))
        (torusU center p1))
      (smul (Real.sin (totalSweep center normal p1 p2 p3))
        (torusW center normal p1))))

/-- Source: `generate_torus_segment(center, normal, major_radius,
minor_radius, p1, p2, p3, resolution)` — grid vertices, the two cap
centers, the torus faces, the `trimesh.Trimesh` constructor's
duplicate-vertex merge, then the `fix_normals()` repair pass. -/
noncomputable def generate_torus_segment (center normal : Vec3)
    (majR minR : ℝ) (p1 p2 p3 : Vec3) (resolution : ℕ) : Mesh :=
  let M := nMinor resolution
  let N := nMajor center normal p1 p2 p3 resolution
  fix_normals (merge_vertices
    { vertices :=
        ((List.range M).flatMap (fun i => (List.range N).map (fun j =>
          torusVertex center normal p1 p2 p3 majR minR resolution i j))) ++
          [startCapCenter center p1 majR,
            endCapCenter center normal p1 p2 p3 majR]
      faces := torusFaces M N })

/-! ### Index arithmetic for the grid -/

lemma vtx_lt {M N i j : ℕ} (hi : i < M) (hj : j < N) : vtx N i j < M * N := by
  rw [vtx]
  calc i * N + j < i * N + N := by omega
  _ = (i + 1) * N := by ring
  _ ≤ M * N := Nat.mul_le_mul_right N hi

lemma vtx_inj {N i j i' j' : ℕ} (hj : j < N) (hj' : j' < N) :
    vtx N i j = vtx N i' j' ↔ i = i' ∧ j = j' := by
  constructor
  · intro h
    rw [vtx, vtx] at h
    have hii : i = i' := by
      rcases Nat.lt_trichotomy i i' with hlt | he | hgt
      · exfalso
        have : i * N + j < i' * N + j' := by
          calc i * N + j < i * N + N := by omega
          _ = (i + 1) * N := by ring
          _ ≤ i' * N := Nat.mul_le_mul_right N hlt
          _ ≤ i' * N + j' := by omega
        omega
      · exact he
      · exfalso
        have : i' * N + j' < i * N + j := by
          calc i' * N + j' < i' * N + N := by omega
          _ = (i' + 1) * N := by ring
          _ ≤ i * N := Nat.mul_le_mul_right N hgt
          _ ≤ i * N + j := by omega
        omega
    subst hii
    exact ⟨rfl, by omega⟩
  · rintro ⟨rfl, rfl⟩
    rfl

lemma vtx_ne_S {M N i j : ℕ} (hi : i < M) (hj : j < N) :
    vtx N i j ≠ M * N :=
  Nat.ne_of_lt (vtx_lt hi hj)

lemma vtx_ne_E {M N i j : ℕ} (hi : i < M) (hj : j < N) :
    vtx N i j ≠ M * N + 1 :=
  Nat.ne_of_lt (Nat.lt_succ_of_lt (vtx_lt hi hj))

lemma nxt_lt {M : ℕ} (hM : 0 < M) (i : ℕ) : (i + 1) % M < M :=
  Nat.mod_lt _ hM

lemma nxt_eq {M i : ℕ} (hi : i < M) :
    (i + 1) % M = if i + 1 = M then 0 else i + 1 := by
  by_cases h : i + 1 = M
  · rw [if_pos h, h, Nat.mod_self]
  · rw [if_neg h]
    exact Nat.mod_eq_of_lt (by omega)

lemma nxt_inj {M i i' : ℕ} (hi : i < M) (hi' : i' < M)
    (h : (i + 1) % M = (i' + 1) % M) : i = i' := by
  rw [nxt_eq hi, nxt_eq hi'] at h
  split_ifs at h <;> omega

lemma nxt_ne_self {M i : ℕ} (hM : 2 ≤ M) (hi : i < M) : (i + 1) % M ≠ i := by
  rw [nxt_eq hi]
  split_ifs <;> omega

/-- The cyclic predecessor in a ring of `M` rows. -/
def prv (M i : ℕ) : ℕ := if i = 0 then M - 1 else i - 1

lemma prv_lt {M i : ℕ} (hM : 0 < M) (hi : i < M) : prv M i < M := by
  rw [prv]
  split_ifs <;> omega

lemma nxt_prv {M i : ℕ} (hM : 0 < M) (hi : i < M) :
    (prv M i + 1) % M = i := by
  rw [prv]
  split_ifs with h
  · rw [Nat.sub_add_cancel hM, Nat.mod_self, h]
  · rw [Nat.sub_add_cancel (by omega)]
    exact Nat.mod_eq_of_lt hi

/-! ### Counting directed edges of the generated face list -/

/-- Edge-equality indicator. -/
def ec (e x : ℕ × ℕ) : ℕ := if e = x then 1 else 0

lemma ec_eq_zero {e x : ℕ × ℕ} (h : e ≠ x) : ec e x = 0 := if_neg h

lemma ec_eq_one {e x : ℕ × ℕ} (h : e = x) : ec e x = 1 := if_pos h

lemma count_flatMap' {α β : Type} [BEq β] (l : List α) (f : α → List β)
    (x : β) :
    ((l.flatMap f).count x) = (l.map (fun a => (f a).count x)).sum := by
  induction l with
  | nil => rfl
  | cons a as ih => simp [List.flatMap_cons, List.count_append, ih]

lemma sum_range_zero_of {M : ℕ} {f : ℕ → ℕ} (h : ∀ i < M, f i = 0) :
    ∑ i in Finset.range M, f i = 0 :=
  Finset.sum_eq_zero (fun i hi => h i (Finset.mem_range.mp hi))

lemma sum_range_indicator {M i0 : ℕ} (hi : i0 < M) {f : ℕ → ℕ}
    (h : ∀ i < M, f i = if i = i0 then 1 else 0) :
    ∑ i in Finset.range M, f i = 1 := by
  rw [Finset.sum_congr rfl (fun i hi' => h i (Finset.mem_range.mp hi'))]
  rw [Finset.sum_ite_eq' (Finset.range M) i0 (fun _ => 1)]
  rw [if_pos (Finset.mem_range.mpr hi)]

lemma sum_sum_indicator {M K i0 j0 : ℕ} (hi : i0 < M) (hj : j0 < K)
    {f : ℕ → ℕ → ℕ}
    (h : ∀ i < M, ∀ j < K, f i j = if i = i0 ∧ j = j0 then 1 else 0) :
    ∑ i in Finset.range M, ∑ j in Finset.range K, f i j = 1 := by
  apply sum_range_indicator hi
  intro i hiM
  by_cases hii : i = i0
  · subst hii
    rw [if_pos rfl]
    apply sum_range_indicator hj
    intro j hjK
    rw [h i hiM j hjK]
    by_cases hjj : j = j0 <;> simp [hjj]
  · rw [if_neg hii]
    apply sum_range_zero_of
    intro j hjK
    rw [h i hiM j hjK, if_neg (by tauto)]

/-- The six directed edges contributed by grid quad `(i, j)`. -/
lemma count_quad (M N i j : ℕ) (x : ℕ × ℕ) :
    (meshEdges (quadFaces M N i j)).count x =
      ec (vtx N i j, vtx N i (j+1)) x +
      ec (vtx N i (j+1), vtx N ((i+1) % M) (j+1)) x +
      ec (vtx N ((i+1) % M) (j+1), vtx N i j) x +
      ec (vtx N i j, vtx N ((i+1) % M) (j+1)) x +
      ec (vtx N ((i+1) % M) (j+1), vtx N ((i+1) % M) j) x +
      ec (vtx N ((i+1) % M) j, vtx N i j) x := by
  rw [meshEdges, quadFaces]
  simp only [List.flatMap_cons, List.flatMap_nil, faceEdges, List.append_nil]
  simp only [List.count_append, List.count_cons, List.count_nil, ec,
    beq_iff_eq]
  split_ifs <;> omega

lemma count_tube (M N : ℕ) (x : ℕ × ℕ) :
    (meshEdges (tubeFaces M N)).count x =
      ∑ i in Finset.range M, ∑ j in Finset.range (N-1),
        (meshEdges (quadFaces M N i j)).count x := by
  rw [meshEdges, tubeFaces, List.flatMap_assoc, count_flatMap']
  have h1 : ∀ i : ℕ,
      (((List.range (N-1)).flatMap (fun j => quadFaces M N i j)).flatMap
          faceEdges).count x =
        ∑ j in Finset.range (N-1), (meshEdges (quadFaces M N i j)).count x := by
    intro i
    rw [List.flatMap_assoc, count_flatMap']
    rfl
  calc ((List.range M).map _).sum
      = ((List.range M).map (fun i => ∑ j in Finset.range (N-1),
          (meshEdges (quadFaces M N i j)).count x)).sum := by
        congr 1
        apply List.map_congr_left
        intro i _
        exact h1 i
  _ = _ := rfl

lemma count_scFlip (M N : ℕ) (x : ℕ × ℕ) :
    (meshEdges ((startCapFaces M N).map flipFace)).count x =
      ∑ i in Finset.range M,
        (ec (M * N, vtx N i 0) x + ec (vtx N i 0, vtx N ((i+1) % M) 0) x +
          ec (vtx N ((i+1) % M) 0, M * N) x) := by
  rw [meshEdges, startCapFaces, List.map_map, List.flatMap_map, count_flatMap']
  have h1 : ∀ i : ℕ,
      ((faceEdges (flipFace (M * N, vtx N ((i+1) % M) 0, vtx N i 0))).count x) =
        ec (M * N, vtx N i 0) x + ec (vtx N i 0, vtx N ((i+1) % M) 0) x +
          ec (vtx N ((i+1) % M) 0, M * N) x := by
    intro i
    simp only [flipFace, faceEdges, List.count_cons, List.count_nil, ec,
      beq_iff_eq]
    split_ifs <;> omega
  calc ((List.range M).map _).sum
      = ((List.range M).map (fun i => ec (M * N, vtx N i 0) x +
          ec (vtx N i 0, vtx N ((i+1) % M) 0) x +
          ec (vtx N ((i+1) % M) 0, M * N) x)).sum := by
        congr 1
        apply List.map_congr_left
        intro i _
        exact h1 i
  _ = _ := rfl

lemma count_ecFlip (M N : ℕ) (x : ℕ × ℕ) :
    (meshEdges ((endCapFaces M N).map flipFace)).count x =
      ∑ i in Finset.range M,
        (ec (M * N + 1, vtx N ((i+1) % M) (N-1)) x +
          ec (vtx N ((i+1) % M) (N-1), vtx N i (N-1)) x +
          ec (vtx N i (N-1), M * N + 1) x) := by
  rw [meshEdges, endCapFaces, List.map_map, List.flatMap_map, count_flatMap']
  have h1 : ∀ i : ℕ,
      ((faceEdges (flipFace (M * N + 1, vtx N i (N-1),
          vtx N ((i+1) % M) (N-1)))).count x) =
        ec (M * N + 1, vtx N ((i+1) % M) (N-1)) x +
          ec (vtx N ((i+1) % M) (N-1), vtx N i (N-1)) x +
          ec (vtx N i (N-1), M * N + 1) x := by
    intro i
    simp only [flipFace, faceEdges, List.count_cons, List.count_nil, ec,
      beq_iff_eq]
    split_ifs <;> omega
  calc ((List.range M).map _).sum
      = ((List.range M).map (fun i => ec (M * N + 1, vtx N ((i+1) % M) (N-1)) x +
          ec (vtx N ((i+1) % M) (N-1), vtx N i (N-1)) x +
          ec (vtx N i (N-1), M * N + 1) x)).sum := by
        congr 1
        apply List.map_congr_left
        intro i _
        exact h1 i
  _ = _ := rfl

/-- Master decomposition of the directed-edge count of the oriented
torus faces. -/
lemma count_oriented (M N : ℕ) (x : ℕ × ℕ) :
    (meshEdges (orientedTorusFaces M N)).count x =
      (∑ i in Finset.range M, ∑ j in Finset.range (N-1),
        (meshEdges (quadFaces M N i j)).count x) +
      (∑ i in Finset.range M,
        (ec (M * N, vtx N i 0) x + ec (vtx N i 0, vtx N ((i+1) % M) 0) x +
          ec (vtx N ((i+1) % M) 0, M * N) x)) +
      (∑ i in Finset.range M,
        (ec (M * N + 1, vtx N ((i+1) % M) (N-1)) x +
          ec (vtx N ((i+1) % M) (N-1), vtx N i (N-1)) x +
          ec (vtx N i (N-1), M * N + 1) x)) := by
  rw [orientedTorusFaces, meshEdges, List.flatMap_append, List.flatMap_append,
    List.count_append, List.count_append, ← meshEdges, ← meshEdges,
    ← meshEdges, count_tube, count_scFlip, count_ecFlip]

lemma pair_ne_of_fst {a b c d : ℕ} (h : a ≠ c) : (a, b) ≠ (c, d) := by
  intro he
  rw [Prod.mk.injEq] at he
  exact h he.1

lemma pair_ne_of_snd {a b c d : ℕ} (h : b ≠ d) : (a, b) ≠ (c, d) := by
  intro he
  rw [Prod.mk.injEq] at he
  exact h he.2

lemma nxt_cases {M i : ℕ} (hi : i < M) :
    ((i + 1) % M = i + 1 ∧ i + 1 < M) ∨ ((i + 1) % M = 0 ∧ i + 1 = M) := by
  by_cases h : i + 1 = M
  · right
    rw [nxt_eq hi, if_pos h]
    exact ⟨rfl, h⟩
  · left
    rw [nxt_eq hi, if_neg h]
    exact ⟨rfl, by omega⟩

/-- Count of tube edge family `(i0, j0) → (i0, j0+1)`. -/
lemma count_fam_H1 {M N i0 j0 : ℕ} (hM : 3 ≤ M) (hN : 2 ≤ N)
    (hi0 : i0 < M) (hj0 : j0 < N - 1) :
    (meshEdges (orientedTorusFaces M N)).count
      (vtx N i0 j0, vtx N i0 (j0+1)) = 1 := by
  have hj0N : j0 < N := by omega
  have hj01N : j0 + 1 < N := by omega
  have hN0 : 0 < N := by omega
  have hN1 : N - 1 < N := by omega
  have hM0 : 0 < M := by omega
  have hSa : vtx N i0 j0 < M * N := vtx_lt hi0 (by omega)
  have hSb : vtx N i0 (j0+1) < M * N := vtx_lt hi0 (by omega)
  have hc2 := nxt_cases hi0
  rw [count_oriented]
  have hsc : (∑ i in Finset.range M,
      (ec (M * N, vtx N i 0) (vtx N i0 j0, vtx N i0 (j0+1)) +
        ec (vtx N i 0, vtx N ((i+1) % M) 0) (vtx N i0 j0, vtx N i0 (j0+1)) +
        ec (vtx N ((i+1) % M) 0, M * N) (vtx N i0 j0, vtx N i0 (j0+1)))) = 0 := by
    apply sum_range_zero_of
    intro i hiM
    have hc1 := nxt_cases hiM
    have hb1 := vtx_lt hiM hN0
    have hb2 := vtx_lt (nxt_lt hM0 i) hN0
    have hz1 : ec (M * N, vtx N i 0)
        (vtx N i0 j0, vtx N i0 (j0+1)) = 0 := by
      apply ec_eq_zero
      intro h
      simp only [Prod.mk.injEq, vtx_inj hN0 hj0N, vtx_inj hN0 hj01N] at h
      omega
    have hz2 : ec (vtx N i 0, vtx N ((i+1) % M) 0)
        (vtx N i0 j0, vtx N i0 (j0+1)) = 0 := by
      apply ec_eq_zero
      intro h
      simp only [Prod.mk.injEq, vtx_inj hN0 hj0N, vtx_inj hN0 hj01N] at h
      omega
    have hz3 : ec (vtx N ((i+1) % M) 0, M * N)
        (vtx N i0 j0, vtx N i0 (j0+1)) = 0 := by
      apply ec_eq_zero
      intro h
      simp only [Prod.mk.injEq, vtx_inj hN0 hj0N, vtx_inj hN0 hj01N] at h
      omega
    rw [hz1, hz2, hz3]
  have hec : (∑ i in Finset.range M,
      (ec (M * N + 1, vtx N ((i+1) % M) (N-1)) (vtx N i0 j0, vtx N i0 (j0+1)) +
        ec (vtx N ((i+1) % M) (N-1), vtx N i (N-1)) (vtx N i0 j0, vtx N i0 (j0+1)) +
        ec (vtx N i (N-1), M * N + 1) (vtx N i0 j0, vtx N i0 (j0+1)))) = 0 := by
    apply sum_range_zero_of
    intro i hiM
    have hc1 := nxt_cases hiM
    have hb1 := vtx_lt hiM hN1
    have hb2 := vtx_lt (nxt_lt hM0 i) hN1
    have hz1 : ec (M * N + 1, vtx N ((i+1) % M) (N-1))
        (vtx N i0 j0, vtx N i0 (j0+1)) = 0 := by
      apply ec_eq_zero
      intro h
      simp only [Prod.mk.injEq, vtx_inj hN1 hj0N, vtx_inj hN1 hj01N] at h
      omega
    have hz2 : ec (vtx N ((i+1) % M) (N-1), vtx N i (N-1))
        (vtx N i0 j0, vtx N i0 (j0+1)) = 0 := by
      apply ec_eq_zero
      intro h
      simp only [Prod.mk.injEq, vtx_inj hN1 hj0N, vtx_inj hN1 hj01N] at h
      omega
    have hz3 : ec (vtx N i (N-1), M * N + 1)
        (vtx N i0 j0, vtx N i0 (j0+1)) = 0 := by
      apply ec_eq_zero
      intro h
      simp only [Prod.mk.injEq, vtx_inj hN1 hj0N, vtx_inj hN1 hj01N] at h
      omega
    rw [hz1, hz2, hz3]
  have htube : (∑ i in Finset.range M, ∑ j in Finset.range (N-1),
      (meshEdges (quadFaces M N i j)).count
        (vtx N i0 j0, vtx N i0 (j0+1))) = 1 := by
    apply sum_sum_indicator hi0 hj0
    intro i hiM j hjK
    have hjN : j < N := by omega
    have hj1N : j + 1 < N := by omega
    have hc1 := nxt_cases hiM
    have hb1 := vtx_lt hiM hjN
    have hb2 := vtx_lt hiM hj1N
    have hb3 := vtx_lt (nxt_lt hM0 i) hjN
    have hb4 := vtx_lt (nxt_lt hM0 i) hj1N
    rw [count_quad]
    have hz1 : ec (vtx N i j, vtx N i (j+1))
        (vtx N i0 j0, vtx N i0 (j0+1)) = if i = i0 ∧ j = j0 then 1 else 0 := by
      by_cases hij : i = i0 ∧ j = j0
      · obtain ⟨rfl, rfl⟩ := hij
        rw [if_pos ⟨rfl, rfl⟩]
        exact ec_eq_one rfl
      · rw [if_neg hij]
        apply ec_eq_zero
        intro h
        simp only [Prod.mk.injEq, vtx_inj hjN hj0N, vtx_inj hjN hj01N, vtx_inj hj1N hj0N, vtx_inj hj1N hj01N] at h
        omega
    have hz2 : ec (vtx N i (j+1), vtx N ((i+1) % M) (j+1))
        (vtx N i0 j0, vtx N i0 (j0+1)) = 0 := by
      apply ec_eq_zero
      intro h
      simp only [Prod.mk.injEq, vtx_inj hj1N hj0N, vtx_inj hj1N hj01N] at h
      omega
    have hz3 : ec (vtx N ((i+1) % M) (j+1), vtx N i j)
        (vtx N i0 j0, vtx N i0 (j0+1)) = 0 := by
      apply ec_eq_zero
      intro h
      simp only [Prod.mk.injEq, vtx_inj hj1N hj0N, vtx_inj hj1N hj01N, vtx_inj hjN hj0N, vtx_inj hjN hj01N] at h
      omega
    have hz4 : ec (vtx N i j, vtx N ((i+1) % M) (j+1))
        (vtx N i0 j0, vtx N i0 (j0+1)) = 0 := by
      apply ec_eq_zero
      intro h
      simp only [Prod.mk.injEq, vtx_inj hjN hj0N, vtx_inj hjN hj01N, vtx_inj hj1N hj0N, vtx_inj hj1N hj01N] at h
      omega
    have hz5 : ec (vtx N ((i+1) % M) (j+1), vtx N ((i+1) % M) j)
        (vtx N i0 j0, vtx N i0 (j0+1)) = 0 := by
      apply ec_eq_zero
      intro h
      simp only [Prod.mk.injEq, vtx_inj hj1N hj0N, vtx_inj hj1N hj01N, vtx_inj hjN hj0N, vtx_inj hjN hj01N] at h
      omega
    have hz6 : ec (vtx N ((i+1) % M) j, vtx N i j)
        (vtx N i0 j0, vtx N i0 (j0+1)) = 0 := by
      apply ec_eq_zero
      intro h
      simp only [Prod.mk.injEq, vtx_inj hjN hj0N, vtx_inj hjN hj01N] at h
      omega
    rw [hz1, hz2, hz3, hz4, hz5, hz6]
    split_ifs <;> rfl
  rw [htube, hsc, hec]

/-- Count of tube edge family `(i0, j0+1) → (i0+1 mod M, j0+1)`. -/
lemma count_fam_V1 {M N i0 j0 : ℕ} (hM : 3 ≤ M) (hN : 2 ≤ N)
    (hi0 : i0 < M) (hj0 : j0 < N - 1) :
    (meshEdges (orientedTorusFaces M N)).count
      (vtx N i0 (j0+1), vtx N ((i0+1) % M) (j0+1)) = 1 := by
  have hj0N : j0 < N := by omega
  have hj01N : j0 + 1 < N := by omega
  have hN0 : 0 < N := by omega
  have hN1 : N - 1 < N := by omega
  have hM0 : 0 < M := by omega
  have hSa : vtx N i0 (j0+1) < M * N := vtx_lt hi0 (by omega)
  have hSb : vtx N ((i0+1) % M) (j0+1) < M * N := vtx_lt (nxt_lt (by omega) i0) (by omega)
  have hc2 := nxt_cases hi0
  rw [count_oriented]
  have hsc : (∑ i in Finset.range M,
      (ec (M * N, vtx N i 0) (vtx N i0 (j0+1), vtx N ((i0+1) % M) (j0+1)) +
        ec (vtx N i 0, vtx N ((i+1) % M) 0) (vtx N i0 (j0+1), vtx N ((i0+1) % M) (j0+1)) +
        ec (vtx N ((i+1) % M) 0, M * N) (vtx N i0 (j0+1), vtx N ((i0+1) % M) (j0+1)))) = 0 := by
    apply sum_range_zero_of
    intro i hiM
    have hc1 := nxt_cases hiM
    have hb1 := vtx_lt hiM hN0
    have hb2 := vtx_lt (nxt_lt hM0 i) hN0
    have hz1 : ec (M * N, vtx N i 0)
        (vtx N i0 (j0+1), vtx N ((i0+1) % M) (j0+1)) = 0 := by
      apply ec_eq_zero
      intro h
      simp only [Prod.mk.injEq, vtx_inj hN0 hj01N] at h
      omega
    have hz2 : ec (vtx N i 0, vtx N ((i+1) % M) 0)
        (vtx N i0 (j0+1), vtx N ((i0+1) % M) (j0+1)) = 0 := by
      apply ec_eq_zero
      intro h
      simp only [Prod.mk.injEq, vtx_inj hN0 hj01N] at h
      omega
    have hz3 : ec (vtx N ((i+1) % M) 0, M * N)
        (vtx N i0 (j0+1), vtx N ((i0+1) % M) (j0+1)) = 0 := by
      apply ec_eq_zero
      intro h
      simp only [Prod.mk.injEq, vtx_inj hN0 hj01N] at h
      omega
    rw [hz1, hz2, hz3]
  have hec : (∑ i in Finset.range M,
      (ec (M * N + 1, vtx N ((i+1) % M) (N-1)) (vtx N i0 (j0+1), vtx N ((i0+1) % M) (j0+1)) +
        ec (vtx N ((i+1) % M) (N-1), vtx N i (N-1)) (vtx N i0 (j0+1), vtx N ((i0+1) % M) (j0+1)) +
        ec (vtx N i (N-1), M * N + 1) (vtx N i0 (j0+1), vtx N ((i0+1) % M) (j0+1)))) = 0 := by
    apply sum_range_zero_of
    intro i hiM
    have hc1 := nxt_cases hiM
    have hb1 := vtx_lt hiM hN1
    have hb2 := vtx_lt (nxt_lt hM0 i) hN1
    have hz1 : ec (M * N + 1, vtx N ((i+1) % M) (N-1))
        (vtx N i0 (j0+1), vtx N ((i0+1) % M) (j0+1)) = 0 := by
      apply ec_eq_zero
      intro h
      simp only [Prod.mk.injEq, vtx_inj hN1 hj01N] at h
      omega
    have hz2 : ec (vtx N ((i+1) % M) (N-1), vtx N i (N-1))
        (vtx N i0 (j0+1), vtx N ((i0+1) % M) (j0+1)) = 0 := by
      apply ec_eq_zero
      intro h
      simp only [Prod.mk.injEq, vtx_inj hN1 hj01N] at h
      omega
    have hz3 : ec (vtx N i (N-1), M * N + 1)
        (vtx N i0 (j0+1), vtx N ((i0+1) % M) (j0+1)) = 0 := by
      apply ec_eq_zero
      intro h
      simp only [Prod.mk.injEq, vtx_inj hN1 hj01N] at h
      omega
    rw [hz1, hz2, hz3]
  have htube : (∑ i in Finset.range M, ∑ j in Finset.range (N-1),
      (meshEdges (quadFaces M N i j)).count
        (vtx N i0 (j0+1), vtx N ((i0+1) % M) (j0+1))) = 1 := by
    apply sum_sum_indicator hi0 hj0
    intro i hiM j hjK
    have hjN : j < N := by omega
    have hj1N : j + 1 < N := by omega
    have hc1 := nxt_cases hiM
    have hb1 := vtx_lt hiM hjN
    have hb2 := vtx_lt hiM hj1N
    have hb3 := vtx_lt (nxt_lt hM0 i) hjN
    have hb4 := vtx_lt (nxt_lt hM0 i) hj1N
    rw [count_quad]
    have hz1 : ec (vtx N i j, vtx N i (j+1))
        (vtx N i0 (j0+1), vtx N ((i0+1) % M) (j0+1)) = 0 := by
      apply ec_eq_zero
      intro h
      simp only [Prod.mk.injEq, vtx_inj hjN hj01N, vtx_inj hj1N hj01N] at h
      omega
    have hz2 : ec (vtx N i (j+1), vtx N ((i+1) % M) (j+1))
        (vtx N i0 (j0+1), vtx N ((i0+1) % M) (j0+1)) = if i = i0 ∧ j = j0 then 1 else 0 := by
      by_cases hij : i = i0 ∧ j = j0
      · obtain ⟨rfl, rfl⟩ := hij
        rw [if_pos ⟨rfl, rfl⟩]
        exact ec_eq_one rfl
      · rw [if_neg hij]
        apply ec_eq_zero
        intro h
        simp only [Prod.mk.injEq, vtx_inj hj1N hj01N] at h
        omega
    have hz3 : ec (vtx N ((i+1) % M) (j+1), vtx N i j)
        (vtx N i0 (j0+1), vtx N ((i0+1) % M) (j0+1)) = 0 := by
      apply ec_eq_zero
      intro h
      simp only [Prod.mk.injEq, vtx_inj hj1N hj01N, vtx_inj hjN hj01N] at h
      omega
    have hz4 : ec (vtx N i j, vtx N ((i+1) % M) (j+1))
        (vtx N i0 (j0+1), vtx N ((i0+1) % M) (j0+1)) = 0 := by
      apply ec_eq_zero
      intro h
      simp only [Prod.mk.injEq, vtx_inj hjN hj01N, vtx_inj hj1N hj01N] at h
      omega
    have hz5 : ec (vtx N ((i+1) % M) (j+1), vtx N ((i+1) % M) j)
        (vtx N i0 (j0+1), vtx N ((i0+1) % M) (j0+1)) = 0 := by
      apply ec_eq_zero
      intro h
      simp only [Prod.mk.injEq, vtx_inj hj1N hj01N, vtx_inj hjN hj01N] at h
      omega
    have hz6 : ec (vtx N ((i+1) % M) j, vtx N i j)
        (vtx N i0 (j0+1), vtx N ((i0+1) % M) (j0+1)) = 0 := by
      apply ec_eq_zero
      intro h
      simp only [Prod.mk.injEq, vtx_inj hjN hj01N] at h
      omega
    rw [hz1, hz2, hz3, hz4, hz5, hz6]
    split_ifs <;> rfl
  rw [htube, hsc, hec]

/-- Count of tube edge family `(i0+1 mod M, j0+1) → (i0, j0)` (diagonal). -/
lemma count_fam_D1 {M N i0 j0 : ℕ} (hM : 3 ≤ M) (hN : 2 ≤ N)
    (hi0 : i0 < M) (hj0 : j0 < N - 1) :
    (meshEdges (orientedTorusFaces M N)).count
      (vtx N ((i0+1) % M) (j0+1), vtx N i0 j0) = 1 := by
  have hj0N : j0 < N := by omega
  have hj01N : j0 + 1 < N := by omega
  have hN0 : 0 < N := by omega
  have hN1 : N - 1 < N := by omega
  have hM0 : 0 < M := by omega
  have hSa : vtx N ((i0+1) % M) (j0+1) < M * N := vtx_lt (nxt_lt (by omega) i0) (by omega)
  have hSb : vtx N i0 j0 < M * N := vtx_lt hi0 (by omega)
  have hc2 := nxt_cases hi0
  rw [count_oriented]
  have hsc : (∑ i in Finset.range M,
      (ec (M * N, vtx N i 0) (vtx N ((i0+1) % M) (j0+1), vtx N i0 j0) +
        ec (vtx N i 0, vtx N ((i+1) % M) 0) (vtx N ((i0+1) % M) (j0+1), vtx N i0 j0) +
        ec (vtx N ((i+1) % M) 0, M * N) (vtx N ((i0+1) % M) (j0+1), vtx N i0 j0))) = 0 := by
    apply sum_range_zero_of
    intro i hiM
    have hc1 := nxt_cases hiM
    have hb1 := vtx_lt hiM hN0
    have hb2 := vtx_lt (nxt_lt hM0 i) hN0
    have hz1 : ec (M * N, vtx N i 0)
        (vtx N ((i0+1) % M) (j0+1), vtx N i0 j0) = 0 := by
      apply ec_eq_zero
      intro h
      simp only [Prod.mk.injEq, vtx_inj hN0 hj01N, vtx_inj hN0 hj0N] at h
      omega
    have hz2 : ec (vtx N i 0, vtx N ((i+1) % M) 0)
        (vtx N ((i0+1) % M) (j0+1), vtx N i0 j0) = 0 := by
      apply ec_eq_zero
      intro h
      simp only [Prod.mk.injEq, vtx_inj hN0 hj01N, vtx_inj hN0 hj0N] at h
      omega
    have hz3 : ec (vtx N ((i+1) % M) 0, M * N)
        (vtx N ((i0+1) % M) (j0+1), vtx N i0 j0) = 0 := by
      apply ec_eq_zero
      intro h
      simp only [Prod.mk.injEq, vtx_inj hN0 hj01N, vtx_inj hN0 hj0N] at h
      omega
    rw [hz1, hz2, hz3]
  have hec : (∑ i in Finset.range M,
      (ec (M * N + 1, vtx N ((i+1) % M) (N-1)) (vtx N ((i0+1) % M) (j0+1), vtx N i0 j0) +
        ec (vtx N ((i+1) % M) (N-1), vtx N i (N-1)) (vtx N ((i0+1) % M) (j0+1), vtx N i0 j0) +
        ec (vtx N i (N-1), M * N + 1) (vtx N ((i0+1) % M) (j0+1), vtx N i0 j0))) = 0 := by
    apply sum_range_zero_of
    intro i hiM
    have hc1 := nxt_cases hiM
    have hb1 := vtx_lt hiM hN1
    have hb2 := vtx_lt (nxt_lt hM0 i) hN1
    have hz1 : ec (M * N + 1, vtx N ((i+1) % M) (N-1))
        (vtx N ((i0+1) % M) (j0+1), vtx N i0 j0) = 0 := by
      apply ec_eq_zero
      intro h
      simp only [Prod.mk.injEq, vtx_inj hN1 hj01N, vtx_inj hN1 hj0N] at h
      omega
    have hz2 : ec (vtx N ((i+1) % M) (N-1), vtx N i (N-1))
        (vtx N ((i0+1) % M) (j0+1), vtx N i0 j0) = 0 := by
      apply ec_eq_zero
      intro h
      simp only [Prod.mk.injEq, vtx_inj hN1 hj01N, vtx_inj hN1 hj0N] at h
      omega
    have hz3 : ec (vtx N i (N-1), M * N + 1)
        (vtx N ((i0+1) % M) (j0+1), vtx N i0 j0) = 0 := by
      apply ec_eq_zero
      intro h
      simp only [Prod.mk.injEq, vtx_inj hN1 hj01N, vtx_inj hN1 hj0N] at h
      omega
    rw [hz1, hz2, hz3]
  have htube : (∑ i in Finset.range M, ∑ j in Finset.range (N-1),
      (meshEdges (quadFaces M N i j)).count
        (vtx N ((i0+1) % M) (j0+1), vtx N i0 j0)) = 1 := by
    apply sum_sum_indicator hi0 hj0
    intro i hiM j hjK
    have hjN : j < N := by omega
    have hj1N : j + 1 < N := by omega
    have hc1 := nxt_cases hiM
    have hb1 := vtx_lt hiM hjN
    have hb2 := vtx_lt hiM hj1N
    have hb3 := vtx_lt (nxt_lt hM0 i) hjN
    have hb4 := vtx_lt (nxt_lt hM0 i) hj1N
    rw [count_quad]
    have hz1 : ec (vtx N i j, vtx N i (j+1))
        (vtx N ((i0+1) % M) (j0+1), vtx N i0 j0) = 0 := by
      apply ec_eq_zero
      intro h
      simp only [Prod.mk.injEq, vtx_inj hjN hj01N, vtx_inj hjN hj0N, vtx_inj hj1N hj01N, vtx_inj hj1N hj0N] at h
      omega
    have hz2 : ec (vtx N i (j+1), vtx N ((i+1) % M) (j+1))
        (vtx N ((i0+1) % M) (j0+1), vtx N i0 j0) = 0 := by
      apply ec_eq_zero
      intro h
      simp only [Prod.mk.injEq, vtx_inj hj1N hj01N, vtx_inj hj1N hj0N] at h
      omega
    have hz3 : ec (vtx N ((i+1) % M) (j+1), vtx N i j)
        (vtx N ((i0+1) % M) (j0+1), vtx N i0 j0) = if i = i0 ∧ j = j0 then 1 else 0 := by
      by_cases hij : i = i0 ∧ j = j0
      · obtain ⟨rfl, rfl⟩ := hij
        rw [if_pos ⟨rfl, rfl⟩]
        exact ec_eq_one rfl
      · rw [if_neg hij]
        apply ec_eq_zero
        intro h
        simp only [Prod.mk.injEq, vtx_inj hj1N hj01N, vtx_inj hj1N hj0N, vtx_inj hjN hj01N, vtx_inj hjN hj0N] at h
        omega
    have hz4 : ec (vtx N i j, vtx N ((i+1) % M) (j+1))
        (vtx N ((i0+1) % M) (j0+1), vtx N i0 j0) = 0 := by
      apply ec_eq_zero
      intro h
      simp only [Prod.mk.injEq, vtx_inj hjN hj01N, vtx_inj hjN hj0N, vtx_inj hj1N hj01N, vtx_inj hj1N hj0N] at h
      omega
    have hz5 : ec (vtx N ((i+1) % M) (j+1), vtx N ((i+1) % M) j)
        (vtx N ((i0+1) % M) (j0+1), vtx N i0 j0) = 0 := by
      apply ec_eq_zero
      intro h
      simp only [Prod.mk.injEq, vtx_inj hj1N hj01N, vtx_inj hj1N hj0N, vtx_inj hjN hj01N, vtx_inj hjN hj0N] at h
      omega
    have hz6 : ec (vtx N ((i+1) % M) j, vtx N i j)
        (vtx N ((i0+1) % M) (j0+1), vtx N i0 j0) = 0 := by
      apply ec_eq_zero
      intro h
      simp only [Prod.mk.injEq, vtx_inj hjN hj01N, vtx_inj hjN hj0N] at h
      omega
    rw [hz1, hz2, hz3, hz4, hz5, hz6]
    split_ifs <;> rfl
  rw [htube, hsc, hec]

/-- Count of tube edge family `(i0, j0) → (i0+1 mod M, j0+1)` (diagonal). -/
lemma count_fam_D2 {M N i0 j0 : ℕ} (hM : 3 ≤ M) (hN : 2 ≤ N)
    (hi0 : i0 < M) (hj0 : j0 < N - 1) :
    (meshEdges (orientedTorusFaces M N)).count
      (vtx N i0 j0, vtx N ((i0+1) % M) (j0+1)) = 1 := by
  have hj0N : j0 < N := by omega
  have hj01N : j0 + 1 < N := by omega
  have hN0 : 0 < N := by omega
  have hN1 : N - 1 < N := by omega
  have hM0 : 0 < M := by omega
  have hSa : vtx N i0 j0 < M * N := vtx_lt hi0 (by omega)
  have hSb : vtx N ((i0+1) % M) (j0+1) < M * N := vtx_lt (nxt_lt (by omega) i0) (by omega)
  have hc2 := nxt_cases hi0
  rw [count_oriented]
  have hsc : (∑ i in Finset.range M,
      (ec (M * N, vtx N i 0) (vtx N i0 j0, vtx N ((i0+1) % M) (j0+1)) +
        ec (vtx N i 0, vtx N ((i+1) % M) 0) (vtx N i0 j0, vtx N ((i0+1) % M) (j0+1)) +
        ec (vtx N ((i+1) % M) 0, M * N) (vtx N i0 j0, vtx N ((i0+1) % M) (j0+1)))) = 0 := by
    apply sum_range_zero_of
    intro i hiM
    have hc1 := nxt_cases hiM
    have hb1 := vtx_lt hiM hN0
    have hb2 := vtx_lt (nxt_lt hM0 i) hN0
    have hz1 : ec (M * N, vtx N i 0)
        (vtx N i0 j0, vtx N ((i0+1) % M) (j0+1)) = 0 := by
      apply ec_eq_zero
      intro h
      simp only [Prod.mk.injEq, vtx_inj hN0 hj0N, vtx_inj hN0 hj01N] at h
      omega
    have hz2 : ec (vtx N i 0, vtx N ((i+1) % M) 0)
        (vtx N i0 j0, vtx N ((i0+1) % M) (j0+1)) = 0 := by
      apply ec_eq_zero
      intro h
      simp only [Prod.mk.injEq, vtx_inj hN0 hj0N, vtx_inj hN0 hj01N] at h
      omega
    have hz3 : ec (vtx N ((i+1) % M) 0, M * N)
        (vtx N i0 j0, vtx N ((i0+1) % M) (j0+1)) = 0 := by
      apply ec_eq_zero
      intro h
      simp only [Prod.mk.injEq, vtx_inj hN0 hj0N, vtx_inj hN0 hj01N] at h
      omega
    rw [hz1, hz2, hz3]
  have hec : (∑ i in Finset.range M,
      (ec (M * N + 1, vtx N ((i+1) % M) (N-1)) (vtx N i0 j0, vtx N ((i0+1) % M) (j0+1)) +
        ec (vtx N ((i+1) % M) (N-1), vtx N i (N-1)) (vtx N i0 j0, vtx N ((i0+1) % M) (j0+1)) +
        ec (vtx N i (N-1), M * N + 1) (vtx N i0 j0, vtx N ((i0+1) % M) (j0+1)))) = 0 := by
    apply sum_range_zero_of
    intro i hiM
    have hc1 := nxt_cases hiM
    have hb1 := vtx_lt hiM hN1
    have hb2 := vtx_lt (nxt_lt hM0 i) hN1
    have hz1 : ec (M * N + 1, vtx N ((i+1) % M) (N-1))
        (vtx N i0 j0, vtx N ((i0+1) % M) (j0+1)) = 0 := by
      apply ec_eq_zero
      intro h
      simp only [Prod.mk.injEq, vtx_inj hN1 hj0N, vtx_inj hN1 hj01N] at h
      omega
    have hz2 : ec (vtx N ((i+1) % M) (N-1), vtx N i (N-1))
        (vtx N i0 j0, vtx N ((i0+1) % M) (j0+1)) = 0 := by
      apply ec_eq_zero
      intro h
      simp only [Prod.mk.injEq, vtx_inj hN1 hj0N, vtx_inj hN1 hj01N] at h
      omega
    have hz3 : ec (vtx N i (N-1), M * N + 1)
        (vtx N i0 j0, vtx N ((i0+1) % M) (j0+1)) = 0 := by
      apply ec_eq_zero
      intro h
      simp only [Prod.mk.injEq, vtx_inj hN1 hj0N, vtx_inj hN1 hj01N] at h
      omega
    rw [hz1, hz2, hz3]
  have htube : (∑ i in Finset.range M, ∑ j in Finset.range (N-1),
      (meshEdges (quadFaces M N i j)).count
        (vtx N i0 j0, vtx N ((i0+1) % M) (j0+1))) = 1 := by
    apply sum_sum_indicator hi0 hj0
    intro i hiM j hjK
    have hjN : j < N := by omega
    have hj1N : j + 1 < N := by omega
    have hc1 := nxt_cases hiM
    have hb1 := vtx_lt hiM hjN
    have hb2 := vtx_lt hiM hj1N
    have hb3 := vtx_lt (nxt_lt hM0 i) hjN
    have hb4 := vtx_lt (nxt_lt hM0 i) hj1N
    rw [count_quad]
    have hz1 : ec (vtx N i j, vtx N i (j+1))
        (vtx N i0 j0, vtx N ((i0+1) % M) (j0+1)) = 0 := by
      apply ec_eq_zero
      intro h
      simp only [Prod.mk.injEq, vtx_inj hjN hj0N, vtx_inj hjN hj01N, vtx_inj hj1N hj0N, vtx_inj hj1N hj01N] at h
      omega
    have hz2 : ec (vtx N i (j+1), vtx N ((i+1) % M) (j+1))
        (vtx N i0 j0, vtx N ((i0+1) % M) (j0+1)) = 0 := by
      apply ec_eq_zero
      intro h
      simp only [Prod.mk.injEq, vtx_inj hj1N hj0N, vtx_inj hj1N hj01N] at h
      omega
    have hz3 : ec (vtx N ((i+1) % M) (j+1), vtx N i j)
        (vtx N i0 j0, vtx N ((i0+1) % M) (j0+1)) = 0 := by
      apply ec_eq_zero
      intro h
      simp only [Prod.mk.injEq, vtx_inj hj1N hj0N, vtx_inj hj1N hj01N, vtx_inj hjN hj0N, vtx_inj hjN hj01N] at h
      omega
    have hz4 : ec (vtx N i j, vtx N ((i+1) % M) (j+1))
        (vtx N i0 j0, vtx N ((i0+1) % M) (j0+1)) = if i = i0 ∧ j = j0 then 1 else 0 := by
      by_cases hij : i = i0 ∧ j = j0
      · obtain ⟨rfl, rfl⟩ := hij
        rw [if_pos ⟨rfl, rfl⟩]
        exact ec_eq_one rfl
      · rw [if_neg hij]
        apply ec_eq_zero
        intro h
        simp only [Prod.mk.injEq, vtx_inj hjN hj0N, vtx_inj hjN hj01N, vtx_inj hj1N hj0N, vtx_inj hj1N hj01N] at h
        omega
    have hz5 : ec (vtx N ((i+1) % M) (j+1), vtx N ((i+1) % M) j)
        (vtx N i0 j0, vtx N ((i0+1) % M) (j0+1)) = 0 := by
      apply ec_eq_zero
      intro h
      simp only [Prod.mk.injEq, vtx_inj hj1N hj0N, vtx_inj hj1N hj01N, vtx_inj hjN hj0N, vtx_inj hjN hj01N] at h
      omega
    have hz6 : ec (vtx N ((i+1) % M) j, vtx N i j)
        (vtx N i0 j0, vtx N ((i0+1) % M) (j0+1)) = 0 := by
      apply ec_eq_zero
      intro h
      simp only [Prod.mk.injEq, vtx_inj hjN hj0N, vtx_inj hjN hj01N] at h
      omega
    rw [hz1, hz2, hz3, hz4, hz5, hz6]
    split_ifs <;> rfl
  rw [htube, hsc, hec]

/-- Count of tube edge family `(i0+1 mod M, j0+1) → (i0+1 mod M, j0)`. -/
lemma count_fam_H2 {M N i0 j0 : ℕ} (hM : 3 ≤ M) (hN : 2 ≤ N)
    (hi0 : i0 < M) (hj0 : j0 < N - 1) :
    (meshEdges (orientedTorusFaces M N)).count
      (vtx N ((i0+1) % M) (j0+1), vtx N ((i0+1) % M) j0) = 1 := by
  have hj0N : j0 < N := by omega
  have hj01N : j0 + 1 < N := by omega
  have hN0 : 0 < N := by omega
  have hN1 : N - 1 < N := by omega
  have hM0 : 0 < M := by omega
  have hSa : vtx N ((i0+1) % M) (j0+1) < M * N := vtx_lt (nxt_lt (by omega) i0) (by omega)
  have hSb : vtx N ((i0+1) % M) j0 < M * N := vtx_lt (nxt_lt (by omega) i0) (by omega)
  have hc2 := nxt_cases hi0
  rw [count_oriented]
  have hsc : (∑ i in Finset.range M,
      (ec (M * N, vtx N i 0) (vtx N ((i0+1) % M) (j0+1), vtx N ((i0+1) % M) j0) +
        ec (vtx N i 0, vtx N ((i+1) % M) 0) (vtx N ((i0+1) % M) (j0+1), vtx N ((i0+1) % M) j0) +
        ec (vtx N ((i+1) % M) 0, M * N) (vtx N ((i0+1) % M) (j0+1), vtx N ((i0+1) % M) j0))) = 0 := by
    apply sum_range_zero_of
    intro i hiM
    have hc1 := nxt_cases hiM
    have hb1 := vtx_lt hiM hN0
    have hb2 := vtx_lt (nxt_lt hM0 i) hN0
    have hz1 : ec (M * N, vtx N i 0)
        (vtx N ((i0+1) % M) (j0+1), vtx N ((i0+1) % M) j0) = 0 := by
      apply ec_eq_zero
      intro h
      simp only [Prod.mk.injEq, vtx_inj hN0 hj01N, vtx_inj hN0 hj0N] at h
      omega
    have hz2 : ec (vtx N i 0, vtx N ((i+1) % M) 0)
        (vtx N ((i0+1) % M) (j0+1), vtx N ((i0+1) % M) j0) = 0 := by
      apply ec_eq_zero
      intro h
      simp only [Prod.mk.injEq, vtx_inj hN0 hj01N, vtx_inj hN0 hj0N] at h
      omega
    have hz3 : ec (vtx N ((i+1) % M) 0, M * N)
        (vtx N ((i0+1) % M) (j0+1), vtx N ((i0+1) % M) j0) = 0 := by
      apply ec_eq_zero
      intro h
      simp only [Prod.mk.injEq, vtx_inj hN0 hj01N, vtx_inj hN0 hj0N] at h
      omega
    rw [hz1, hz2, hz3]
  have hec : (∑ i in Finset.range M,
      (ec (M * N + 1, vtx N ((i+1) % M) (N-1)) (vtx N ((i0+1) % M) (j0+1), vtx N ((i0+1) % M) j0) +
        ec (vtx N ((i+1) % M) (N-1), vtx N i (N-1)) (vtx N ((i0+1) % M) (j0+1), vtx N ((i0+1) % M) j0) +
        ec (vtx N i (N-1), M * N + 1) (vtx N ((i0+1) % M) (j0+1), vtx N ((i0+1) % M) j0))) = 0 := by
    apply sum_range_zero_of
    intro i hiM
    have hc1 := nxt_cases hiM
    have hb1 := vtx_lt hiM hN1
    have hb2 := vtx_lt (nxt_lt hM0 i) hN1
    have hz1 : ec (M * N + 1, vtx N ((i+1) % M) (N-1))
        (vtx N ((i0+1) % M) (j0+1), vtx N ((i0+1) % M) j0) = 0 := by
      apply ec_eq_zero
      intro h
      simp only [Prod.mk.injEq, vtx_inj hN1 hj01N, vtx_inj hN1 hj0N] at h
      omega
    have hz2 : ec (vtx N ((i+1) % M) (N-1), vtx N i (N-1))
        (vtx N ((i0+1) % M) (j0+1), vtx N ((i0+1) % M) j0) = 0 := by
      apply ec_eq_zero
      intro h
      simp only [Prod.mk.injEq, vtx_inj hN1 hj01N, vtx_inj hN1 hj0N] at h
      omega
    have hz3 : ec (vtx N i (N-1), M * N + 1)
        (vtx N ((i0+1) % M) (j0+1), vtx N ((i0+1) % M) j0) = 0 := by
      apply ec_eq_zero
      intro h
      simp only [Prod.mk.injEq, vtx_inj hN1 hj01N, vtx_inj hN1 hj0N] at h
      omega
    rw [hz1, hz2, hz3]
  have htube : (∑ i in Finset.range M, ∑ j in Finset.range (N-1),
      (meshEdges (quadFaces M N i j)).count
        (vtx N ((i0+1) % M) (j0+1), vtx N ((i0+1) % M) j0)) = 1 := by
    apply sum_sum_indicator hi0 hj0
    intro i hiM j hjK
    have hjN : j < N := by omega
    have hj1N : j + 1 < N := by omega
    have hc1 := nxt_cases hiM
    have hb1 := vtx_lt hiM hjN
    have hb2 := vtx_lt hiM hj1N
    have hb3 := vtx_lt (nxt_lt hM0 i) hjN
    have hb4 := vtx_lt (nxt_lt hM0 i) hj1N
    rw [count_quad]
    have hz1 : ec (vtx N i j, vtx N i (j+1))
        (vtx N ((i0+1) % M) (j0+1), vtx N ((i0+1) % M) j0) = 0 := by
      apply ec_eq_zero
      intro h
      simp only [Prod.mk.injEq, vtx_inj hjN hj01N, vtx_inj hjN hj0N, vtx_inj hj1N hj01N, vtx_inj hj1N hj0N] at h
      omega
    have hz2 : ec (vtx N i (j+1), vtx N ((i+1) % M) (j+1))
        (vtx N ((i0+1) % M) (j0+1), vtx N ((i0+1) % M) j0) = 0 := by
      apply ec_eq_zero
      intro h
      simp only [Prod.mk.injEq, vtx_inj hj1N hj01N, vtx_inj hj1N hj0N] at h
      omega
    have hz3 : ec (vtx N ((i+1) % M) (j+1), vtx N i j)
        (vtx N ((i0+1) % M) (j0+1), vtx N ((i0+1) % M) j0) = 0 := by
      apply ec_eq_zero
      intro h
      simp only [Prod.mk.injEq, vtx_inj hj1N hj01N, vtx_inj hj1N hj0N, vtx_inj hjN hj01N, vtx_inj hjN hj0N] at h
      omega
    have hz4 : ec (vtx N i j, vtx N ((i+1) % M) (j+1))
        (vtx N ((i0+1) % M) (j0+1), vtx N ((i0+1) % M) j0) = 0 := by
      apply ec_eq_zero
      intro h
      simp only [Prod.mk.injEq, vtx_inj hjN hj01N, vtx_inj hjN hj0N, vtx_inj hj1N hj01N, vtx_inj hj1N hj0N] at h
      omega
    have hz5 : ec (vtx N ((i+1) % M) (j+1), vtx N ((i+1) % M) j)
        (vtx N ((i0+1) % M) (j0+1), vtx N ((i0+1) % M) j0) = if i = i0 ∧ j = j0 then 1 else 0 := by
      by_cases hij : i = i0 ∧ j = j0
      · obtain ⟨rfl, rfl⟩ := hij
        rw [if_pos ⟨rfl, rfl⟩]
        exact ec_eq_one rfl
      · rw [if_neg hij]
        apply ec_eq_zero
        intro h
        simp only [Prod.mk.injEq, vtx_inj hj1N hj01N, vtx_inj hj1N hj0N, vtx_inj hjN hj01N, vtx_inj hjN hj0N] at h
        omega
    have hz6 : ec (vtx N ((i+1) % M) j, vtx N i j)
        (vtx N ((i0+1) % M) (j0+1), vtx N ((i0+1) % M) j0) = 0 := by
      apply ec_eq_zero
      intro h
      simp only [Prod.mk.injEq, vtx_inj hjN hj01N, vtx_inj hjN hj0N] at h
      omega
    rw [hz1, hz2, hz3, hz4, hz5, hz6]
    split_ifs <;> rfl
  rw [htube, hsc, hec]

/-- Count of tube edge family `(i0+1 mod M, j0) → (i0, j0)`. -/
lemma count_fam_V2 {M N i0 j0 : ℕ} (hM : 3 ≤ M) (hN : 2 ≤ N)
    (hi0 : i0 < M) (hj0 : j0 < N - 1) :
    (meshEdges (orientedTorusFaces M N)).count
      (vtx N ((i0+1) % M) j0, vtx N i0 j0) = 1 := by
  have hj0N : j0 < N := by omega
  have hj01N : j0 + 1 < N := by omega
  have hN0 : 0 < N := by omega
  have hN1 : N - 1 < N := by omega
  have hM0 : 0 < M := by omega
  have hSa : vtx N ((i0+1) % M) j0 < M * N := vtx_lt (nxt_lt (by omega) i0) (by omega)
  have hSb : vtx N i0 j0 < M * N := vtx_lt hi0 (by omega)
  have hc2 := nxt_cases hi0
  rw [count_oriented]
  have hsc : (∑ i in Finset.range M,
      (ec (M * N, vtx N i 0) (vtx N ((i0+1) % M) j0, vtx N i0 j0) +
        ec (vtx N i 0, vtx N ((i+1) % M) 0) (vtx N ((i0+1) % M) j0, vtx N i0 j0) +
        ec (vtx N ((i+1) % M) 0, M * N) (vtx N ((i0+1) % M) j0, vtx N i0 j0))) = 0 := by
    apply sum_range_zero_of
    intro i hiM
    have hc1 := nxt_cases hiM
    have hb1 := vtx_lt hiM hN0
    have hb2 := vtx_lt (nxt_lt hM0 i) hN0
    have hz1 : ec (M * N, vtx N i 0)
        (vtx N ((i0+1) % M) j0, vtx N i0 j0) = 0 := by
      apply ec_eq_zero
      intro h
      simp only [Prod.mk.injEq, vtx_inj hN0 hj0N] at h
      omega
    have hz2 : ec (vtx N i 0, vtx N ((i+1) % M) 0)
        (vtx N ((i0+1) % M) j0, vtx N i0 j0) = 0 := by
      apply ec_eq_zero
      intro h
      simp only [Prod.mk.injEq, vtx_inj hN0 hj0N] at h
      omega
    have hz3 : ec (vtx N ((i+1) % M) 0, M * N)
        (vtx N ((i0+1) % M) j0, vtx N i0 j0) = 0 := by
      apply ec_eq_zero
      intro h
      simp only [Prod.mk.injEq, vtx_inj hN0 hj0N] at h
      omega
    rw [hz1, hz2, hz3]
  have hec : (∑ i in Finset.range M,
      (ec (M * N + 1, vtx N ((i+1) % M) (N-1)) (vtx N ((i0+1) % M) j0, vtx N i0 j0) +
        ec (vtx N ((i+1) % M) (N-1), vtx N i (N-1)) (vtx N ((i0+1) % M) j0, vtx N i0 j0) +
        ec (vtx N i (N-1), M * N + 1) (vtx N ((i0+1) % M) j0, vtx N i0 j0))) = 0 := by
    apply sum_range_zero_of
    intro i hiM
    have hc1 := nxt_cases hiM
    have hb1 := vtx_lt hiM hN1
    have hb2 := vtx_lt (nxt_lt hM0 i) hN1
    have hz1 : ec (M * N + 1, vtx N ((i+1) % M) (N-1))
        (vtx N ((i0+1) % M) j0, vtx N i0 j0) = 0 := by
      apply ec_eq_zero
      intro h
      simp only [Prod.mk.injEq, vtx_inj hN1 hj0N] at h
      omega
    have hz2 : ec (vtx N ((i+1) % M) (N-1), vtx N i (N-1))
        (vtx N ((i0+1) % M) j0, vtx N i0 j0) = 0 := by
      apply ec_eq_zero
      intro h
      simp only [Prod.mk.injEq, vtx_inj hN1 hj0N] at h
      omega
    have hz3 : ec (vtx N i (N-1), M * N + 1)
        (vtx N ((i0+1) % M) j0, vtx N i0 j0) = 0 := by
      apply ec_eq_zero
      intro h
      simp only [Prod.mk.injEq, vtx_inj hN1 hj0N] at h
      omega
    rw [hz1, hz2, hz3]
  have htube : (∑ i in Finset.range M, ∑ j in Finset.range (N-1),
      (meshEdges (quadFaces M N i j)).count
        (vtx N ((i0+1) % M) j0, vtx N i0 j0)) = 1 := by
    apply sum_sum_indicator hi0 hj0
    intro i hiM j hjK
    have hjN : j < N := by omega
    have hj1N : j + 1 < N := by omega
    have hc1 := nxt_cases hiM
    have hb1 := vtx_lt hiM hjN
    have hb2 := vtx_lt hiM hj1N
    have hb3 := vtx_lt (nxt_lt hM0 i) hjN
    have hb4 := vtx_lt (nxt_lt hM0 i) hj1N
    rw [count_quad]
    have hz1 : ec (vtx N i j, vtx N i (j+1))
        (vtx N ((i0+1) % M) j0, vtx N i0 j0) = 0 := by
      apply ec_eq_zero
      intro h
      simp only [Prod.mk.injEq, vtx_inj hjN hj0N, vtx_inj hj1N hj0N] at h
      omega
    have hz2 : ec (vtx N i (j+1), vtx N ((i+1) % M) (j+1))
        (vtx N ((i0+1) % M) j0, vtx N i0 j0) = 0 := by
      apply ec_eq_zero
      intro h
      simp only [Prod.mk.injEq, vtx_inj hj1N hj0N] at h
      omega
    have hz3 : ec (vtx N ((i+1) % M) (j+1), vtx N i j)
        (vtx N ((i0+1) % M) j0, vtx N i0 j0) = 0 := by
      apply ec_eq_zero
      intro h
      simp only [Prod.mk.injEq, vtx_inj hj1N hj0N, vtx_inj hjN hj0N] at h
      omega
    have hz4 : ec (vtx N i j, vtx N ((i+1) % M) (j+1))
        (vtx N ((i0+1) % M) j0, vtx N i0 j0) = 0 := by
      apply ec_eq_zero
      intro h
      simp only [Prod.mk.injEq, vtx_inj hjN hj0N, vtx_inj hj1N hj0N] at h
      omega
    have hz5 : ec (vtx N ((i+1) % M) (j+1), vtx N ((i+1) % M) j)
        (vtx N ((i0+1) % M) j0, vtx N i0 j0) = 0 := by
      apply ec_eq_zero
      intro h
      simp only [Prod.mk.injEq, vtx_inj hj1N hj0N, vtx_inj hjN hj0N] at h
      omega
    have hz6 : ec (vtx N ((i+1) % M) j, vtx N i j)
        (vtx N ((i0+1) % M) j0, vtx N i0 j0) = if i = i0 ∧ j = j0 then 1 else 0 := by
      by_cases hij : i = i0 ∧ j = j0
      · obtain ⟨rfl, rfl⟩ := hij
        rw [if_pos ⟨rfl, rfl⟩]
        exact ec_eq_one rfl
      · rw [if_neg hij]
        apply ec_eq_zero
        intro h
        simp only [Prod.mk.injEq, vtx_inj hjN hj0N] at h
        omega
    rw [hz1, hz2, hz3, hz4, hz5, hz6]
    split_ifs <;> rfl
  rw [htube, hsc, hec]

/-- Count of start-cap spoke family `S → (i0, 0)`. -/
lemma count_fam_SC1 {M N i0 : ℕ} (hM : 3 ≤ M) (hN : 2 ≤ N)
    (hi0 : i0 < M) :
    (meshEdges (orientedTorusFaces M N)).count
      (M * N, vtx N i0 0) = 1 := by
  have hN0 : 0 < N := by omega
  have hN1 : N - 1 < N := by omega
  have hM0 : 0 < M := by omega
  have hSa : vtx N i0 0 < M * N := vtx_lt hi0 (by omega)
  have hc2 := nxt_cases hi0
  rw [count_oriented]
  have hsc : (∑ i in Finset.range M,
      (ec (M * N, vtx N i 0) (M * N, vtx N i0 0) +
        ec (vtx N i 0, vtx N ((i+1) % M) 0) (M * N, vtx N i0 0) +
        ec (vtx N ((i+1) % M) 0, M * N) (M * N, vtx N i0 0))) = 1 := by
    apply sum_range_indicator hi0
    intro i hiM
    have hc1 := nxt_cases hiM
    have hb1 := vtx_lt hiM hN0
    have hb2 := vtx_lt (nxt_lt hM0 i) hN0
    have hz1 : ec (M * N, vtx N i 0)
        (M * N, vtx N i0 0) = if i = i0 then 1 else 0 := by
      by_cases hij : i = i0
      · subst hij
        rw [if_pos rfl]
        exact ec_eq_one rfl
      · rw [if_neg hij]
        apply ec_eq_zero
        intro h
        simp only [Prod.mk.injEq, vtx_inj hN0 hN0] at h
        omega
    have hz2 : ec (vtx N i 0, vtx N ((i+1) % M) 0)
        (M * N, vtx N i0 0) = 0 := by
      apply ec_eq_zero
      intro h
      simp only [Prod.mk.injEq, vtx_inj hN0 hN0] at h
      omega
    have hz3 : ec (vtx N ((i+1) % M) 0, M * N)
        (M * N, vtx N i0 0) = 0 := by
      apply ec_eq_zero
      intro h
      simp only [Prod.mk.injEq, vtx_inj hN0 hN0] at h
      omega
    rw [hz1, hz2, hz3]
    split_ifs <;> rfl
  have hec : (∑ i in Finset.range M,
      (ec (M * N + 1, vtx N ((i+1) % M) (N-1)) (M * N, vtx N i0 0) +
        ec (vtx N ((i+1) % M) (N-1), vtx N i (N-1)) (M * N, vtx N i0 0) +
        ec (vtx N i (N-1), M * N + 1) (M * N, vtx N i0 0))) = 0 := by
    apply sum_range_zero_of
    intro i hiM
    have hc1 := nxt_cases hiM
    have hb1 := vtx_lt hiM hN1
    have hb2 := vtx_lt (nxt_lt hM0 i) hN1
    have hz1 : ec (M * N + 1, vtx N ((i+1) % M) (N-1))
        (M * N, vtx N i0 0) = 0 := by
      apply ec_eq_zero
      intro h
      simp only [Prod.mk.injEq, vtx_inj hN1 hN0] at h
      omega
    have hz2 : ec (vtx N ((i+1) % M) (N-1), vtx N i (N-1))
        (M * N, vtx N i0 0) = 0 := by
      apply ec_eq_zero
      intro h
      simp only [Prod.mk.injEq, vtx_inj hN1 hN0] at h
      omega
    have hz3 : ec (vtx N i (N-1), M * N + 1)
        (M * N, vtx N i0 0) = 0 := by
      apply ec_eq_zero
      intro h
      simp only [Prod.mk.injEq, vtx_inj hN1 hN0] at h
      omega
    rw [hz1, hz2, hz3]
  have htube : (∑ i in Finset.range M, ∑ j in Finset.range (N-1),
      (meshEdges (quadFaces M N i j)).count
        (M * N, vtx N i0 0)) = 0 := by
    apply sum_range_zero_of
    intro i hiM
    apply sum_range_zero_of
    intro j hjK
    have hjN : j < N := by omega
    have hj1N : j + 1 < N := by omega
    have hc1 := nxt_cases hiM
    have hb1 := vtx_lt hiM hjN
    have hb2 := vtx_lt hiM hj1N
    have hb3 := vtx_lt (nxt_lt hM0 i) hjN
    have hb4 := vtx_lt (nxt_lt hM0 i) hj1N
    rw [count_quad]
    have hz1 : ec (vtx N i j, vtx N i (j+1))
        (M * N, vtx N i0 0) = 0 := by
      apply ec_eq_zero
      intro h
      simp only [Prod.mk.injEq, vtx_inj hjN hN0, vtx_inj hj1N hN0] at h
      omega
    have hz2 : ec (vtx N i (j+1), vtx N ((i+1) % M) (j+1))
        (M * N, vtx N i0 0) = 0 := by
      apply ec_eq_zero
      intro h
      simp only [Prod.mk.injEq, vtx_inj hj1N hN0] at h
      omega
    have hz3 : ec (vtx N ((i+1) % M) (j+1), vtx N i j)
        (M * N, vtx N i0 0) = 0 := by
      apply ec_eq_zero
      intro h
      simp only [Prod.mk.injEq, vtx_inj hj1N hN0, vtx_inj hjN hN0] at h
      omega
    have hz4 : ec (vtx N i j, vtx N ((i+1) % M) (j+1))
        (M * N, vtx N i0 0) = 0 := by
      apply ec_eq_zero
      intro h
      simp only [Prod.mk.injEq, vtx_inj hjN hN0, vtx_inj hj1N hN0] at h
      omega
    have hz5 : ec (vtx N ((i+1) % M) (j+1), vtx N ((i+1) % M) j)
        (M * N, vtx N i0 0) = 0 := by
      apply ec_eq_zero
      intro h
      simp only [Prod.mk.injEq, vtx_inj hj1N hN0, vtx_inj hjN hN0] at h
      omega
    have hz6 : ec (vtx N ((i+1) % M) j, vtx N i j)
        (M * N, vtx N i0 0) = 0 := by
      apply ec_eq_zero
      intro h
      simp only [Prod.mk.injEq, vtx_inj hjN hN0] at h
      omega
    rw [hz1, hz2, hz3, hz4, hz5, hz6]
  rw [htube, hsc, hec]

/-- Count of start-cap ring family `(i0, 0) → (i0+1 mod M, 0)`. -/
lemma count_fam_SC2 {M N i0 : ℕ} (hM : 3 ≤ M) (hN : 2 ≤ N)
    (hi0 : i0 < M) :
    (meshEdges (orientedTorusFaces M N)).count
      (vtx N i0 0, vtx N ((i0+1) % M) 0) = 1 := by
  have hN0 : 0 < N := by omega
  have hN1 : N - 1 < N := by omega
  have hM0 : 0 < M := by omega
  have hSa : vtx N i0 0 < M * N := vtx_lt hi0 (by omega)
  have hSb : vtx N ((i0+1) % M) 0 < M * N := vtx_lt (nxt_lt (by omega) i0) (by omega)
  have hc2 := nxt_cases hi0
  rw [count_oriented]
  have hsc : (∑ i in Finset.range M,
      (ec (M * N, vtx N i 0) (vtx N i0 0, vtx N ((i0+1) % M) 0) +
        ec (vtx N i 0, vtx N ((i+1) % M) 0) (vtx N i0 0, vtx N ((i0+1) % M) 0) +
        ec (vtx N ((i+1) % M) 0, M * N) (vtx N i0 0, vtx N ((i0+1) % M) 0))) = 1 := by
    apply sum_range_indicator hi0
    intro i hiM
    have hc1 := nxt_cases hiM
    have hb1 := vtx_lt hiM hN0
    have hb2 := vtx_lt (nxt_lt hM0 i) hN0
    have hz1 : ec (M * N, vtx N i 0)
        (vtx N i0 0, vtx N ((i0+1) % M) 0) = 0 := by
      apply ec_eq_zero
      intro h
      simp only [Prod.mk.injEq, vtx_inj hN0 hN0] at h
      omega
    have hz2 : ec (vtx N i 0, vtx N ((i+1) % M) 0)
        (vtx N i0 0, vtx N ((i0+1) % M) 0) = if i = i0 then 1 else 0 := by
      by_cases hij : i = i0
      · subst hij
        rw [if_pos rfl]
        exact ec_eq_one rfl
      · rw [if_neg hij]
        apply ec_eq_zero
        intro h
        simp only [Prod.mk.injEq, vtx_inj hN0 hN0] at h
        omega
    have hz3 : ec (vtx N ((i+1) % M) 0, M * N)
        (vtx N i0 0, vtx N ((i0+1) % M) 0) = 0 := by
      apply ec_eq_zero
      intro h
      simp only [Prod.mk.injEq, vtx_inj hN0 hN0] at h
      omega
    rw [hz1, hz2, hz3]
    split_ifs <;> rfl
  have hec : (∑ i in Finset.range M,
      (ec (M * N + 1, vtx N ((i+1) % M) (N-1)) (vtx N i0 0, vtx N ((i0+1) % M) 0) +
        ec (vtx N ((i+1) % M) (N-1), vtx N i (N-1)) (vtx N i0 0, vtx N ((i0+1) % M) 0) +
        ec (vtx N i (N-1), M * N + 1) (vtx N i0 0, vtx N ((i0+1) % M) 0))) = 0 := by
    apply sum_range_zero_of
    intro i hiM
    have hc1 := nxt_cases hiM
    have hb1 := vtx_lt hiM hN1
    have hb2 := vtx_lt (nxt_lt hM0 i) hN1
    have hz1 : ec (M * N + 1, vtx N ((i+1) % M) (N-1))
        (vtx N i0 0, vtx N ((i0+1) % M) 0) = 0 := by
      apply ec_eq_zero
      intro h
      simp only [Prod.mk.injEq, vtx_inj hN1 hN0] at h
      omega
    have hz2 : ec (vtx N ((i+1) % M) (N-1), vtx N i (N-1))
        (vtx N i0 0, vtx N ((i0+1) % M) 0) = 0 := by
      apply ec_eq_zero
      intro h
      simp only [Prod.mk.injEq, vtx_inj hN1 hN0] at h
      omega
    have hz3 : ec (vtx N i (N-1), M * N + 1)
        (vtx N i0 0, vtx N ((i0+1) % M) 0) = 0 := by
      apply ec_eq_zero
      intro h
      simp only [Prod.mk.injEq, vtx_inj hN1 hN0] at h
      omega
    rw [hz1, hz2, hz3]
  have htube : (∑ i in Finset.range M, ∑ j in Finset.range (N-1),
      (meshEdges (quadFaces M N i j)).count
        (vtx N i0 0, vtx N ((i0+1) % M) 0)) = 0 := by
    apply sum_range_zero_of
    intro i hiM
    apply sum_range_zero_of
    intro j hjK
    have hjN : j < N := by omega
    have hj1N : j + 1 < N := by omega
    have hc1 := nxt_cases hiM
    have hb1 := vtx_lt hiM hjN
    have hb2 := vtx_lt hiM hj1N
    have hb3 := vtx_lt (nxt_lt hM0 i) hjN
    have hb4 := vtx_lt (nxt_lt hM0 i) hj1N
    rw [count_quad]
    have hz1 : ec (vtx N i j, vtx N i (j+1))
        (vtx N i0 0, vtx N ((i0+1) % M) 0) = 0 := by
      apply ec_eq_zero
      intro h
      simp only [Prod.mk.injEq, vtx_inj hjN hN0, vtx_inj hj1N hN0] at h
      omega
    have hz2 : ec (vtx N i (j+1), vtx N ((i+1) % M) (j+1))
        (vtx N i0 0, vtx N ((i0+1) % M) 0) = 0 := by
      apply ec_eq_zero
      intro h
      simp only [Prod.mk.injEq, vtx_inj hj1N hN0] at h
      omega
    have hz3 : ec (vtx N ((i+1) % M) (j+1), vtx N i j)
        (vtx N i0 0, vtx N ((i0+1) % M) 0) = 0 := by
      apply ec_eq_zero
      intro h
      simp only [Prod.mk.injEq, vtx_inj hj1N hN0, vtx_inj hjN hN0] at h
      omega
    have hz4 : ec (vtx N i j, vtx N ((i+1) % M) (j+1))
        (vtx N i0 0, vtx N ((i0+1) % M) 0) = 0 := by
      apply ec_eq_zero
      intro h
      simp only [Prod.mk.injEq, vtx_inj hjN hN0, vtx_inj hj1N hN0] at h
      omega
    have hz5 : ec (vtx N ((i+1) % M) (j+1), vtx N ((i+1) % M) j)
        (vtx N i0 0, vtx N ((i0+1) % M) 0) = 0 := by
      apply ec_eq_zero
      intro h
      simp only [Prod.mk.injEq, vtx_inj hj1N hN0, vtx_inj hjN hN0] at h
      omega
    have hz6 : ec (vtx N ((i+1) % M) j, vtx N i j)
        (vtx N i0 0, vtx N ((i0+1) % M) 0) = 0 := by
      apply ec_eq_zero
      intro h
      simp only [Prod.mk.injEq, vtx_inj hjN hN0] at h
      omega
    rw [hz1, hz2, hz3, hz4, hz5, hz6]
  rw [htube, hsc, hec]

/-- Count of start-cap spoke family `(i0+1 mod M, 0) → S`. -/
lemma count_fam_SC3 {M N i0 : ℕ} (hM : 3 ≤ M) (hN : 2 ≤ N)
    (hi0 : i0 < M) :
    (meshEdges (orientedTorusFaces M N)).count
      (vtx N ((i0+1) % M) 0, M * N) = 1 := by
  have hN0 : 0 < N := by omega
  have hN1 : N - 1 < N := by omega
  have hM0 : 0 < M := by omega
  have hSa : vtx N ((i0+1) % M) 0 < M * N := vtx_lt (nxt_lt (by omega) i0) (by omega)
  have hc2 := nxt_cases hi0
  rw [count_oriented]
  have hsc : (∑ i in Finset.range M,
      (ec (M * N, vtx N i 0) (vtx N ((i0+1) % M) 0, M * N) +
        ec (vtx N i 0, vtx N ((i+1) % M) 0) (vtx N ((i0+1) % M) 0, M * N) +
        ec (vtx N ((i+1) % M) 0, M * N) (vtx N ((i0+1) % M) 0, M * N))) = 1 := by
    apply sum_range_indicator hi0
    intro i hiM
    have hc1 := nxt_cases hiM
    have hb1 := vtx_lt hiM hN0
    have hb2 := vtx_lt (nxt_lt hM0 i) hN0
    have hz1 : ec (M * N, vtx N i 0)
        (vtx N ((i0+1) % M) 0, M * N) = 0 := by
      apply ec_eq_zero
      intro h
      simp only [Prod.mk.injEq, vtx_inj hN0 hN0] at h
      omega
    have hz2 : ec (vtx N i 0, vtx N ((i+1) % M) 0)
        (vtx N ((i0+1) % M) 0, M * N) = 0 := by
      apply ec_eq_zero
      intro h
      simp only [Prod.mk.injEq, vtx_inj hN0 hN0] at h
      omega
    have hz3 : ec (vtx N ((i+1) % M) 0, M * N)
        (vtx N ((i0+1) % M) 0, M * N) = if i = i0 then 1 else 0 := by
      by_cases hij : i = i0
      · subst hij
        rw [if_pos rfl]
        exact ec_eq_one rfl
      · rw [if_neg hij]
        apply ec_eq_zero
        intro h
        simp only [Prod.mk.injEq, vtx_inj hN0 hN0] at h
        omega
    rw [hz1, hz2, hz3]
    split_ifs <;> rfl
  have hec : (∑ i in Finset.range M,
      (ec (M * N + 1, vtx N ((i+1) % M) (N-1)) (vtx N ((i0+1) % M) 0, M * N) +
        ec (vtx N ((i+1) % M) (N-1), vtx N i (N-1)) (vtx N ((i0+1) % M) 0, M * N) +
        ec (vtx N i (N-1), M * N + 1) (vtx N ((i0+1) % M) 0, M * N))) = 0 := by
    apply sum_range_zero_of
    intro i hiM
    have hc1 := nxt_cases hiM
    have hb1 := vtx_lt hiM hN1
    have hb2 := vtx_lt (nxt_lt hM0 i) hN1
    have hz1 : ec (M * N + 1, vtx N ((i+1) % M) (N-1))
        (vtx N ((i0+1) % M) 0, M * N) = 0 := by
      apply ec_eq_zero
      intro h
      simp only [Prod.mk.injEq, vtx_inj hN1 hN0] at h
      omega
    have hz2 : ec (vtx N ((i+1) % M) (N-1), vtx N i (N-1))
        (vtx N ((i0+1) % M) 0, M * N) = 0 := by
      apply ec_eq_zero
      intro h
      simp only [Prod.mk.injEq, vtx_inj hN1 hN0] at h
      omega
    have hz3 : ec (vtx N i (N-1), M * N + 1)
        (vtx N ((i0+1) % M) 0, M * N) = 0 := by
      apply ec_eq_zero
      intro h
      simp only [Prod.mk.injEq, vtx_inj hN1 hN0] at h
      omega
    rw [hz1, hz2, hz3]
  have htube : (∑ i in Finset.range M, ∑ j in Finset.range (N-1),
      (meshEdges (quadFaces M N i j)).count
        (vtx N ((i0+1) % M) 0, M * N)) = 0 := by
    apply sum_range_zero_of
    intro i hiM
    apply sum_range_zero_of
    intro j hjK
    have hjN : j < N := by omega
    have hj1N : j + 1 < N := by omega
    have hc1 := nxt_cases hiM
    have hb1 := vtx_lt hiM hjN
    have hb2 := vtx_lt hiM hj1N
    have hb3 := vtx_lt (nxt_lt hM0 i) hjN
    have hb4 := vtx_lt (nxt_lt hM0 i) hj1N
    rw [count_quad]
    have hz1 : ec (vtx N i j, vtx N i (j+1))
        (vtx N ((i0+1) % M) 0, M * N) = 0 := by
      apply ec_eq_zero
      intro h
      simp only [Prod.mk.injEq, vtx_inj hjN hN0, vtx_inj hj1N hN0] at h
      omega
    have hz2 : ec (vtx N i (j+1), vtx N ((i+1) % M) (j+1))
        (vtx N ((i0+1) % M) 0, M * N) = 0 := by
      apply ec_eq_zero
      intro h
      simp only [Prod.mk.injEq, vtx_inj hj1N hN0] at h
      omega
    have hz3 : ec (vtx N ((i+1) % M) (j+1), vtx N i j)
        (vtx N ((i0+1) % M) 0, M * N) = 0 := by
      apply ec_eq_zero
      intro h
      simp only [Prod.mk.injEq, vtx_inj hj1N hN0, vtx_inj hjN hN0] at h
      omega
    have hz4 : ec (vtx N i j, vtx N ((i+1) % M) (j+1))
        (vtx N ((i0+1) % M) 0, M * N) = 0 := by
      apply ec_eq_zero
      intro h
      simp only [Prod.mk.injEq, vtx_inj hjN hN0, vtx_inj hj1N hN0] at h
      omega
    have hz5 : ec (vtx N ((i+1) % M) (j+1), vtx N ((i+1) % M) j)
        (vtx N ((i0+1) % M) 0, M * N) = 0 := by
      apply ec_eq_zero
      intro h
      simp only [Prod.mk.injEq, vtx_inj hj1N hN0, vtx_inj hjN hN0] at h
      omega
    have hz6 : ec (vtx N ((i+1) % M) j, vtx N i j)
        (vtx N ((i0+1) % M) 0, M * N) = 0 := by
      apply ec_eq_zero
      intro h
      simp only [Prod.mk.injEq, vtx_inj hjN hN0] at h
      omega
    rw [hz1, hz2, hz3, hz4, hz5, hz6]
  rw [htube, hsc, hec]

/-- Count of end-cap spoke family `E → (i0+1 mod M, N-1)`. -/
lemma count_fam_EC1 {M N i0 : ℕ} (hM : 3 ≤ M) (hN : 2 ≤ N)
    (hi0 : i0 < M) :
    (meshEdges (orientedTorusFaces M N)).count
      (M * N + 1, vtx N ((i0+1) % M) (N-1)) = 1 := by
  have hN0 : 0 < N := by omega
  have hN1 : N - 1 < N := by omega
  have hM0 : 0 < M := by omega
  have hSa : vtx N ((i0+1) % M) (N-1) < M * N := vtx_lt (nxt_lt (by omega) i0) (by omega)
  have hc2 := nxt_cases hi0
  rw [count_oriented]
  have hsc : (∑ i in Finset.range M,
      (ec (M * N, vtx N i 0) (M * N + 1, vtx N ((i0+1) % M) (N-1)) +
        ec (vtx N i 0, vtx N ((i+1) % M) 0) (M * N + 1, vtx N ((i0+1) % M) (N-1)) +
        ec (vtx N ((i+1) % M) 0, M * N) (M * N + 1, vtx N ((i0+1) % M) (N-1)))) = 0 := by
    apply sum_range_zero_of
    intro i hiM
    have hc1 := nxt_cases hiM
    have hb1 := vtx_lt hiM hN0
    have hb2 := vtx_lt (nxt_lt hM0 i) hN0
    have hz1 : ec (M * N, vtx N i 0)
        (M * N + 1, vtx N ((i0+1) % M) (N-1)) = 0 := by
      apply ec_eq_zero
      intro h
      simp only [Prod.mk.injEq, vtx_inj hN0 hN1] at h
      omega
    have hz2 : ec (vtx N i 0, vtx N ((i+1) % M) 0)
        (M * N + 1, vtx N ((i0+1) % M) (N-1)) = 0 := by
      apply ec_eq_zero
      intro h
      simp only [Prod.mk.injEq, vtx_inj hN0 hN1] at h
      omega
    have hz3 : ec (vtx N ((i+1) % M) 0, M * N)
        (M * N + 1, vtx N ((i0+1) % M) (N-1)) = 0 := by
      apply ec_eq_zero
      intro h
      simp only [Prod.mk.injEq, vtx_inj hN0 hN1] at h
      omega
    rw [hz1, hz2, hz3]
  have hec : (∑ i in Finset.range M,
      (ec (M * N + 1, vtx N ((i+1) % M) (N-1)) (M * N + 1, vtx N ((i0+1) % M) (N-1)) +
        ec (vtx N ((i+1) % M) (N-1), vtx N i (N-1)) (M * N + 1, vtx N ((i0+1) % M) (N-1)) +
        ec (vtx N i (N-1), M * N + 1) (M * N + 1, vtx N ((i0+1) % M) (N-1)))) = 1 := by
    apply sum_range_indicator hi0
    intro i hiM
    have hc1 := nxt_cases hiM
    have hb1 := vtx_lt hiM hN1
    have hb2 := vtx_lt (nxt_lt hM0 i) hN1
    have hz1 : ec (M * N + 1, vtx N ((i+1) % M) (N-1))
        (M * N + 1, vtx N ((i0+1) % M) (N-1)) = if i = i0 then 1 else 0 := by
      by_cases hij : i = i0
      · subst hij
        rw [if_pos rfl]
        exact ec_eq_one rfl
      · rw [if_neg hij]
        apply ec_eq_zero
        intro h
        simp only [Prod.mk.injEq, vtx_inj hN1 hN1] at h
        omega
    have hz2 : ec (vtx N ((i+1) % M) (N-1), vtx N i (N-1))
        (M * N + 1, vtx N ((i0+1) % M) (N-1)) = 0 := by
      apply ec_eq_zero
      intro h
      simp only [Prod.mk.injEq, vtx_inj hN1 hN1] at h
      omega
    have hz3 : ec (vtx N i (N-1), M * N + 1)
        (M * N + 1, vtx N ((i0+1) % M) (N-1)) = 0 := by
      apply ec_eq_zero
      intro h
      simp only [Prod.mk.injEq, vtx_inj hN1 hN1] at h
      omega
    rw [hz1, hz2, hz3]
    split_ifs <;> rfl
  have htube : (∑ i in Finset.range M, ∑ j in Finset.range (N-1),
      (meshEdges (quadFaces M N i j)).count
        (M * N + 1, vtx N ((i0+1) % M) (N-1))) = 0 := by
    apply sum_range_zero_of
    intro i hiM
    apply sum_range_zero_of
    intro j hjK
    have hjN : j < N := by omega
    have hj1N : j + 1 < N := by omega
    have hc1 := nxt_cases hiM
    have hb1 := vtx_lt hiM hjN
    have hb2 := vtx_lt hiM hj1N
    have hb3 := vtx_lt (nxt_lt hM0 i) hjN
    have hb4 := vtx_lt (nxt_lt hM0 i) hj1N
    rw [count_quad]
    have hz1 : ec (vtx N i j, vtx N i (j+1))
        (M * N + 1, vtx N ((i0+1) % M) (N-1)) = 0 := by
      apply ec_eq_zero
      intro h
      simp only [Prod.mk.injEq, vtx_inj hjN hN1, vtx_inj hj1N hN1] at h
      omega
    have hz2 : ec (vtx N i (j+1), vtx N ((i+1) % M) (j+1))
        (M * N + 1, vtx N ((i0+1) % M) (N-1)) = 0 := by
      apply ec_eq_zero
      intro h
      simp only [Prod.mk.injEq, vtx_inj hj1N hN1] at h
      omega
    have hz3 : ec (vtx N ((i+1) % M) (j+1), vtx N i j)
        (M * N + 1, vtx N ((i0+1) % M) (N-1)) = 0 := by
      apply ec_eq_zero
      intro h
      simp only [Prod.mk.injEq, vtx_inj hj1N hN1, vtx_inj hjN hN1] at h
      omega
    have hz4 : ec (vtx N i j, vtx N ((i+1) % M) (j+1))
        (M * N + 1, vtx N ((i0+1) % M) (N-1)) = 0 := by
      apply ec_eq_zero
      intro h
      simp only [Prod.mk.injEq, vtx_inj hjN hN1, vtx_inj hj1N hN1] at h
      omega
    have hz5 : ec (vtx N ((i+1) % M) (j+1), vtx N ((i+1) % M) j)
        (M * N + 1, vtx N ((i0+1) % M) (N-1)) = 0 := by
      apply ec_eq_zero
      intro h
      simp only [Prod.mk.injEq, vtx_inj hj1N hN1, vtx_inj hjN hN1] at h
      omega
    have hz6 : ec (vtx N ((i+1) % M) j, vtx N i j)
        (M * N + 1, vtx N ((i0+1) % M) (N-1)) = 0 := by
      apply ec_eq_zero
      intro h
      simp only [Prod.mk.injEq, vtx_inj hjN hN1] at h
      omega
    rw [hz1, hz2, hz3, hz4, hz5, hz6]
  rw [htube, hsc, hec]

/-- Count of end-cap ring family `(i0+1 mod M, N-1) → (i0, N-1)`. -/
lemma count_fam_EC2 {M N i0 : ℕ} (hM : 3 ≤ M) (hN : 2 ≤ N)
    (hi0 : i0 < M) :
    (meshEdges (orientedTorusFaces M N)).count
      (vtx N ((i0+1) % M) (N-1), vtx N i0 (N-1)) = 1 := by
  have hN0 : 0 < N := by omega
  have hN1 : N - 1 < N := by omega
  have hM0 : 0 < M := by omega
  have hSa : vtx N ((i0+1) % M) (N-1) < M * N := vtx_lt (nxt_lt (by omega) i0) (by omega)
  have hSb : vtx N i0 (N-1) < M * N := vtx_lt hi0 (by omega)
  have hc2 := nxt_cases hi0
  rw [count_oriented]
  have hsc : (∑ i in Finset.range M,
      (ec (M * N, vtx N i 0) (vtx N ((i0+1) % M) (N-1), vtx N i0 (N-1)) +
        ec (vtx N i 0, vtx N ((i+1) % M) 0) (vtx N ((i0+1) % M) (N-1), vtx N i0 (N-1)) +
        ec (vtx N ((i+1) % M) 0, M * N) (vtx N ((i0+1) % M) (N-1), vtx N i0 (N-1)))) = 0 := by
    apply sum_range_zero_of
    intro i hiM
    have hc1 := nxt_cases hiM
    have hb1 := vtx_lt hiM hN0
    have hb2 := vtx_lt (nxt_lt hM0 i) hN0
    have hz1 : ec (M * N, vtx N i 0)
        (vtx N ((i0+1) % M) (N-1), vtx N i0 (N-1)) = 0 := by
      apply ec_eq_zero
      intro h
      simp only [Prod.mk.injEq, vtx_inj hN0 hN1] at h
      omega
    have hz2 : ec (vtx N i 0, vtx N ((i+1) % M) 0)
        (vtx N ((i0+1) % M) (N-1), vtx N i0 (N-1)) = 0 := by
      apply ec_eq_zero
      intro h
      simp only [Prod.mk.injEq, vtx_inj hN0 hN1] at h
      omega
    have hz3 : ec (vtx N ((i+1) % M) 0, M * N)
        (vtx N ((i0+1) % M) (N-1), vtx N i0 (N-1)) = 0 := by
      apply ec_eq_zero
      intro h
      simp only [Prod.mk.injEq, vtx_inj hN0 hN1] at h
      omega
    rw [hz1, hz2, hz3]
  have hec : (∑ i in Finset.range M,
      (ec (M * N + 1, vtx N ((i+1) % M) (N-1)) (vtx N ((i0+1) % M) (N-1), vtx N i0 (N-1)) +
        ec (vtx N ((i+1) % M) (N-1), vtx N i (N-1)) (vtx N ((i0+1) % M) (N-1), vtx N i0 (N-1)) +
        ec (vtx N i (N-1), M * N + 1) (vtx N ((i0+1) % M) (N-1), vtx N i0 (N-1)))) = 1 := by
    apply sum_range_indicator hi0
    intro i hiM
    have hc1 := nxt_cases hiM
    have hb1 := vtx_lt hiM hN1
    have hb2 := vtx_lt (nxt_lt hM0 i) hN1
    have hz1 : ec (M * N + 1, vtx N ((i+1) % M) (N-1))
        (vtx N ((i0+1) % M) (N-1), vtx N i0 (N-1)) = 0 := by
      apply ec_eq_zero
      intro h
      simp only [Prod.mk.injEq, vtx_inj hN1 hN1] at h
      omega
    have hz2 : ec (vtx N ((i+1) % M) (N-1), vtx N i (N-1))
        (vtx N ((i0+1) % M) (N-1), vtx N i0 (N-1)) = if i = i0 then 1 else 0 := by
      by_cases hij : i = i0
      · subst hij
        rw [if_pos rfl]
        exact ec_eq_one rfl
      · rw [if_neg hij]
        apply ec_eq_zero
        intro h
        simp only [Prod.mk.injEq, vtx_inj hN1 hN1] at h
        omega
    have hz3 : ec (vtx N i (N-1), M * N + 1)
        (vtx N ((i0+1) % M) (N-1), vtx N i0 (N-1)) = 0 := by
      apply ec_eq_zero
      intro h
      simp only [Prod.mk.injEq, vtx_inj hN1 hN1] at h
      omega
    rw [hz1, hz2, hz3]
    split_ifs <;> rfl
  have htube : (∑ i in Finset.range M, ∑ j in Finset.range (N-1),
      (meshEdges (quadFaces M N i j)).count
        (vtx N ((i0+1) % M) (N-1), vtx N i0 (N-1))) = 0 := by
    apply sum_range_zero_of
    intro i hiM
    apply sum_range_zero_of
    intro j hjK
    have hjN : j < N := by omega
    have hj1N : j + 1 < N := by omega
    have hc1 := nxt_cases hiM
    have hb1 := vtx_lt hiM hjN
    have hb2 := vtx_lt hiM hj1N
    have hb3 := vtx_lt (nxt_lt hM0 i) hjN
    have hb4 := vtx_lt (nxt_lt hM0 i) hj1N
    rw [count_quad]
    have hz1 : ec (vtx N i j, vtx N i (j+1))
        (vtx N ((i0+1) % M) (N-1), vtx N i0 (N-1)) = 0 := by
      apply ec_eq_zero
      intro h
      simp only [Prod.mk.injEq, vtx_inj hjN hN1, vtx_inj hj1N hN1] at h
      omega
    have hz2 : ec (vtx N i (j+1), vtx N ((i+1) % M) (j+1))
        (vtx N ((i0+1) % M) (N-1), vtx N i0 (N-1)) = 0 := by
      apply ec_eq_zero
      intro h
      simp only [Prod.mk.injEq, vtx_inj hj1N hN1] at h
      omega
    have hz3 : ec (vtx N ((i+1) % M) (j+1), vtx N i j)
        (vtx N ((i0+1) % M) (N-1), vtx N i0 (N-1)) = 0 := by
      apply ec_eq_zero
      intro h
      simp only [Prod.mk.injEq, vtx_inj hj1N hN1, vtx_inj hjN hN1] at h
      omega
    have hz4 : ec (vtx N i j, vtx N ((i+1) % M) (j+1))
        (vtx N ((i0+1) % M) (N-1), vtx N i0 (N-1)) = 0 := by
      apply ec_eq_zero
      intro h
      simp only [Prod.mk.injEq, vtx_inj hjN hN1, vtx_inj hj1N hN1] at h
      omega
    have hz5 : ec (vtx N ((i+1) % M) (j+1), vtx N ((i+1) % M) j)
        (vtx N ((i0+1) % M) (N-1), vtx N i0 (N-1)) = 0 := by
      apply ec_eq_zero
      intro h
      simp only [Prod.mk.injEq, vtx_inj hj1N hN1, vtx_inj hjN hN1] at h
      omega
    have hz6 : ec (vtx N ((i+1) % M) j, vtx N i j)
        (vtx N ((i0+1) % M) (N-1), vtx N i0 (N-1)) = 0 := by
      apply ec_eq_zero
      intro h
      simp only [Prod.mk.injEq, vtx_inj hjN hN1] at h
      omega
    rw [hz1, hz2, hz3, hz4, hz5, hz6]
  rw [htube, hsc, hec]

/-- Count of end-cap spoke family `(i0, N-1) → E`. -/
lemma count_fam_EC3 {M N i0 : ℕ} (hM : 3 ≤ M) (hN : 2 ≤ N)
    (hi0 : i0 < M) :
    (meshEdges (orientedTorusFaces M N)).count
      (vtx N i0 (N-1), M * N + 1) = 1 := by
  have hN0 : 0 < N := by omega
  have hN1 : N - 1 < N := by omega
  have hM0 : 0 < M := by omega
  have hSa : vtx N i0 (N-1) < M * N := vtx_lt hi0 (by omega)
  have hc2 := nxt_cases hi0
  rw [count_oriented]
  have hsc : (∑ i in Finset.range M,
      (ec (M * N, vtx N i 0) (vtx N i0 (N-1), M * N + 1) +
        ec (vtx N i 0, vtx N ((i+1) % M) 0) (vtx N i0 (N-1), M * N + 1) +
        ec (vtx N ((i+1) % M) 0, M * N) (vtx N i0 (N-1), M * N + 1))) = 0 := by
    apply sum_range_zero_of
    intro i hiM
    have hc1 := nxt_cases hiM
    have hb1 := vtx_lt hiM hN0
    have hb2 := vtx_lt (nxt_lt hM0 i) hN0
    have hz1 : ec (M * N, vtx N i 0)
        (vtx N i0 (N-1), M * N + 1) = 0 := by
      apply ec_eq_zero
      intro h
      simp only [Prod.mk.injEq, vtx_inj hN0 hN1] at h
      omega
    have hz2 : ec (vtx N i 0, vtx N ((i+1) % M) 0)
        (vtx N i0 (N-1), M * N + 1) = 0 := by
      apply ec_eq_zero
      intro h
      simp only [Prod.mk.injEq, vtx_inj hN0 hN1] at h
      omega
    have hz3 : ec (vtx N ((i+1) % M) 0, M * N)
        (vtx N i0 (N-1), M * N + 1) = 0 := by
      apply ec_eq_zero
      intro h
      simp only [Prod.mk.injEq, vtx_inj hN0 hN1] at h
      omega
    rw [hz1, hz2, hz3]
  have hec : (∑ i in Finset.range M,
      (ec (M * N + 1, vtx N ((i+1) % M) (N-1)) (vtx N i0 (N-1), M * N + 1) +
        ec (vtx N ((i+1) % M) (N-1), vtx N i (N-1)) (vtx N i0 (N-1), M * N + 1) +
        ec (vtx N i (N-1), M * N + 1) (vtx N i0 (N-1), M * N + 1))) = 1 := by
    apply sum_range_indicator hi0
    intro i hiM
    have hc1 := nxt_cases hiM
    have hb1 := vtx_lt hiM hN1
    have hb2 := vtx_lt (nxt_lt hM0 i) hN1
    have hz1 : ec (M * N + 1, vtx N ((i+1) % M) (N-1))
        (vtx N i0 (N-1), M * N + 1) = 0 := by
      apply ec_eq_zero
      intro h
      simp only [Prod.mk.injEq, vtx_inj hN1 hN1] at h
      omega
    have hz2 : ec (vtx N ((i+1) % M) (N-1), vtx N i (N-1))
        (vtx N i0 (N-1), M * N + 1) = 0 := by
      apply ec_eq_zero
      intro h
      simp only [Prod.mk.injEq, vtx_inj hN1 hN1] at h
      omega
    have hz3 : ec (vtx N i (N-1), M * N + 1)
        (vtx N i0 (N-1), M * N + 1) = if i = i0 then 1 else 0 := by
      by_cases hij : i = i0
      · subst hij
        rw [if_pos rfl]
        exact ec_eq_one rfl
      · rw [if_neg hij]
        apply ec_eq_zero
        intro h
        simp only [Prod.mk.injEq, vtx_inj hN1 hN1] at h
        omega
    rw [hz1, hz2, hz3]
    split_ifs <;> rfl
  have htube : (∑ i in Finset.range M, ∑ j in Finset.range (N-1),
      (meshEdges (quadFaces M N i j)).count
        (vtx N i0 (N-1), M * N + 1)) = 0 := by
    apply sum_range_zero_of
    intro i hiM
    apply sum_range_zero_of
    intro j hjK
    have hjN : j < N := by omega
    have hj1N : j + 1 < N := by omega
    have hc1 := nxt_cases hiM
    have hb1 := vtx_lt hiM hjN
    have hb2 := vtx_lt hiM hj1N
    have hb3 := vtx_lt (nxt_lt hM0 i) hjN
    have hb4 := vtx_lt (nxt_lt hM0 i) hj1N
    rw [count_quad]
    have hz1 : ec (vtx N i j, vtx N i (j+1))
        (vtx N i0 (N-1), M * N + 1) = 0 := by
      apply ec_eq_zero
      intro h
      simp only [Prod.mk.injEq, vtx_inj hjN hN1, vtx_inj hj1N hN1] at h
      omega
    have hz2 : ec (vtx N i (j+1), vtx N ((i+1) % M) (j+1))
        (vtx N i0 (N-1), M * N + 1) = 0 := by
      apply ec_eq_zero
      intro h
      simp only [Prod.mk.injEq, vtx_inj hj1N hN1] at h
      omega
    have hz3 : ec (vtx N ((i+1) % M) (j+1), vtx N i j)
        (vtx N i0 (N-1), M * N + 1) = 0 := by
      apply ec_eq_zero
      intro h
      simp only [Prod.mk.injEq, vtx_inj hj1N hN1, vtx_inj hjN hN1] at h
      omega
    have hz4 : ec (vtx N i j, vtx N ((i+1) % M) (j+1))
        (vtx N i0 (N-1), M * N + 1) = 0 := by
      apply ec_eq_zero
      intro h
      simp only [Prod.mk.injEq, vtx_inj hjN hN1, vtx_inj hj1N hN1] at h
      omega
    have hz5 : ec (vtx N ((i+1) % M) (j+1), vtx N ((i+1) % M) j)
        (vtx N i0 (N-1), M * N + 1) = 0 := by
      apply ec_eq_zero
      intro h
      simp only [Prod.mk.injEq, vtx_inj hj1N hN1, vtx_inj hjN hN1] at h
      omega
    have hz6 : ec (vtx N ((i+1) % M) j, vtx N i j)
        (vtx N i0 (N-1), M * N + 1) = 0 := by
      apply ec_eq_zero
      intro h
      simp only [Prod.mk.injEq, vtx_inj hjN hN1] at h
      omega
    rw [hz1, hz2, hz3, hz4, hz5, hz6]
  rw [htube, hsc, hec]

/-- Every directed edge of the oriented torus faces belongs to one of
the twelve parametric edge families. -/
lemma mem_oriented_edges {M N : ℕ} {e : ℕ × ℕ}
    (he : e ∈ meshEdges (orientedTorusFaces M N)) :
    (∃ i j, i < M ∧ j < N - 1 ∧
      (e = (vtx N i j, vtx N i (j+1)) ∨
        e = (vtx N i (j+1), vtx N ((i+1) % M) (j+1)) ∨
        e = (vtx N ((i+1) % M) (j+1), vtx N i j) ∨
        e = (vtx N i j, vtx N ((i+1) % M) (j+1)) ∨
        e = (vtx N ((i+1) % M) (j+1), vtx N ((i+1) % M) j) ∨
        e = (vtx N ((i+1) % M) j, vtx N i j))) ∨
    (∃ i, i < M ∧
      (e = (M * N, vtx N i 0) ∨ e = (vtx N i 0, vtx N ((i+1) % M) 0) ∨
        e = (vtx N ((i+1) % M) 0, M * N) ∨
        e = (M * N + 1, vtx N ((i+1) % M) (N-1)) ∨
        e = (vtx N ((i+1) % M) (N-1), vtx N i (N-1)) ∨
        e = (vtx N i (N-1), M * N + 1))) := by
  rw [orientedTorusFaces, meshEdges, List.flatMap_append, List.flatMap_append,
    List.mem_append, List.mem_append] at he
  rcases he with (ht | hs) | hc
  · -- a tube edge
    left
    obtain ⟨f, hf, hef⟩ := List.mem_flatMap.mp ht
    rw [tubeFaces] at hf
    obtain ⟨i, hi, hf2⟩ := List.mem_flatMap.mp hf
    obtain ⟨j, hj, hf3⟩ := List.mem_flatMap.mp hf2
    rw [List.mem_range] at hi hj
    refine ⟨i, j, hi, hj, ?_⟩
    simp only [quadFaces, List.mem_cons, List.not_mem_nil, or_false] at hf3
    rcases hf3 with rfl | rfl
    · simp only [faceEdges, List.mem_cons, List.not_mem_nil, or_false] at hef
      tauto
    · simp only [faceEdges, List.mem_cons, List.not_mem_nil, or_false] at hef
      tauto
  · -- a start-cap edge
    right
    obtain ⟨f, hf, hef⟩ := List.mem_flatMap.mp hs
    rw [startCapFaces, List.map_map] at hf
    obtain ⟨i, hi, rfl⟩ := List.mem_map.mp hf
    rw [List.mem_range] at hi
    refine ⟨i, hi, ?_⟩
    rw [show (flipFace ∘ fun i => (M * N, vtx N ((i+1) % M) 0, vtx N i 0)) i =
      (M * N, vtx N i 0, vtx N ((i+1) % M) 0) from rfl] at hef
    simp only [faceEdges, List.mem_cons, List.not_mem_nil, or_false] at hef
    tauto
  · -- an end-cap edge
    right
    obtain ⟨f, hf, hef⟩ := List.mem_flatMap.mp hc
    rw [endCapFaces, List.map_map] at hf
    obtain ⟨i, hi, rfl⟩ := List.mem_map.mp hf
    rw [List.mem_range] at hi
    refine ⟨i, hi, ?_⟩
    rw [show (flipFace ∘ fun i =>
        (M * N + 1, vtx N i (N-1), vtx N ((i+1) % M) (N-1))) i =
      (M * N + 1, vtx N ((i+1) % M) (N-1), vtx N i (N-1)) from rfl] at hef
    simp only [faceEdges, List.mem_cons, List.not_mem_nil, or_false] at hef
    tauto

/-- Every directed edge of the oriented torus faces occurs exactly once,
its reverse also occurs exactly once, and its endpoints are distinct. -/
theorem oriented_edge_counts {M N : ℕ} (hM : 3 ≤ M) (hN : 2 ≤ N) :
    ∀ e ∈ meshEdges (orientedTorusFaces M N),
      (meshEdges (orientedTorusFaces M N)).count e = 1 ∧
      (meshEdges (orientedTorusFaces M N)).count (Prod.swap e) = 1 ∧
      e.1 ≠ e.2 := by
  intro e he
  have hM0 : 0 < M := by omega
  have hN0 : 0 < N := by omega
  have hN1 : N - 1 < N := by omega
  rcases mem_oriented_edges he with ⟨i, j, hi, hj, hcase⟩ | ⟨i, hi, hcase⟩
  · have hjN : j < N := by omega
    have hj1N : j + 1 < N := by omega
    rcases hcase with rfl | rfl | rfl | rfl | rfl | rfl
    · -- H1 edge
      refine ⟨count_fam_H1 hM hN hi hj, ?_, ?_⟩
      · rw [Prod.swap_prod_mk]
        have h := count_fam_H2 hM hN (prv_lt hM0 hi) hj
        rw [nxt_prv hM0 hi] at h
        exact h
      · show vtx N i j ≠ vtx N i (j+1)
        intro h
        rw [vtx_inj hjN hj1N] at h
        omega
    · -- V1 edge
      refine ⟨count_fam_V1 hM hN hi hj, ?_, ?_⟩
      · rw [Prod.swap_prod_mk]
        rcases Nat.lt_or_ge (j + 1) (N - 1) with hlt | hge
        · exact count_fam_V2 hM hN hi hlt
        · have hj1 : j + 1 = N - 1 := by omega
          have h := count_fam_EC2 hM hN hi
          rw [← hj1] at h
          exact h
      · show vtx N i (j+1) ≠ vtx N ((i+1) % M) (j+1)
        intro h
        rw [vtx_inj hj1N hj1N] at h
        exact nxt_ne_self (by omega) hi h.1.symm
    · -- D1 edge
      refine ⟨count_fam_D1 hM hN hi hj, ?_, ?_⟩
      · rw [Prod.swap_prod_mk]
        exact count_fam_D2 hM hN hi hj
      · show vtx N ((i+1) % M) (j+1) ≠ vtx N i j
        intro h
        rw [vtx_inj hj1N hjN] at h
        omega
    · -- D2 edge
      refine ⟨count_fam_D2 hM hN hi hj, ?_, ?_⟩
      · rw [Prod.swap_prod_mk]
        exact count_fam_D1 hM hN hi hj
      · show vtx N i j ≠ vtx N ((i+1) % M) (j+1)
        intro h
        rw [vtx_inj hjN hj1N] at h
        omega
    · -- H2 edge
      refine ⟨count_fam_H2 hM hN hi hj, ?_, ?_⟩
      · rw [Prod.swap_prod_mk]
        exact count_fam_H1 hM hN (nxt_lt hM0 i) hj
      · show vtx N ((i+1) % M) (j+1) ≠ vtx N ((i+1) % M) j
        intro h
        rw [vtx_inj hj1N hjN] at h
        omega
    · -- V2 edge
      refine ⟨count_fam_V2 hM hN hi hj, ?_, ?_⟩
      · rw [Prod.swap_prod_mk]
        rcases Nat.eq_zero_or_pos j with rfl | hjpos
        · exact count_fam_SC2 hM hN hi
        · have h := count_fam_V1 hM hN hi
            (show j - 1 < N - 1 by omega)
          rw [show j - 1 + 1 = j from by omega] at h
          exact h
      · show vtx N ((i+1) % M) j ≠ vtx N i j
        intro h
        rw [vtx_inj hjN hjN] at h
        exact nxt_ne_self (by omega) hi h.1
  · rcases hcase with rfl | rfl | rfl | rfl | rfl | rfl
    · -- SC1 edge
      refine ⟨count_fam_SC1 hM hN hi, ?_, ?_⟩
      · rw [Prod.swap_prod_mk]
        have h := count_fam_SC3 hM hN (prv_lt hM0 hi)
        rw [nxt_prv hM0 hi] at h
        exact h
      · show M * N ≠ vtx N i 0
        exact Ne.symm (vtx_ne_S hi hN0)
    · -- SC2 edge
      refine ⟨count_fam_SC2 hM hN hi, ?_, ?_⟩
      · rw [Prod.swap_prod_mk]
        exact count_fam_V2 hM hN hi (by omega)
      · show vtx N i 0 ≠ vtx N ((i+1) % M) 0
        intro h
        rw [vtx_inj hN0 hN0] at h
        exact nxt_ne_self (by omega) hi h.1.symm
    · -- SC3 edge
      refine ⟨count_fam_SC3 hM hN hi, ?_, ?_⟩
      · rw [Prod.swap_prod_mk]
        exact count_fam_SC1 hM hN (nxt_lt hM0 i)
      · show vtx N ((i+1) % M) 0 ≠ M * N
        exact vtx_ne_S (nxt_lt hM0 i) hN0
    · -- EC1 edge
      refine ⟨count_fam_EC1 hM hN hi, ?_, ?_⟩
      · rw [Prod.swap_prod_mk]
        exact count_fam_EC3 hM hN (nxt_lt hM0 i)
      · show M * N + 1 ≠ vtx N ((i+1) % M) (N-1)
        exact Ne.symm (vtx_ne_E (nxt_lt hM0 i) hN1)
    · -- EC2 edge
      refine ⟨count_fam_EC2 hM hN hi, ?_, ?_⟩
      · rw [Prod.swap_prod_mk]
        have h := count_fam_V1 hM hN hi (show N - 2 < N - 1 by omega)
        rw [show N - 2 + 1 = N - 1 from by omega] at h
        exact h
      · show vtx N ((i+1) % M) (N-1) ≠ vtx N i (N-1)
        intro h
        rw [vtx_inj hN1 hN1] at h
        exact nxt_ne_self (by omega) hi h.1
    · -- EC3 edge
      refine ⟨count_fam_EC3 hM hN hi, ?_, ?_⟩
      · rw [Prod.swap_prod_mk]
        have h := count_fam_EC1 hM hN (prv_lt hM0 hi)
        rw [nxt_prv hM0 hi] at h
        exact h
      · show vtx N i (N-1) ≠ M * N + 1
        exact vtx_ne_E hi hN1

/-! ### From directed-edge counts to the trimesh validity checks -/

lemma sortEdge_swap (e : ℕ × ℕ) : sortEdge (Prod.swap e) = sortEdge e := by
  obtain ⟨a, b⟩ := e
  simp only [Prod.swap_prod_mk, sortEdge]
  split_ifs <;> simp only [Prod.mk.injEq] <;> omega

lemma sortEdge_eq_iff {d e : ℕ × ℕ} (hne : e.1 ≠ e.2) :
    sortEdge d = sortEdge e ↔ d = e ∨ d = Prod.swap e := by
  obtain ⟨a, b⟩ := d
  obtain ⟨c, g⟩ := e
  simp only [Prod.swap_prod_mk, sortEdge] at hne ⊢
  split_ifs <;> simp only [Prod.mk.injEq] <;> omega

lemma swap_ne_self {e : ℕ × ℕ} (hne : e.1 ≠ e.2) : e ≠ Prod.swap e := by
  obtain ⟨a, b⟩ := e
  intro h
  exact hne (congrArg Prod.fst h)

lemma undirCount_eq {e : ℕ × ℕ} (hne : e.1 ≠ e.2) (l : List (ℕ × ℕ)) :
    undirCount e l = l.count e + l.count (Prod.swap e) := by
  induction l with
  | nil => rfl
  | cons d t ih =>
    rw [undirCount, List.countP_cons, List.count_cons, List.count_cons,
      ← undirCount, ih]
    simp only [beq_iff_eq]
    by_cases h1 : d = e
    · have h2 : ¬ d = Prod.swap e := by
        rw [h1]
        exact swap_ne_self hne
      rw [if_pos (by rw [sortEdge_eq_iff hne]; exact Or.inl h1), if_pos h1,
        if_neg h2]
      omega
    · by_cases h2 : d = Prod.swap e
      · rw [if_pos (by rw [sortEdge_eq_iff hne]; exact Or.inr h2), if_neg h1,
          if_pos h2]
        omega
      · rw [if_neg (by rw [sortEdge_eq_iff hne]; tauto), if_neg h1, if_neg h2]
        omega

lemma undirCount_pos_of_mem {e : ℕ × ℕ} {l : List (ℕ × ℕ)} (h : e ∈ l) :
    0 < undirCount e l := by
  rw [undirCount]
  apply List.countP_pos.mpr
  exact ⟨e, h, by simp⟩

lemma undirCount_congr {d e : ℕ × ℕ} (h : sortEdge d = sortEdge e)
    (l : List (ℕ × ℕ)) : undirCount d l = undirCount e l := by
  rw [undirCount, undirCount]
  apply List.countP_congr
  intro x _
  simp only [beq_iff_eq, h]

/-- The oriented torus faces pass both topological checks. -/
lemma oriented_checks {M N : ℕ} (hM : 3 ≤ M) (hN : 2 ≤ N) :
    watertightB (orientedTorusFaces M N) = true ∧
      windingB (orientedTorusFaces M N) = true := by
  have key := oriented_edge_counts hM hN
  constructor
  · rw [watertightB, List.all_eq_true]
    intro e he
    obtain ⟨h1, h2, hne⟩ := key e he
    rw [undirCount_eq hne, h1, h2]
    rfl
  · rw [windingB, List.all_eq_true]
    intro e he
    obtain ⟨h1, h2, hne⟩ := key e he
    rw [undirCount_eq hne, h1, h2]
    simp

/-! ### Invariance of the checks under face flips -/

lemma flipFace_flipFace (f : ℕ × ℕ × ℕ) : flipFace (flipFace f) = f := rfl

lemma faceEdges_flip (f : ℕ × ℕ × ℕ) :
    faceEdges (flipFace f) = ((faceEdges f).reverse).map Prod.swap := rfl

lemma undirCount_append (e : ℕ × ℕ) (A B : List (ℕ × ℕ)) :
    undirCount e (A ++ B) = undirCount e A + undirCount e B := by
  rw [undirCount, undirCount, undirCount, List.countP_append]

lemma undirCount_faceEdges_flip (e : ℕ × ℕ) (f : ℕ × ℕ × ℕ) :
    undirCount e (faceEdges (flipFace f)) = undirCount e (faceEdges f) := by
  rw [faceEdges_flip, undirCount, undirCount, List.countP_map]
  rw [List.countP_reverse]
  apply List.countP_congr
  intro x _
  simp only [Function.comp_apply, beq_iff_eq, sortEdge_swap]

lemma meshEdges_cons (f : ℕ × ℕ × ℕ) (l : List (ℕ × ℕ × ℕ)) :
    meshEdges (f :: l) = faceEdges f ++ meshEdges l := by
  rw [meshEdges, meshEdges, List.flatMap_cons]

lemma undirCount_applyFlips (faces : List (ℕ × ℕ × ℕ)) (fl : List Bool)
    (e : ℕ × ℕ) :
    undirCount e (meshEdges (applyFlips faces fl)) =
      undirCount e (meshEdges faces) := by
  induction faces generalizing fl with
  | nil => cases fl <;> rfl
  | cons f fs ih =>
    cases fl with
    | nil => rfl
    | cons b bs =>
      rw [applyFlips, meshEdges_cons, meshEdges_cons, undirCount_append,
        undirCount_append, ih bs]
      cases b
      · rw [if_neg (by simp)]
      · rw [if_pos rfl, undirCount_faceEdges_flip]

lemma watertightB_applyFlips {faces : List (ℕ × ℕ × ℕ)}
    (h : watertightB faces = true) (fl : List Bool) :
    watertightB (applyFlips faces fl) = true := by
  rw [watertightB, List.all_eq_true] at h ⊢
  intro e he
  have hpos : 0 < undirCount e (meshEdges faces) := by
    rw [← undirCount_applyFlips faces fl]
    exact undirCount_pos_of_mem he
  obtain ⟨d, hd, hpd⟩ := List.countP_pos.mp hpos
  have h2 := h d hd
  have heq : undirCount e (meshEdges faces) =
      undirCount d (meshEdges faces) :=
    undirCount_congr (by rw [beq_iff_eq] at hpd; exact hpd.symm) _
  rw [undirCount_applyFlips, heq]
  exact h2

/-! ### Realizing the consistent orientation as a flip mask -/

lemma applyFlips_append (A B : List (ℕ × ℕ × ℕ)) (fl1 fl2 : List Bool)
    (h : fl1.length = A.length) :
    applyFlips (A ++ B) (fl1 ++ fl2) = applyFlips A fl1 ++ applyFlips B fl2 := by
  induction A generalizing fl1 with
  | nil =>
    rw [List.length_nil, List.length_eq_zero] at h
    subst h
    rfl
  | cons f fs ih =>
    cases fl1 with
    | nil => simp at h
    | cons b bs =>
      rw [List.cons_append, List.cons_append, applyFlips, applyFlips,
        List.cons_append, ih bs (by simpa using h)]

lemma applyFlips_replicate_false (A : List (ℕ × ℕ × ℕ)) (n : ℕ) :
    applyFlips A (List.replicate n false) = A := by
  induction A generalizing n with
  | nil => cases n <;> rfl
  | cons f fs ih =>
    cases n with
    | zero => rfl
    | succ m =>
      rw [List.replicate_succ, applyFlips, if_neg (by simp), ih m]

lemma applyFlips_replicate_true (A : List (ℕ × ℕ × ℕ)) {n : ℕ}
    (h : A.length ≤ n) :
    applyFlips A (List.replicate n true) = A.map flipFace := by
  induction A generalizing n with
  | nil => cases n <;> rfl
  | cons f fs ih =>
    cases n with
    | zero => simp at h
    | succ m =>
      rw [List.replicate_succ, applyFlips, if_pos rfl, List.map_cons,
        ih (by simpa using h)]

lemma applyFlips_applyFlips (A : List (ℕ × ℕ × ℕ)) (fl : List Bool) :
    applyFlips (applyFlips A fl) fl = A := by
  induction A generalizing fl with
  | nil => cases fl <;> rfl
  | cons f fs ih =>
    cases fl with
    | nil => rfl
    | cons b bs =>
      rw [applyFlips, applyFlips, ih bs]
      cases b
      · rw [if_neg (by simp), if_neg (by simp)]
      · rw [if_pos rfl, if_pos rfl, flipFace_flipFace]

lemma length_applyFlips (A : List (ℕ × ℕ × ℕ)) (fl : List Bool) :
    (applyFlips A fl).length = A.length := by
  induction A generalizing fl with
  | nil => cases fl <;> rfl
  | cons f fs ih =>
    cases fl with
    | nil => rfl
    | cons b bs => rw [applyFlips, List.length_cons, List.length_cons, ih bs]

/-- The flip mask that turns the source face list into the explicitly
oriented one: keep every tube face, flip both cap fans. -/
def capsFlip (M N : ℕ) : List Bool :=
  List.replicate (tubeFaces M N).length false ++ List.replicate (2 * M) true

lemma length_startCapFaces (M N : ℕ) : (startCapFaces M N).length = M := by
  rw [startCapFaces, List.length_map, List.length_range]

lemma length_endCapFaces (M N : ℕ) : (endCapFaces M N).length = M := by
  rw [endCapFaces, List.length_map, List.length_range]

lemma applyFlips_capsFlip (M N : ℕ) :
    applyFlips (torusFaces M N) (capsFlip M N) = orientedTorusFaces M N := by
  rw [torusFaces, capsFlip, List.append_assoc,
    applyFlips_append _ _ _ _ (by rw [List.length_replicate]),
    applyFlips_replicate_false,
    applyFlips_replicate_true _ (by
      rw [List.length_append, length_startCapFaces, length_endCapFaces]
      omega),
    List.map_append, orientedTorusFaces]
  exact (List.append_assoc _ _ _).symm

lemma length_capsFlip (M N : ℕ) :
    (capsFlip M N).length = (torusFaces M N).length := by
  rw [capsFlip, torusFaces, List.length_append, List.length_append,
    List.length_append, List.length_replicate, List.length_replicate,
    length_startCapFaces, length_endCapFaces]
  ring

/-! ### Correctness of the modelled `fix_normals` -/

lemma mem_boolLists {n : ℕ} {l : List Bool} (h : l.length = n) :
    l ∈ boolLists n := by
  induction n generalizing l with
  | zero =>
    rw [List.length_eq_zero] at h
    subst h
    exact List.mem_singleton.mpr rfl
  | succ m ih =>
    cases l with
    | nil => simp at h
    | cons b bs =>
      rw [boolLists]
      apply List.mem_flatMap.mpr
      refine ⟨bs, ih (by simpa using h), ?_⟩
      cases b <;> simp

/-- If some flip mask of the right length makes the winding consistent,
`fix_normals` produces a flipped face list with consistent winding,
leaving the vertices untouched. -/
lemma fix_normals_spec (m : Mesh)
    (hex : ∃ fl : List Bool, fl.length = m.faces.length ∧
      windingB (applyFlips m.faces fl) = true) :
    windingB (fix_normals m).faces = true ∧
      (∃ fl, (fix_normals m).faces = applyFlips m.faces fl) ∧
      (fix_normals m).vertices = m.vertices := by
  rw [fix_normals]
  rcases hfind : (boolLists m.faces.length).find?
      (fun fl => windingB (applyFlips m.faces fl)) with _ | fl
  · exfalso
    obtain ⟨fl, hlen, hw⟩ := hex
    have hmem := mem_boolLists hlen
    have := List.find?_eq_none.mp hfind fl hmem
    rw [hw] at this
    exact this rfl
  · have hp := List.find?_some hfind
    exact ⟨hp, ⟨fl, rfl⟩, rfl⟩

/-! ### Claim C2: validity of the generated torus segment -/

lemma applyFlips_capsFlip_inv (M N : ℕ) :
    applyFlips (orientedTorusFaces M N) (capsFlip M N) = torusFaces M N := by
  rw [← applyFlips_capsFlip M N, applyFlips_applyFlips]

lemma torusFaces_watertight {M N : ℕ} (hM : 3 ≤ M) (hN : 2 ≤ N) :
    watertightB (torusFaces M N) = true := by
  rw [← applyFlips_capsFlip_inv]
  exact watertightB_applyFlips (oriented_checks hM hN).1 _

lemma torusFaces_length_pos {M N : ℕ} (hM : 3 ≤ M) :
    0 < (torusFaces M N).length := by
  rw [torusFaces, List.length_append, List.length_append, length_endCapFaces]
  omega

lemma nMinor_ge (resolution : ℕ) : 3 ≤ nMinor resolution := by
  rw [nMinor]
  omega

lemma nMajor_ge (center normal p1 p2 p3 : Vec3) (resolution : ℕ) :
    2 ≤ nMajor center normal p1 p2 p3 resolution := by
  rw [nMajor]
  omega

lemma append_pair_not_empty (l : List Vec3) (a b : Vec3) :
    (l ++ [a, b]).isEmpty = false := by
  cases l <;> rfl

lemma not_empty_of_length_pos {l : List (ℕ × ℕ × ℕ)} (h : 0 < l.length) :
    l.isEmpty = false := by
  cases l with
  | nil => simp at h
  | cons x xs => rfl

/-- The repaired torus mesh (any vertex list ending in the two cap
centers, the torus face list) passes all three validity checks. -/
lemma fix_normals_torus_valid (V : List Vec3) (a b : Vec3) {M N : ℕ}
    (hM : 3 ≤ M) (hN : 2 ≤ N) :
    (fix_normals ⟨V ++ [a, b], torusFaces M N⟩).is_watertight = true ∧
    (fix_normals ⟨V ++ [a, b], torusFaces M N⟩).is_winding_consistent = true ∧
    (fix_normals ⟨V ++ [a, b], torusFaces M N⟩).is_empty = false ∧
    check_mesh_validity (fix_normals ⟨V ++ [a, b], torusFaces M N⟩) =
      (true, validMsg) := by
  obtain ⟨hw, ⟨fl, hf⟩, hv⟩ := fix_normals_spec ⟨V ++ [a, b], torusFaces M N⟩
    ⟨capsFlip M N, length_capsFlip M N, by
      show windingB (applyFlips (torusFaces M N) (capsFlip M N)) = true
      rw [applyFlips_capsFlip]
      exact (oriented_checks hM hN).2⟩
  have hf' : (fix_normals ⟨V ++ [a, b], torusFaces M N⟩).faces =
      applyFlips (torusFaces M N) fl := hf
  have hwt : watertightB
      (fix_normals ⟨V ++ [a, b], torusFaces M N⟩).faces = true := by
    rw [hf']
    exact watertightB_applyFlips (torusFaces_watertight hM hN) fl
  have hvne : (fix_normals ⟨V ++ [a, b],
      torusFaces M N⟩).vertices.isEmpty = false := by
    rw [hv]
    exact append_pair_not_empty V a b
  have hfne : (fix_normals ⟨V ++ [a, b],
      torusFaces M N⟩).faces.isEmpty = false := by
    rw [hf']
    apply not_empty_of_length_pos
    rw [length_applyFlips]
    exact torusFaces_length_pos hM
  have hie : (fix_normals ⟨V ++ [a, b], torusFaces M N⟩).is_empty = false := by
    rw [Mesh.is_empty, hvne, hfne]
    rfl
  have hissues : meshIssues (fix_normals ⟨V ++ [a, b], torusFaces M N⟩) = [] := by
    rw [meshIssues, Mesh.is_watertight, Mesh.is_winding_consistent, hwt, hw, hie]
    rfl
  refine ⟨hwt, hw, hie, ?_⟩
  rw [check_mesh_validity, hissues]
  rfl

/-! ### The constructor merge is the identity on duplicate-free vertices -/

lemma dedupF_of_nodup (V : List Vec3) : ∀ seen, V.Nodup →
    (∀ v ∈ V, v ∉ seen) → dedupF seen V = V := by
  induction V with
  | nil => intro seen _ _; rfl
  | cons v W ih =>
    intro seen hnd hs
    have hs' : ∀ w ∈ W, w ∉ v :: seen := by
      intro w hw hmem
      rw [List.mem_cons] at hmem
      rcases hmem with h | hws
      · exact (List.nodup_cons.mp hnd).1 (h ▸ hw)
      · exact hs w (List.mem_cons_of_mem v hw) hws
    rw [dedupF, if_neg (hs v (List.mem_cons_self v W)),
      ih (v :: seen) (List.nodup_cons.mp hnd).2 hs']

lemma getD_mem_of_lt (d : Vec3) (V : List Vec3) : ∀ a, a < V.length →
    V.getD a d ∈ V := by
  induction V with
  | nil => intro a h; simp at h
  | cons v W ih =>
    intro a ha
    cases a with
    | zero => rw [List.getD_cons_zero]; exact List.mem_cons_self v W
    | succ b =>
      rw [List.getD_cons_succ]
      exact List.mem_cons_of_mem v (ih b (by simpa using ha))

lemma firstIdx_nodup (d : Vec3) (V : List Vec3) : ∀ a, V.Nodup →
    a < V.length → firstIdx V (V.getD a d) = a := by
  induction V with
  | nil => intro a _ h; simp at h
  | cons v W ih =>
    intro a hnd ha
    cases a with
    | zero => rw [List.getD_cons_zero, firstIdx, if_pos rfl]
    | succ b =>
      have hb : b < W.length := by simpa using ha
      have hne : v ≠ W.getD b d := by
        intro hvw
        exact (List.nodup_cons.mp hnd).1
          (hvw ▸ getD_mem_of_lt d W b hb)
      rw [List.getD_cons_succ, firstIdx, if_neg hne,
        ih b (List.nodup_cons.mp hnd).2 hb]

lemma merge_vertices_id (V : List Vec3) (F : List (ℕ × ℕ × ℕ))
    (hnd : V.Nodup)
    (hidx : ∀ f ∈ F, f.1 < V.length ∧ f.2.1 < V.length ∧
      f.2.2 < V.length) :
    merge_vertices ⟨V, F⟩ = ⟨V, F⟩ := by
  have hded : dedupF [] V = V :=
    dedupF_of_nodup V [] hnd (fun v _ h => absurd h (List.not_mem_nil v))
  rw [merge_vertices]
  simp only [hded, Mesh.mk.injEq]
  refine ⟨trivial, ?_⟩
  have hcg : ∀ f ∈ F,
      (firstIdx V (V.getD f.1 ⟨0, 0, 0⟩),
       firstIdx V (V.getD f.2.1 ⟨0, 0, 0⟩),
       firstIdx V (V.getD f.2.2 ⟨0, 0, 0⟩)) = id f := by
    intro f hf
    obtain ⟨h1, h2, h3⟩ := hidx f hf
    rw [firstIdx_nodup _ _ _ hnd h1, firstIdx_nodup _ _ _ hnd h2,
      firstIdx_nodup _ _ _ hnd h3]
    rfl
  rw [List.map_congr_left hcg, List.map_id]

/-! ### Shape of the torus face list -/

lemma mem_torusFaces {M N : ℕ} {f : ℕ × ℕ × ℕ} (hf : f ∈ torusFaces M N) :
    (∃ i, i < M ∧ ∃ j, j < N - 1 ∧
      (f = (vtx N i j, vtx N i (j+1), vtx N ((i+1) % M) (j+1)) ∨
       f = (vtx N i j, vtx N ((i+1) % M) (j+1), vtx N ((i+1) % M) j))) ∨
    (∃ i, i < M ∧ f = (M * N, vtx N ((i+1) % M) 0, vtx N i 0)) ∨
    (∃ i, i < M ∧ f = (M * N + 1, vtx N i (N-1), vtx N ((i+1) % M) (N-1))) := by
  rw [torusFaces, List.mem_append, List.mem_append] at hf
  rcases hf with (h | h) | h
  · left
    rw [tubeFaces, List.mem_flatMap] at h
    obtain ⟨i, hi, h⟩ := h
    rw [List.mem_range] at hi
    rw [List.mem_flatMap] at h
    obtain ⟨j, hj, h⟩ := h
    rw [List.mem_range] at hj
    simp only [quadFaces, List.mem_cons, List.not_mem_nil, or_false] at h
    exact ⟨i, hi, j, hj, h⟩
  · right; left
    rw [startCapFaces, List.mem_map] at h
    obtain ⟨i, hi, h⟩ := h
    rw [List.mem_range] at hi
    exact ⟨i, hi, h.symm⟩
  · right; right
    rw [endCapFaces, List.mem_map] at h
    obtain ⟨i, hi, h⟩ := h
    rw [List.mem_range] at hi
    exact ⟨i, hi, h.symm⟩

lemma torusFaces_idx_lt {M N : ℕ} (hM : 1 ≤ M) (hN : 1 ≤ N) :
    ∀ f ∈ torusFaces M N, f.1 < M * N + 2 ∧ f.2.1 < M * N + 2 ∧
      f.2.2 < M * N + 2 := by
  intro f hf
  have hmod : ∀ i, (i+1) % M < M := fun i => Nat.mod_lt _ (by omega)
  rcases mem_torusFaces hf with ⟨i, hi, j, hj, hor⟩ | ⟨i, hi, hf'⟩ |
    ⟨i, hi, hf'⟩
  · have h1 : vtx N i j < M * N := vtx_lt hi (by omega)
    have h2 : vtx N i (j+1) < M * N := vtx_lt hi (by omega)
    have h3 : vtx N ((i+1) % M) (j+1) < M * N := vtx_lt (hmod i) (by omega)
    have h4 : vtx N ((i+1) % M) j < M * N := vtx_lt (hmod i) (by omega)
    rcases hor with rfl | rfl
    all_goals refine ⟨?_, ?_, ?_⟩
    all_goals dsimp only
    all_goals omega
  · have h1 : vtx N ((i+1) % M) 0 < M * N := vtx_lt (hmod i) (by omega)
    have h2 : vtx N i 0 < M * N := vtx_lt hi (by omega)
    rw [hf']
    refine ⟨?_, ?_, ?_⟩
    all_goals dsimp only
    all_goals omega
  · have h1 : vtx N i (N-1) < M * N := vtx_lt hi (by omega)
    have h2 : vtx N ((i+1) % M) (N-1) < M * N := vtx_lt (hmod i) (by omega)
    rw [hf']
    refine ⟨?_, ?_, ?_⟩
    all_goals dsimp only
    all_goals omega

lemma length_grid (M N : ℕ) (v : ℕ → ℕ → Vec3) :
    ((List.range M).flatMap (fun i => (List.range N).map (v i))).length =
      M * N := by
  induction M with
  | zero => simp
  | succ K ih =>
    rw [List.range_succ, List.flatMap_append, List.length_append, ih]
    simp only [List.flatMap_cons, List.flatMap_nil, List.append_nil,
      List.length_map, List.length_range]
    ring

/-! ### Claim C2 (amended): validity of the generated torus segment -/

/-- Zeta-expansion of `generate_torus_segment`. -/
lemma generate_eq (center normal : Vec3) (majR minR : ℝ) (p1 p2 p3 : Vec3)
    (resolution : ℕ) :
    generate_torus_segment center normal majR minR p1 p2 p3 resolution =
      fix_normals (merge_vertices
        ⟨((List.range (nMinor resolution)).flatMap (fun i =>
            (List.range (nMajor center normal p1 p2 p3 resolution)).map
              (fun j => torusVertex center normal p1 p2 p3 majR minR
                resolution i j))) ++
            [startCapCenter center p1 majR,
              endCapCenter center normal p1 p2 p3 majR],
          torusFaces (nMinor resolution)
            (nMajor center normal p1 p2 p3 resolution)⟩) := rfl

/-- Claim C2 (amended): for every torus-segment specification with
`minor_radius > 0` and `resolution ≥ 1`, with `p1`, `p2`, `p3` on the
circle of the given center, radius and plane, whose sampled vertices
(grid plus the two cap centers) are pairwise distinct — so the
`trimesh.Trimesh` constructor merges nothing — the mesh returned by
`generate_torus_segment` is watertight, winding-consistent and
non-empty, and `check_mesh_validity` reports no issues on it.  For
resonant specifications with coincident samples the merged mesh can
fail the watertightness check (see the degenerate counterexample). -/
theorem generate_torus_segment_valid (center normal : Vec3) (majR minR : ℝ)
    (p1 p2 p3 : Vec3) (resolution : ℕ)
    (hminR : 0 < minR) (hres : 1 ≤ resolution)
    (h1 : norm (sub p1 center) = majR) (h2 : norm (sub p2 center) = majR)
    (h3 : norm (sub p3 center) = majR)
    (h1n : dot (sub p1 center) normal = 0)
    (h2n : dot (sub p2 center) normal = 0)
    (h3n : dot (sub p3 center) normal = 0)
    (hnodup : (((List.range (nMinor resolution)).flatMap (fun i =>
        (List.range (nMajor center normal p1 p2 p3 resolution)).map
          (fun j => torusVertex center normal p1 p2 p3 majR minR
            resolution i j))) ++
        [startCapCenter center p1 majR,
          endCapCenter center normal p1 p2 p3 majR]).Nodup) :
    (generate_torus_segment center normal majR minR p1 p2 p3
        resolution).is_watertight = true ∧
    (generate_torus_segment center normal majR minR p1 p2 p3
        resolution).is_winding_consistent = true ∧
    (generate_torus_segment center normal majR minR p1 p2 p3
        resolution).is_empty = false ∧
    check_mesh_validity (generate_torus_segment center normal majR minR
        p1 p2 p3 resolution) = (true, validMsg) := by
  have hM := nMinor_ge resolution
  have hN := nMajor_ge center normal p1 p2 p3 resolution
  have hlen : (((List.range (nMinor resolution)).flatMap (fun i =>
      (List.range (nMajor center normal p1 p2 p3 resolution)).map
        (fun j => torusVertex center normal p1 p2 p3 majR minR
          resolution i j))) ++
      [startCapCenter center p1 majR,
        endCapCenter center normal p1 p2 p3 majR]).length =
      nMinor resolution * nMajor center normal p1 p2 p3 resolution + 2 := by
    rw [List.length_append, length_grid]
    rfl
  have hidx : ∀ f ∈ torusFaces (nMinor resolution)
      (nMajor center normal p1 p2 p3 resolution),
      f.1 < (((List.range (nMinor resolution)).flatMap (fun i =>
        (List.range (nMajor center normal p1 p2 p3 resolution)).map
          (fun j => torusVertex center normal p1 p2 p3 majR minR
            resolution i j))) ++
        [startCapCenter center p1 majR,
          endCapCenter center normal p1 p2 p3 majR]).length ∧
      f.2.1 < (((List.range (nMinor resolution)).flatMap (fun i =>
        (List.range (nMajor center normal p1 p2 p3 resolution)).map
          (fun j => torusVertex center normal p1 p2 p3 majR minR
            resolution i j))) ++
        [startCapCenter center p1 majR,
          endCapCenter center normal p1 p2 p3 majR]).length ∧
      f.2.2 < (((List.range (nMinor resolution)).flatMap (fun i =>
        (List.range (nMajor center normal p1 p2 p3 resolution)).map
          (fun j => torusVertex center normal p1 p2 p3 majR minR
            resolution i j))) ++
        [startCapCenter center p1 majR,
          endCapCenter center normal p1 p2 p3 majR]).length := by
    rw [hlen]
    exact torusFaces_idx_lt (by omega) (by omega)
  rw [generate_eq, merge_vertices_id _ _ hnodup hidx]
  exact fix_normals_torus_valid _ _ _ hM hN

/-! ### Watertightness is invariant under `fix_normals` -/

lemma watertightB_applyFlips_eq (faces : List (ℕ × ℕ × ℕ)) (fl : List Bool) :
    watertightB (applyFlips faces fl) = watertightB faces := by
  cases h : watertightB faces with
  | true => exact watertightB_applyFlips h fl
  | false =>
    cases h2 : watertightB (applyFlips faces fl) with
    | false => rfl
    | true =>
      have h3 := watertightB_applyFlips h2 fl
      rw [applyFlips_applyFlips, h] at h3
      exact h3.symm

lemma is_watertight_fix_normals (m : Mesh) :
    (fix_normals m).is_watertight = m.is_watertight := by
  rw [Mesh.is_watertight, Mesh.is_watertight, fix_normals]
  rcases hfind : (boolLists m.faces.length).find?
      (fun fl => windingB (applyFlips m.faces fl)) with _ | fl
  · rfl
  · exact watertightB_applyFlips_eq m.faces fl

/-! ### The merge on a vertex list of constant blocks

The degenerate (zero-sweep) torus grid consists of `M` blocks of `N`
identical vertices followed by two equal cap centers; the following
lemmas evaluate the duplicate merge on lists of this shape. -/

lemma dedupF_replicate_mem (v : Vec3) (rest : List Vec3) :
    ∀ n (seen : List Vec3), v ∈ seen →
      dedupF seen (List.replicate n v ++ rest) = dedupF seen rest := by
  intro n
  induction n with
  | zero => intro seen _; rfl
  | succ k ih =>
    intro seen hv
    rw [List.replicate_succ, List.cons_append, dedupF, if_pos hv, ih seen hv]

lemma dedupF_blocks (g : ℕ → Vec3) (c : Vec3) (N : ℕ) (hN : 1 ≤ N) :
    ∀ (k a : ℕ) (seen : List Vec3),
      (∀ i1 i2, a ≤ i1 → i1 < a + k → a ≤ i2 → i2 < a + k →
        g i1 = g i2 → i1 = i2) →
      (∀ i, a ≤ i → i < a + k → g i ∉ seen) →
      (∀ i, a ≤ i → i < a + k → c ≠ g i) →
      c ∉ seen →
      dedupF seen ((List.range' a k).flatMap
          (fun i => List.replicate N (g i)) ++ [c, c]) =
        (List.range' a k).map g ++ [c] := by
  intro k
  induction k with
  | zero =>
    intro a seen _ _ _ hc
    show dedupF seen ([] ++ [c, c]) = [] ++ [c]
    rw [List.nil_append, List.nil_append, dedupF, if_neg hc, dedupF,
      if_pos (List.mem_cons_self c seen), dedupF]
  | succ m ih =>
    intro a seen hinj hseen hcg hc
    rw [List.range'_succ, List.flatMap_cons, List.map_cons,
      List.append_assoc]
    have hga : g a ∉ seen := hseen a le_rfl (by omega)
    cases N with
    | zero => omega
    | succ N0 =>
      rw [List.replicate_succ, List.cons_append, dedupF, if_neg hga,
        dedupF_replicate_mem _ _ N0 (g a :: seen)
          (List.mem_cons_self _ _)]
      congr 1
      apply ih (a+1) (g a :: seen)
      · intro i1 i2 h1 h2 h3 h4 h5
        exact hinj i1 i2 (by omega) (by omega) (by omega) (by omega) h5
      · intro i h1 h2 hmem
        rw [List.mem_cons] at hmem
        rcases hmem with h | h
        · exact absurd (hinj i a (by omega) (by omega) le_rfl (by omega) h)
            (by omega)
        · exact hseen i (by omega) (by omega) h
      · intro i h1 h2
        exact hcg i (by omega) (by omega)
      · intro hmem
        rw [List.mem_cons] at hmem
        rcases hmem with h | h
        · exact hcg a le_rfl (by omega) h
        · exact hc h

lemma firstIdx_blocks_g (g : ℕ → Vec3) (c : Vec3) :
    ∀ (k a i : ℕ),
      (∀ i1 i2, a ≤ i1 → i1 < a + k → a ≤ i2 → i2 < a + k →
        g i1 = g i2 → i1 = i2) →
      a ≤ i → i < a + k →
      firstIdx ((List.range' a k).map g ++ [c]) (g i) = i - a := by
  intro k
  induction k with
  | zero => intro a i _ h1 h2; omega
  | succ m ih =>
    intro a i hinj h1 h2
    rw [List.range'_succ, List.map_cons, List.cons_append, firstIdx]
    by_cases hia : i = a
    · rw [if_pos (by rw [hia])]
      omega
    · have hne : g a ≠ g i := by
        intro h
        exact hia (hinj i a (by omega) (by omega) le_rfl (by omega) h.symm)
      rw [if_neg hne, ih (a+1) i
        (fun i1 i2 a1 a2 a3 a4 a5 =>
          hinj i1 i2 (by omega) (by omega) (by omega) (by omega) a5)
        (by omega) (by omega)]
      omega

lemma firstIdx_blocks_c (g : ℕ → Vec3) (c : Vec3) :
    ∀ (k a : ℕ), (∀ i, a ≤ i → i < a + k → c ≠ g i) →
      firstIdx ((List.range' a k).map g ++ [c]) c = k := by
  intro k
  induction k with
  | zero =>
    intro a _
    show firstIdx ([] ++ [c]) c = 0
    rw [List.nil_append, firstIdx, if_pos rfl]
  | succ m ih =>
    intro a hcg
    rw [List.range'_succ, List.map_cons, List.cons_append, firstIdx,
      if_neg (fun h => hcg a le_rfl (by omega) h.symm),
      ih (a+1) (fun i h1 h2 => hcg i (by omega) (by omega))]

lemma getD_replicate_append (d v : Vec3) (B : List Vec3) :
    ∀ N j, j < N → (List.replicate N v ++ B).getD j d = v := by
  intro N
  induction N with
  | zero => intro j h; omega
  | succ m ih =>
    intro j hj
    rw [List.replicate_succ, List.cons_append]
    cases j with
    | zero => rfl
    | succ j0 =>
      rw [List.getD_cons_succ]
      exact ih j0 (by omega)

lemma getD_append_ge (d : Vec3) :
    ∀ (A B : List Vec3) n, (A ++ B).getD (A.length + n) d = B.getD n d := by
  intro A
  induction A with
  | nil => intro B n; rw [List.nil_append, List.length_nil, Nat.zero_add]
  | cons a A ih =>
    intro B n
    rw [List.cons_append, List.length_cons,
      show A.length + 1 + n = (A.length + n) + 1 from by omega,
      List.getD_cons_succ, ih B n]

lemma getD_replicate_skip (d v : Vec3) (B : List Vec3) (N n : ℕ) :
    (List.replicate N v ++ B).getD (N + n) d = B.getD n d := by
  have h := getD_append_ge d (List.replicate N v) B n
  rwa [List.length_replicate] at h

lemma getD_blocks (g : ℕ → Vec3) (N : ℕ) (d : Vec3) (tail : List Vec3) :
    ∀ (k a i j : ℕ), i < k → j < N →
      ((List.range' a k).flatMap (fun x => List.replicate N (g x)) ++
        tail).getD (i * N + j) d = g (a + i) := by
  intro k
  induction k with
  | zero => intro a i j hi _; omega
  | succ m ih =>
    intro a i j hi hj
    rw [List.range'_succ, List.flatMap_cons, List.append_assoc]
    cases i with
    | zero =>
      rw [Nat.zero_mul, Nat.zero_add, Nat.add_zero]
      exact getD_replicate_append d (g a) _ N j hj
    | succ i0 =>
      rw [show (i0+1) * N + j = N + (i0 * N + j) from by ring,
        getD_replicate_skip, ih (a+1) i0 j (by omega) hj,
        show a + 1 + i0 = a + (i0 + 1) from by omega]

lemma length_blocks (g : ℕ → Vec3) (N : ℕ) :
    ∀ (k a : ℕ),
      ((List.range' a k).flatMap (fun x => List.replicate N (g x))).length =
        k * N := by
  intro k
  induction k with
  | zero => intro a; simp
  | succ m ih =>
    intro a
    rw [List.range'_succ, List.flatMap_cons, List.length_append,
      List.length_replicate, ih (a+1)]
    ring

lemma flatMap_congr' {α β : Type} (l : List α) (f g : α → List β)
    (h : ∀ a ∈ l, f a = g a) : l.flatMap f = l.flatMap g := by
  induction l with
  | nil => rfl
  | cons a l ih =>
    rw [List.flatMap_cons, List.flatMap_cons,
      h a (List.mem_cons_self a l),
      ih (fun b hb => h b (List.mem_cons_of_mem a hb))]

/-! ### A resonant instance: `p1 = p2 = p3` gives sweep 0 and a
column-collapsed grid -/

lemma cos_sin_inj {a b : ℝ} (hc : Real.cos a = Real.cos b)
    (hs : Real.sin a = Real.sin b) (hab : |a - b| < 2 * Real.pi) : a = b := by
  have h1 : Real.cos (a - b) = 1 := by
    rw [Real.cos_sub, hc, hs]
    nlinarith [Real.sin_sq_add_cos_sq b]
  obtain ⟨k, hk⟩ := (Real.cos_eq_one_iff (a - b)).mp h1
  have hπ := Real.pi_pos
  rw [abs_lt] at hab
  have hk0 : k = 0 := by
    have hlt : (k:ℝ) < 1 := by nlinarith [hab.2]
    have hgt : (-1:ℝ) < (k:ℝ) := by nlinarith [hab.1]
    have hlt' : k < 1 := by exact_mod_cast hlt
    have hgt' : -1 < k := by exact_mod_cast hgt
    omega
  rw [hk0] at hk
  norm_num at hk
  linarith

/-- The single vertex value of row `i` of the zero-sweep degenerate
grid (all sweep columns coincide). -/
noncomputable def degRow (i : ℕ) : Vec3 :=
  ⟨1 + 1 / 2 * Real.cos ((i : ℝ) * (2 * Real.pi / 16)), 0,
   1 / 2 * Real.sin ((i : ℝ) * (2 * Real.pi / 16))⟩

/-- The sampled vertex list of the degenerate instance: 16 blocks of 9
equal grid vertices, then the two coincident cap centers. -/
noncomputable def degV : List Vec3 :=
  (List.range' 0 16).flatMap (fun i => List.replicate 9 (degRow i)) ++
    [⟨1, 0, 0⟩, ⟨1, 0, 0⟩]

lemma degRow_inj : ∀ i1 i2, 0 ≤ i1 → i1 < 0 + 16 → 0 ≤ i2 → i2 < 0 + 16 →
    degRow i1 = degRow i2 → i1 = i2 := by
  intro i1 i2 _ h1 _ h2 h
  rw [degRow, degRow, Vec3.mk.injEq] at h
  obtain ⟨hx, -, hz⟩ := h
  have hπ := Real.pi_pos
  have hc : Real.cos ((i1:ℝ) * (2 * Real.pi / 16)) =
      Real.cos ((i2:ℝ) * (2 * Real.pi / 16)) := by linarith
  have hs : Real.sin ((i1:ℝ) * (2 * Real.pi / 16)) =
      Real.sin ((i2:ℝ) * (2 * Real.pi / 16)) := by linarith
  have hb1 : (i1:ℝ) ≤ 15 := by exact_mod_cast (by omega : i1 ≤ 15)
  have hb2 : (i2:ℝ) ≤ 15 := by exact_mod_cast (by omega : i2 ≤ 15)
  have hb3 : (0:ℝ) ≤ (i1:ℝ) := Nat.cast_nonneg i1
  have hb4 : (0:ℝ) ≤ (i2:ℝ) := Nat.cast_nonneg i2
  have habs : |(i1:ℝ) * (2 * Real.pi / 16) -
      (i2:ℝ) * (2 * Real.pi / 16)| < 2 * Real.pi := by
    rw [abs_lt]
    constructor
    · nlinarith
    · nlinarith
  have heq := cos_sin_inj hc hs habs
  have hs16 : ((2:ℝ) * Real.pi / 16) ≠ 0 := by positivity
  have hcast : (i1:ℝ) = (i2:ℝ) := mul_right_cancel₀ hs16 heq
  exact_mod_cast hcast

lemma degCap_ne_row : ∀ i, 0 ≤ i → i < 0 + 16 →
    (⟨1, 0, 0⟩ : Vec3) ≠ degRow i := by
  intro i _ _ h
  rw [degRow, Vec3.mk.injEq] at h
  obtain ⟨hx, -, hz⟩ := h
  have hcz : Real.cos ((i:ℝ) * (2 * Real.pi / 16)) = 0 := by linarith
  have hsz : Real.sin ((i:ℝ) * (2 * Real.pi / 16)) = 0 := by linarith
  have hid := Real.sin_sq_add_cos_sq ((i:ℝ) * (2 * Real.pi / 16))
  rw [hcz, hsz] at hid
  norm_num at hid

lemma deg_theta3 : torusTheta3 ⟨0,0,0⟩ ⟨0,0,1⟩ ⟨1,0,0⟩ ⟨1,0,0⟩ = 0 := by
  rw [torusTheta3]
  exact get_angle_p1_zero ⟨0,0,0⟩ ⟨0,0,1⟩ ⟨1,0,0⟩ (by
    intro h
    rw [Vec3.mk.injEq] at h
    norm_num at h)

lemma deg_theta2 : torusTheta2 ⟨0,0,0⟩ ⟨0,0,1⟩ ⟨1,0,0⟩ ⟨1,0,0⟩ = 0 := by
  rw [torusTheta2]
  exact get_angle_p1_zero ⟨0,0,0⟩ ⟨0,0,1⟩ ⟨1,0,0⟩ (by
    intro h
    rw [Vec3.mk.injEq] at h
    norm_num at h)

lemma deg_sweep : totalSweep ⟨0,0,0⟩ ⟨0,0,1⟩ ⟨1,0,0⟩ ⟨1,0,0⟩ ⟨1,0,0⟩ = 0 := by
  rw [totalSweep, deg_theta2, deg_theta3, if_neg (lt_irrefl (0:ℝ))]

lemma deg_nMajor : nMajor ⟨0,0,0⟩ ⟨0,0,1⟩ ⟨1,0,0⟩ ⟨1,0,0⟩ ⟨1,0,0⟩ 1 = 9 := by
  rw [nMajor, deg_sweep]
  norm_num

lemma deg_nMinor : nMinor 1 = 16 := rfl

lemma deg_u : torusU ⟨0,0,0⟩ ⟨1,0,0⟩ = ⟨1,0,0⟩ := by
  rw [torusU]
  rw [show (sub ⟨1,0,0⟩ ⟨0,0,0⟩ : Vec3) = ⟨1,0,0⟩ from by
    simp only [sub, Vec3.mk.injEq]
    norm_num]
  rw [show Vec3.norm ⟨1,0,0⟩ = 1 from by
    simp only [Vec3.norm, dot]
    exact sqrt_eval (by norm_num) (by norm_num)]
  simp only [sdiv, Vec3.mk.injEq]
  norm_num

lemma deg_w : torusW ⟨0,0,0⟩ ⟨0,0,1⟩ ⟨1,0,0⟩ = ⟨0,1,0⟩ := by
  rw [torusW, deg_u]
  simp only [cross, Vec3.mk.injEq]
  norm_num

lemma deg_vertex (i j : ℕ) :
    torusVertex ⟨0,0,0⟩ ⟨0,0,1⟩ ⟨1,0,0⟩ ⟨1,0,0⟩ ⟨1,0,0⟩ 1 (1/2) 1 i j =
      degRow i := by
  simp only [torusVertex, deg_sweep, deg_nMajor, deg_nMinor, deg_u, deg_w]
  simp only [zero_div, mul_zero, Real.cos_zero, Real.sin_zero]
  simp only [add, smul, degRow, Vec3.mk.injEq]
  push_cast
  norm_num

lemma deg_sc : startCapCenter ⟨0,0,0⟩ ⟨1,0,0⟩ 1 = ⟨1,0,0⟩ := by
  rw [startCapCenter, deg_u]
  simp only [add, smul, Vec3.mk.injEq]
  norm_num

lemma deg_ec :
    endCapCenter ⟨0,0,0⟩ ⟨0,0,1⟩ ⟨1,0,0⟩ ⟨1,0,0⟩ ⟨1,0,0⟩ 1 = ⟨1,0,0⟩ := by
  rw [endCapCenter, deg_sweep, deg_u, deg_w]
  simp only [Real.cos_zero, Real.sin_zero, add, smul, Vec3.mk.injEq]
  norm_num

lemma degVerts_eq :
    ((List.range (nMinor 1)).flatMap (fun i =>
      (List.range (nMajor ⟨0,0,0⟩ ⟨0,0,1⟩ ⟨1,0,0⟩ ⟨1,0,0⟩ ⟨1,0,0⟩ 1)).map
        (fun j => torusVertex ⟨0,0,0⟩ ⟨0,0,1⟩ ⟨1,0,0⟩ ⟨1,0,0⟩ ⟨1,0,0⟩
          1 (1/2) 1 i j))) ++
      [startCapCenter ⟨0,0,0⟩ ⟨1,0,0⟩ 1,
        endCapCenter ⟨0,0,0⟩ ⟨0,0,1⟩ ⟨1,0,0⟩ ⟨1,0,0⟩ ⟨1,0,0⟩ 1] = degV := by
  rw [deg_nMinor, deg_nMajor, deg_sc, deg_ec, degV]
  congr 1
  rw [List.range_eq_range']
  apply flatMap_congr'
  intro i _
  rw [List.map_congr_left (fun j _ => deg_vertex i j), List.map_const',
    List.length_range]

/-- The merged vertex index of old index `x` in the degenerate mesh:
grid vertex `(i, j)` collapses to row `i`, both cap centers collapse to
index 16. -/
def degIdx (x : ℕ) : ℕ := if x < 144 then x / 9 else 16

/-- `degIdx` applied to the three corners of a face. -/
def degTri (f : ℕ × ℕ × ℕ) : ℕ × ℕ × ℕ :=
  (degIdx f.1, degIdx f.2.1, degIdx f.2.2)

lemma deg_dedup :
    dedupF [] degV = (List.range' 0 16).map degRow ++ [⟨1,0,0⟩] := by
  rw [degV]
  exact dedupF_blocks degRow ⟨1,0,0⟩ 9 (by norm_num) 16 0 []
    degRow_inj (fun i _ _ h => absurd h (List.not_mem_nil _))
    degCap_ne_row (List.not_mem_nil _)

lemma deg_length_main :
    ((List.range' 0 16).flatMap
      (fun i => List.replicate 9 (degRow i))).length = 144 := by
  rw [length_blocks degRow 9 16 0]

lemma degIdx_vtx (a b : ℕ) (ha : a < 16) (hb : b < 9) :
    degIdx (vtx 9 a b) = a := by
  rw [degIdx, vtx, if_pos (by omega)]
  omega

lemma deg_remap_point (a b : ℕ) (ha : a < 16) (hb : b < 9) :
    firstIdx (dedupF [] degV) (degV.getD (vtx 9 a b) ⟨0,0,0⟩) =
      degIdx (vtx 9 a b) := by
  have hg : degV.getD (vtx 9 a b) ⟨0,0,0⟩ = degRow a := by
    rw [degV, vtx]
    have h := getD_blocks degRow 9 ⟨0,0,0⟩ [⟨1,0,0⟩, ⟨1,0,0⟩] 16 0 a b ha hb
    rw [Nat.zero_add] at h
    exact h
  rw [hg, deg_dedup, degIdx_vtx a b ha hb]
  have h := firstIdx_blocks_g degRow ⟨1,0,0⟩ 16 0 a degRow_inj
    (Nat.zero_le a) (by omega)
  rw [Nat.sub_zero] at h
  exact h

lemma deg_remap_point_s :
    firstIdx (dedupF [] degV) (degV.getD (16 * 9) ⟨0,0,0⟩) =
      degIdx (16 * 9) := by
  have hg : degV.getD (16 * 9) ⟨0,0,0⟩ = ⟨1,0,0⟩ := by
    rw [degV]
    have h := getD_append_ge ⟨0,0,0⟩ ((List.range' 0 16).flatMap
      (fun i => List.replicate 9 (degRow i))) [⟨1,0,0⟩, ⟨1,0,0⟩] 0
    rw [deg_length_main, Nat.add_zero] at h
    rw [show (16 * 9 : ℕ) = 144 from by norm_num, h]
    rfl
  rw [hg, deg_dedup, degIdx, if_neg (by omega)]
  exact firstIdx_blocks_c degRow ⟨1,0,0⟩ 16 0 degCap_ne_row

lemma deg_remap_point_e :
    firstIdx (dedupF [] degV) (degV.getD (16 * 9 + 1) ⟨0,0,0⟩) =
      degIdx (16 * 9 + 1) := by
  have hg : degV.getD (16 * 9 + 1) ⟨0,0,0⟩ = ⟨1,0,0⟩ := by
    rw [degV]
    have h := getD_append_ge ⟨0,0,0⟩ ((List.range' 0 16).flatMap
      (fun i => List.replicate 9 (degRow i))) [⟨1,0,0⟩, ⟨1,0,0⟩] 1
    rw [deg_length_main] at h
    rw [show (16 * 9 + 1 : ℕ) = 144 + 1 from by norm_num, h]
    rfl
  rw [hg, deg_dedup, degIdx, if_neg (by omega)]
  exact firstIdx_blocks_c degRow ⟨1,0,0⟩ 16 0 degCap_ne_row

lemma deg_merged_faces :
    (merge_vertices ⟨degV, torusFaces 16 9⟩).faces =
      (torusFaces 16 9).map degTri := by
  rw [merge_vertices]
  apply List.map_congr_left
  intro f hf
  rcases mem_torusFaces hf with ⟨i, hi, j, hj, hor⟩ | ⟨i, hi, rfl⟩ |
    ⟨i, hi, rfl⟩
  · have hi' : (i + 1) % 16 < 16 := Nat.mod_lt _ (by omega)
    rcases hor with rfl | rfl
    · dsimp only [degTri]
      rw [deg_remap_point i j hi (by omega),
        deg_remap_point i (j+1) hi (by omega),
        deg_remap_point _ (j+1) hi' (by omega)]
    · dsimp only [degTri]
      rw [deg_remap_point i j hi (by omega),
        deg_remap_point _ (j+1) hi' (by omega),
        deg_remap_point _ j hi' (by omega)]
  · have hi' : (i + 1) % 16 < 16 := Nat.mod_lt _ (by omega)
    dsimp only [degTri]
    rw [deg_remap_point_s,
      deg_remap_point _ 0 hi' (by omega),
      deg_remap_point i 0 hi (by omega)]
  · have hi' : (i + 1) % 16 < 16 := Nat.mod_lt _ (by omega)
    dsimp only [degTri]
    rw [deg_remap_point_e,
      deg_remap_point i (9-1) hi (by omega),
      deg_remap_point _ (9-1) hi' (by omega)]

lemma all_false_of_mem {α : Type} (p : α → Bool) (l : List α) (x : α)
    (hx : x ∈ l) (hp : p x = false) : l.all p = false := by
  cases h : l.all p with
  | false => rfl
  | true =>
    have h2 := List.all_eq_true.mp h x hx
    rw [hp] at h2
    exact h2.symm

set_option maxRecDepth 10000 in
lemma deg_not_watertight :
    watertightB ((torusFaces 16 9).map degTri) = false := by
  rw [watertightB]
  exact all_false_of_mem _ _ (0, 1) (by decide) (by decide)

/-- Claim C2, counterexample to the literal claim: the specification
`center = 0`, `normal = e_z`, `major_radius = 1`, `minor_radius = 1/2 > 0`,
`resolution = 1 ≥ 1` with `p1 = p2 = p3 = (1,0,0)` on the circle is
admitted by the claim, yet the code computes `total_sweep = 0`, every
sweep column of the grid collapses to a single point, the
`trimesh.Trimesh` constructor merges the coincident vertices, and the
resulting mesh is not watertight (each collapsed ring edge borders many
faces), so `check_mesh_validity` cannot report it valid. -/
theorem generate_torus_segment_degenerate_not_watertight :
    (0:ℝ) < 1/2 ∧ (1:ℕ) ≤ 1 ∧
    norm (sub ⟨1,0,0⟩ ⟨0,0,0⟩) = 1 ∧
    dot (sub ⟨1,0,0⟩ ⟨0,0,0⟩) ⟨0,0,1⟩ = 0 ∧
    (generate_torus_segment ⟨0,0,0⟩ ⟨0,0,1⟩ 1 (1/2) ⟨1,0,0⟩ ⟨1,0,0⟩
        ⟨1,0,0⟩ 1).is_watertight = false := by
  refine ⟨by norm_num, le_refl 1, ?_, ?_, ?_⟩
  · simp only [Vec3.norm, sub, dot]
    rw [show ((1:ℝ) - 0) * (1 - 0) + (0 - 0) * (0 - 0) + (0 - 0) * (0 - 0)
      = 1 by norm_num, Real.sqrt_one]
  · simp only [sub, dot]
    norm_num
  · rw [generate_eq, is_watertight_fix_normals, degVerts_eq, deg_nMinor,
      deg_nMajor, Mesh.is_watertight, deg_merged_faces]
    exact deg_not_watertight

/-! ### A non-resonant instance for the amended claim: quarter sweep -/

lemma pymod_eq_self {a m : ℝ} (h0 : 0 ≤ a) (hm : a < m) : pymod a m = a := by
  have hmpos : 0 < m := lt_of_le_of_lt h0 hm
  have hfl : ⌊a / m⌋ = 0 := by
    rw [Int.floor_eq_zero_iff, Set.mem_Ico]
    exact ⟨div_nonneg h0 hmpos.le, (div_lt_one hmpos).mpr hm⟩
  rw [pymod, hfl]
  norm_num

lemma wit_theta2 :
    torusTheta2 ⟨0,0,0⟩ ⟨0,0,1⟩ ⟨1,0,0⟩ ⟨0,1,0⟩ = Real.pi / 2 := by
  have hπ := Real.pi_pos
  rw [torusTheta2, get_angle, deg_u, deg_w]
  rw [show dot (sub ⟨0,1,0⟩ ⟨0,0,0⟩) ⟨0,1,0⟩ = 1 from by
    simp only [sub, dot]; norm_num]
  rw [show dot (sub ⟨0,1,0⟩ ⟨0,0,0⟩) ⟨1,0,0⟩ = 0 from by
    simp only [sub, dot]; norm_num]
  rw [atan2, if_neg (lt_irrefl (0:ℝ)), if_neg (lt_irrefl (0:ℝ)),
    if_pos (by norm_num : (0:ℝ) < 1)]
  exact pymod_eq_self (by positivity) (by linarith)

lemma wit_theta3 :
    torusTheta3 ⟨0,0,0⟩ ⟨0,0,1⟩ ⟨1,0,0⟩ ⟨0,1,0⟩ = Real.pi / 2 := by
  have hπ := Real.pi_pos
  rw [torusTheta3, get_angle, deg_u, deg_w]
  rw [show dot (sub ⟨0,1,0⟩ ⟨0,0,0⟩) ⟨0,1,0⟩ = 1 from by
    simp only [sub, dot]; norm_num]
  rw [show dot (sub ⟨0,1,0⟩ ⟨0,0,0⟩) ⟨1,0,0⟩ = 0 from by
    simp only [sub, dot]; norm_num]
  rw [atan2, if_neg (lt_irrefl (0:ℝ)), if_neg (lt_irrefl (0:ℝ)),
    if_pos (by norm_num : (0:ℝ) < 1)]
  exact pymod_eq_self (by positivity) (by linarith)

lemma wit_sweep :
    totalSweep ⟨0,0,0⟩ ⟨0,0,1⟩ ⟨1,0,0⟩ ⟨0,1,0⟩ ⟨0,1,0⟩ = Real.pi / 2 := by
  rw [totalSweep, wit_theta2, wit_theta3, if_neg (lt_irrefl (Real.pi / 2))]

/-- The sweep-column count of the witness instance. -/
noncomputable def witN : ℕ := nMajor ⟨0,0,0⟩ ⟨0,0,1⟩ ⟨1,0,0⟩ ⟨0,1,0⟩ ⟨0,1,0⟩ 1

lemma witN_eq :
    nMajor ⟨0,0,0⟩ ⟨0,0,1⟩ ⟨1,0,0⟩ ⟨0,1,0⟩ ⟨0,1,0⟩ 1 = witN := rfl

lemma witN_ge : 2 ≤ witN :=
  witN_eq ▸ nMajor_ge ⟨0,0,0⟩ ⟨0,0,1⟩ ⟨1,0,0⟩ ⟨0,1,0⟩ ⟨0,1,0⟩ 1

/-- Sweep angle of column `j` in the witness instance. -/
noncomputable def witTheta (j : ℕ) : ℝ :=
  (j : ℝ) * (Real.pi / 2 / ((witN - 1 : ℕ) : ℝ))

/-- Tube angle of row `i` in the witness instance. -/
noncomputable def witPhi (i : ℕ) : ℝ := (i : ℝ) * (2 * Real.pi / 16)

/-- Closed form of grid vertex `(i, j)` of the witness instance. -/
noncomputable def witRow (i j : ℕ) : Vec3 :=
  ⟨(1 + 1 / 2 * Real.cos (witPhi i)) * Real.cos (witTheta j),
   (1 + 1 / 2 * Real.cos (witPhi i)) * Real.sin (witTheta j),
   1 / 2 * Real.sin (witPhi i)⟩

lemma wit_vertex (i j : ℕ) :
    torusVertex ⟨0,0,0⟩ ⟨0,0,1⟩ ⟨1,0,0⟩ ⟨0,1,0⟩ ⟨0,1,0⟩ 1 (1/2) 1 i j =
      witRow i j := by
  simp only [torusVertex, wit_sweep, deg_nMinor, deg_u, deg_w, witN_eq]
  simp only [add, smul, witRow, witPhi, witTheta, Vec3.mk.injEq]
  refine ⟨?_, ?_, ?_⟩
  · push_cast
    ring
  · push_cast
    ring
  · push_cast
    ring

lemma wit_ec :
    endCapCenter ⟨0,0,0⟩ ⟨0,0,1⟩ ⟨1,0,0⟩ ⟨0,1,0⟩ ⟨0,1,0⟩ 1 = ⟨0,1,0⟩ := by
  rw [endCapCenter, wit_sweep, deg_u, deg_w]
  simp only [Real.cos_pi_div_two, Real.sin_pi_div_two, add, smul,
    Vec3.mk.injEq]
  norm_num

lemma witTheta_nonneg (j : ℕ) : 0 ≤ witTheta j := by
  rw [witTheta]
  have hπ := Real.pi_pos
  positivity

lemma witN_cast_ge : (1:ℝ) ≤ ((witN - 1 : ℕ) : ℝ) := by
  have h := witN_ge
  exact_mod_cast (by omega : 1 ≤ witN - 1)

lemma witStep_pos : 0 < Real.pi / 2 / ((witN - 1 : ℕ) : ℝ) := by
  have hπ := Real.pi_pos
  have h := witN_cast_ge
  exact div_pos (by linarith) (by linarith)

lemma witTheta_le (j : ℕ) (hj : j < witN) : witTheta j ≤ Real.pi / 2 := by
  have hπ := Real.pi_pos
  have hA := witN_cast_ge
  have hA0 : ((witN - 1 : ℕ) : ℝ) ≠ 0 := by linarith
  have hjA : (j:ℝ) ≤ ((witN - 1 : ℕ) : ℝ) := by
    have h := witN_ge
    exact_mod_cast (by omega : j ≤ witN - 1)
  have hAs : ((witN - 1 : ℕ) : ℝ) * (Real.pi / 2 / ((witN - 1 : ℕ) : ℝ)) =
      Real.pi / 2 := by
    field_simp
    ring
  have h1 := mul_le_mul_of_nonneg_right hjA (le_of_lt witStep_pos)
  rw [hAs] at h1
  rw [witTheta]
  exact h1

attribute [irreducible] witN witTheta witPhi witRow

lemma witPhi_inj {i i' : ℕ} (hi : i < 16) (hi' : i' < 16)
    (hc : Real.cos (witPhi i) = Real.cos (witPhi i'))
    (hs : Real.sin (witPhi i) = Real.sin (witPhi i')) : i = i' := by
  have hπ := Real.pi_pos
  have hb1 : (i:ℝ) ≤ 15 := by exact_mod_cast (by omega : i ≤ 15)
  have hb2 : (i':ℝ) ≤ 15 := by exact_mod_cast (by omega : i' ≤ 15)
  have hb3 : (0:ℝ) ≤ (i:ℝ) := Nat.cast_nonneg i
  have hb4 : (0:ℝ) ≤ (i':ℝ) := Nat.cast_nonneg i'
  have habs : |witPhi i - witPhi i'| < 2 * Real.pi := by
    rw [witPhi, witPhi, abs_lt]
    constructor
    · nlinarith
    · nlinarith
  have heq := cos_sin_inj hc hs habs
  rw [witPhi, witPhi] at heq
  have hcast := mul_right_cancel₀
    (by positivity : ((2:ℝ) * Real.pi / 16) ≠ 0) heq
  exact_mod_cast hcast

set_option maxHeartbeats 1600000 in
lemma witRow_inj (i j i' j' : ℕ) (hi : i < 16) (hj : j < witN)
    (hi' : i' < 16) (hj' : j' < witN) (h : witRow i j = witRow i' j') :
    i = i' ∧ j = j' := by
  rw [witRow, witRow, Vec3.mk.injEq] at h
  obtain ⟨hx, hy, hz⟩ := h
  have hπ := Real.pi_pos
  have hrc : (0:ℝ) < 1 + 1 / 2 * Real.cos (witPhi i) := by
    nlinarith [Real.neg_one_le_cos (witPhi i)]
  have hrc' : (0:ℝ) < 1 + 1 / 2 * Real.cos (witPhi i') := by
    nlinarith [Real.neg_one_le_cos (witPhi i')]
  have e1 : (1 + 1 / 2 * Real.cos (witPhi i))^2 =
      ((1 + 1 / 2 * Real.cos (witPhi i)) * Real.cos (witTheta j))^2 +
      ((1 + 1 / 2 * Real.cos (witPhi i)) * Real.sin (witTheta j))^2 := by
    nlinarith [Real.sin_sq_add_cos_sq (witTheta j),
      sq_nonneg (1 + 1 / 2 * Real.cos (witPhi i))]
  have e2 : (1 + 1 / 2 * Real.cos (witPhi i'))^2 =
      ((1 + 1 / 2 * Real.cos (witPhi i')) * Real.cos (witTheta j'))^2 +
      ((1 + 1 / 2 * Real.cos (witPhi i')) * Real.sin (witTheta j'))^2 := by
    nlinarith [Real.sin_sq_add_cos_sq (witTheta j'),
      sq_nonneg (1 + 1 / 2 * Real.cos (witPhi i'))]
  have hsq : (1 + 1 / 2 * Real.cos (witPhi i))^2 =
      (1 + 1 / 2 * Real.cos (witPhi i'))^2 := by
    rw [e1, hx, hy, ← e2]
  have hrceq : (1 + 1 / 2 * Real.cos (witPhi i)) =
      (1 + 1 / 2 * Real.cos (witPhi i')) := by
    rcases sq_eq_sq_iff_eq_or_eq_neg.mp hsq with h | h
    · exact h
    · nlinarith [Real.neg_one_le_cos (witPhi i),
        Real.neg_one_le_cos (witPhi i')]
  have hcosφ : Real.cos (witPhi i) = Real.cos (witPhi i') := by linarith
  have hsinφ : Real.sin (witPhi i) = Real.sin (witPhi i') := by linarith
  have hii := witPhi_inj hi hi' hcosφ hsinφ
  subst hii
  refine ⟨rfl, ?_⟩
  have hrcne := ne_of_gt hrc
  have hcosθ : Real.cos (witTheta j) = Real.cos (witTheta j') :=
    mul_left_cancel₀ hrcne hx
  have hsinθ : Real.sin (witTheta j) = Real.sin (witTheta j') :=
    mul_left_cancel₀ hrcne hy
  have habsθ : |witTheta j - witTheta j'| < 2 * Real.pi := by
    have h1 := witTheta_nonneg j
    have h2 := witTheta_nonneg j'
    have h3 := witTheta_le j hj
    have h4 := witTheta_le j' hj'
    rw [abs_lt]
    constructor
    · linarith
    · linarith
  have hθ := cos_sin_inj hcosθ hsinθ habsθ
  rw [witTheta, witTheta] at hθ
  have hcast := mul_right_cancel₀ (ne_of_gt witStep_pos) hθ
  exact_mod_cast hcast

lemma witRow_ne_s (i j : ℕ) : witRow i j ≠ ⟨1, 0, 0⟩ := by
  intro h
  rw [witRow, Vec3.mk.injEq] at h
  obtain ⟨hx, hy, hz⟩ := h
  have hπ := Real.pi_pos
  have hrc : (0:ℝ) < 1 + 1 / 2 * Real.cos (witPhi i) := by
    nlinarith [Real.neg_one_le_cos (witPhi i)]
  have hx2 : ((1 + 1 / 2 * Real.cos (witPhi i)) * Real.cos (witTheta j))^2
      = 1 := by rw [hx]; norm_num
  have hy2 : ((1 + 1 / 2 * Real.cos (witPhi i)) * Real.sin (witTheta j))^2
      = 0 := by rw [hy]; norm_num
  have e1 : (1 + 1 / 2 * Real.cos (witPhi i))^2 = 1 := by
    nlinarith [Real.sin_sq_add_cos_sq (witTheta j),
      sq_nonneg (1 + 1 / 2 * Real.cos (witPhi i)), hx2, hy2]
  have hab : (1 + 1 / 2 * Real.cos (witPhi i)) ≤ 1 := by nlinarith [e1, hrc]
  have hba : (1:ℝ) ≤ 1 + 1 / 2 * Real.cos (witPhi i) := by nlinarith [e1, hrc]
  have hcos0 : Real.cos (witPhi i) = 0 := by linarith
  have hsin0 : Real.sin (witPhi i) = 0 := by linarith
  have hid := Real.sin_sq_add_cos_sq (witPhi i)
  rw [hcos0, hsin0] at hid
  norm_num at hid

lemma witRow_ne_e (i j : ℕ) : witRow i j ≠ ⟨0, 1, 0⟩ := by
  intro h
  rw [witRow, Vec3.mk.injEq] at h
  obtain ⟨hx, hy, hz⟩ := h
  have hπ := Real.pi_pos
  have hrc : (0:ℝ) < 1 + 1 / 2 * Real.cos (witPhi i) := by
    nlinarith [Real.neg_one_le_cos (witPhi i)]
  have hx2 : ((1 + 1 / 2 * Real.cos (witPhi i)) * Real.cos (witTheta j))^2
      = 0 := by rw [hx]; norm_num
  have hy2 : ((1 + 1 / 2 * Real.cos (witPhi i)) * Real.sin (witTheta j))^2
      = 1 := by rw [hy]; norm_num
  have e1 : (1 + 1 / 2 * Real.cos (witPhi i))^2 = 1 := by
    nlinarith [Real.sin_sq_add_cos_sq (witTheta j),
      sq_nonneg (1 + 1 / 2 * Real.cos (witPhi i)), hx2, hy2]
  have hab : (1 + 1 / 2 * Real.cos (witPhi i)) ≤ 1 := by nlinarith [e1, hrc]
  have hba : (1:ℝ) ≤ 1 + 1 / 2 * Real.cos (witPhi i) := by nlinarith [e1, hrc]
  have hcos0 : Real.cos (witPhi i) = 0 := by linarith
  have hsin0 : Real.sin (witPhi i) = 0 := by linarith
  have hid := Real.sin_sq_add_cos_sq (witPhi i)
  rw [hcos0, hsin0] at hid
  norm_num at hid

lemma nodup_grid_append_caps (M N : ℕ) (v : ℕ → ℕ → Vec3) (s e : Vec3)
    (hinj : ∀ i j i' j', i < M → j < N → i' < M → j' < N →
      v i j = v i' j' → i = i' ∧ j = j')
    (hs : ∀ i j, i < M → j < N → v i j ≠ s)
    (he : ∀ i j, i < M → j < N → v i j ≠ e)
    (hse : s ≠ e) :
    ((List.range M).flatMap (fun i => (List.range N).map (v i)) ++
      [s, e]).Nodup := by
  have hmem : ∀ (x : Vec3) (k a : ℕ),
      x ∈ (List.range' a k).flatMap (fun i => (List.range N).map (v i)) →
      ∃ i, a ≤ i ∧ i < a + k ∧ ∃ j, j < N ∧ x = v i j := by
    intro x k a hx
    rw [List.mem_flatMap] at hx
    obtain ⟨i, hi, hx⟩ := hx
    rw [List.mem_range'_1] at hi
    rw [List.mem_map] at hx
    obtain ⟨j, hj, hx⟩ := hx
    rw [List.mem_range] at hj
    exact ⟨i, hi.1, hi.2, j, hj, hx.symm⟩
  have hgrid : ∀ (k a : ℕ), a + k ≤ M →
      ((List.range' a k).flatMap
        (fun i => (List.range N).map (v i))).Nodup := by
    intro k
    induction k with
    | zero => intro a _; exact List.nodup_nil
    | succ m ih =>
      intro a ha
      rw [List.range'_succ, List.flatMap_cons, List.nodup_append]
      refine ⟨?_, ih (a+1) (by omega), ?_⟩
      · refine List.Nodup.map_on ?_ (List.nodup_range N)
        intro x hx y hy hxy
        rw [List.mem_range] at hx hy
        exact (hinj a x a y (by omega) hx (by omega) hy hxy).2
      · intro x hx1 hx2
        rw [List.mem_map] at hx1
        obtain ⟨j, hj, rfl⟩ := hx1
        rw [List.mem_range] at hj
        obtain ⟨i', hi'1, hi'2, j', hj', hx'⟩ := hmem _ m (a+1) hx2
        have := hinj a j i' j' (by omega) hj (by omega) hj' hx'
        omega
  rw [List.nodup_append]
  refine ⟨?_, ?_, ?_⟩
  · rw [List.range_eq_range']
    exact hgrid M 0 (by omega)
  · simp [hse]
  · intro x hx1 hx2
    rw [List.range_eq_range'] at hx1
    obtain ⟨i, -, hiM, j, hjN, rfl⟩ := hmem x M 0 hx1
    simp only [List.mem_cons, List.not_mem_nil, or_false] at hx2
    rcases hx2 with h | h
    · exact hs i j (by omega) hjN h
    · exact he i j (by omega) hjN h

/-- Witness for Claim C2 (amended): a concrete quarter-circle segment
of the unit circle (`p2 = p3 = (0,1,0)`, sweep `π/2`), minor radius
`1/2`, resolution 1: its sampled vertices are pairwise distinct, so the
merge is trivial and the generated mesh passes every check. -/
theorem generate_torus_segment_valid_witness :
    (generate_torus_segment ⟨0,0,0⟩ ⟨0,0,1⟩ 1 (1/2) ⟨1,0,0⟩ ⟨0,1,0⟩
        ⟨0,1,0⟩ 1).is_watertight = true ∧
    (generate_torus_segment ⟨0,0,0⟩ ⟨0,0,1⟩ 1 (1/2) ⟨1,0,0⟩ ⟨0,1,0⟩
        ⟨0,1,0⟩ 1).is_winding_consistent = true ∧
    (generate_torus_segment ⟨0,0,0⟩ ⟨0,0,1⟩ 1 (1/2) ⟨1,0,0⟩ ⟨0,1,0⟩
        ⟨0,1,0⟩ 1).is_empty = false ∧
    check_mesh_validity (generate_torus_segment ⟨0,0,0⟩ ⟨0,0,1⟩ 1 (1/2)
        ⟨1,0,0⟩ ⟨0,1,0⟩ ⟨0,1,0⟩ 1) = (true, validMsg) := by
  refine generate_torus_segment_valid ⟨0,0,0⟩ ⟨0,0,1⟩ 1 (1/2) ⟨1,0,0⟩
    ⟨0,1,0⟩ ⟨0,1,0⟩ 1 (by norm_num) (le_refl 1) ?_ ?_ ?_ ?_ ?_ ?_ ?_
  · simp only [Vec3.norm, sub, dot]
    rw [show ((1:ℝ) - 0) * (1 - 0) + (0 - 0) * (0 - 0) + (0 - 0) * (0 - 0)
      = 1 by norm_num, Real.sqrt_one]
  · simp only [Vec3.norm, sub, dot]
    rw [show ((0:ℝ) - 0) * (0 - 0) + (1 - 0) * (1 - 0) + (0 - 0) * (0 - 0)
      = 1 by norm_num, Real.sqrt_one]
  · simp only [Vec3.norm, sub, dot]
    rw [show ((0:ℝ) - 0) * (0 - 0) + (1 - 0) * (1 - 0) + (0 - 0) * (0 - 0)
      = 1 by norm_num, Real.sqrt_one]
  · simp only [sub, dot]
    norm_num
  · simp only [sub, dot]
    norm_num
  · simp only [sub, dot]
    norm_num
  · apply nodup_grid_append_caps
    · intro i j i' j' hi hj hi' hj' h
      rw [wit_vertex, wit_vertex] at h
      rw [deg_nMinor] at hi hi'
      rw [witN_eq] at hj hj'
      exact witRow_inj i j i' j' hi hj hi' hj' h
    · intro i j hi hj h
      rw [wit_vertex, deg_sc] at h
      exact witRow_ne_s i j h
    · intro i j hi hj h
      rw [wit_vertex, wit_ec] at h
      exact witRow_ne_e i j h
    · rw [deg_sc, wit_ec]
      intro h
      rw [Vec3.mk.injEq] at h
      norm_num at h

end OrthoGen
